import Mathlib

/-!
# System-call layer of Pintos (`userprog/syscall.c`)

A shallow embedding of `src/pintos/src/userprog/syscall.c` and theorems about it.

Conventions of the embedding.

* A 32-bit word is a `Nat` below `2 ^ 32`; a C `int` is an `Int` obtained from a
  word by `to_int` (two's complement) and stored back by `to_u32`.  Signed
  arithmetic (`i + 1`, `last_fileno++`) wraps at 32 bits.
* User memory is a `Machine`: which addresses are present in the page directory
  of the running process and which byte each address holds.  A kernel access to
  an address that is not present ends the computation in `Res.page_fault`;
  `peek32 m a = some w` says that the four bytes of the word at `a` are present
  and hold `w`.
* The kernel state that `syscall.c` touches is a `Kernel`: the current thread
  (name, `wait_info->exit_status`, the descriptor list and `last_fileno`), the
  return slot `f->eax`, whether `filesys_lock` is held by the current thread,
  and a chronological `trace` of everything the code did.
* Functions of other files (`filesys_open`, `file_read`, `process_wait`,
  `malloc`, ...) are collaborators.  A call to one is recorded in the trace
  together with its result; the result is given by an `Env`, as a function of
  the trace so far and the arguments, so any behaviour of a collaborator over a
  run is some `Env`.  Collaborators are assumed to return; `thread_exit` and
  `shutdown_power_off` do not return, and what they do is outside the file.
* The console write `putbuf (buffer, size)` reads the bytes it prints from user
  memory, so after its call is recorded the kernel reads the `size` bytes from
  `buffer` on, one by one (`putbuf_loop`), and faults on one that is not present.
  Accesses to user memory made inside the filesystem and process collaborators
  are not modelled.
* The file is embedded as it is compiled for user programs (`USERPROG` defined).
-/

namespace Pintos

/-! ## Machine words -/

/-- Value of a 32-bit word converted to a C `int`. -/
def to_int (w : Nat) : Int :=
  if w % 4294967296 < 2147483648 then ((w % 4294967296 : Nat) : Int)
  else ((w % 4294967296 : Nat) : Int) - 4294967296

/-- The 32-bit word holding a C `int` (conversion to `uint32_t`). -/
def to_u32 (i : Int) : Nat := (i % 4294967296).toNat

/-- Address `p + n` in 32-bit pointer arithmetic. -/
def padd (p n : Nat) : Nat := (p + n) % 4294967296

/-- Address `p + n - 1` in 32-bit pointer arithmetic (`buffer + size - 1`,
`file + strlen (file) - 1`): subtracting one is adding `2 ^ 32 - 1` modulo `2 ^ 32`. -/
def last_byte (p n : Nat) : Nat := (4294967295 + (p + n)) % 4294967296

/-! ## Constants of headers outside the translated file -/

/-- Values defined in `threads/vaddr.h` and `syscall-nr.h`, taken as parameters. -/
structure Consts where
  PHYS_BASE : Nat
  SYS_HALT : Int
  SYS_EXIT : Int
  SYS_EXEC : Int
  SYS_WAIT : Int
  SYS_CREATE : Int
  SYS_REMOVE : Int
  SYS_OPEN : Int
  SYS_FILESIZE : Int
  SYS_READ : Int
  SYS_WRITE : Int
  SYS_SEEK : Int
  SYS_TELL : Int
  SYS_CLOSE : Int
  SYS_PRACTICE : Int

/-! ## State -/

/-- Everything observable that the code does, in the order it does it. -/
inductive Event where
  /-- Call `is_valid_ptr (a)`, which returned `r`. -/
  | valid (a : Nat) (r : Bool)
  /-- The kernel read the byte at address `a`. -/
  | load (a : Nat)
  /-- The kernel wrote byte `v` at address `a`. -/
  | store (a : Nat) (v : Nat)
  /-- Assignment `f->eax = v`. -/
  | set_eax (v : Nat)
  /-- The line `"<name>: exit(<status>)\n"` was printed. -/
  | printf_exit (name : String) (status : Int)
  | thread_exit
  | shutdown_power_off
  | lock_acquire
  | lock_release
  | putbuf (buffer size : Nat)
  | input_getc (ch : Nat)
  | filesys_create (name size : Nat) (r : Bool)
  | filesys_remove (name : Nat) (r : Bool)
  | filesys_open (name : Nat) (r : Nat)
  | file_length (file : Nat) (r : Int)
  | file_read (file buffer size : Nat) (r : Int)
  | file_write (file buffer size : Nat) (r : Int)
  | file_seek (file position : Nat)
  | file_tell (file : Nat) (r : Int)
  | file_close (file : Nat)
  | malloc (r : Nat)
  | free
  | process_wait (pid : Int) (r : Int)
  | process_execute (file : Nat) (r : Int)
  deriving DecidableEq, Repr

/-- An entry of the per-thread descriptor list: `int fileno; struct file *file`. -/
structure file_descriptor_t where
  fileno : Int
  file : Nat
  deriving DecidableEq, Repr

/-- The fields of `struct thread` used by `syscall.c`; `exit_status` is
`wait_info->exit_status`. -/
structure thread where
  name : String
  exit_status : Int
  file_descriptors : List file_descriptor_t
  last_fileno : Int
  deriving DecidableEq, Repr

/-- Kernel state seen by the system-call layer. -/
structure Kernel where
  cur : thread
  eax : Nat
  filesys_lock : Bool
  trace : List Event
  deriving DecidableEq, Repr

/-- User memory of the running process: page-directory presence and contents. -/
structure Machine where
  present : Nat → Bool
  byte : Nat → Nat

/-- Results of the collaborators, as functions of the trace so far and the arguments. -/
structure Env where
  filesys_create : List Event → Nat → Nat → Bool
  filesys_remove : List Event → Nat → Bool
  filesys_open : List Event → Nat → Nat
  file_length : List Event → Nat → Int
  file_read : List Event → Nat → Nat → Nat → Int
  file_write : List Event → Nat → Nat → Nat → Int
  file_tell : List Event → Nat → Int
  input_getc : List Event → Nat
  malloc : List Event → Nat
  process_wait : List Event → Int → Int
  process_execute : List Event → Nat → Int

/-- How a piece of kernel code ends. -/
inductive Res (α : Type) where
  /-- Control continues with value `a`. -/
  | ok (a : α) (k : Kernel)
  /-- The code called `thread_exit ()`, which does not return. -/
  | exited (k : Kernel)
  /-- The code called `shutdown_power_off ()`, which does not return. -/
  | halted (k : Kernel)
  /-- The kernel accessed address `a`, which is not present. -/
  | page_fault (a : Nat) (k : Kernel)
  /-- The kernel dereferenced a null pointer. -/
  | null_deref (k : Kernel)
  /-- The code loops forever. -/
  | hang (k : Kernel)
  deriving DecidableEq, Repr

/-- Kernel code computing an `α`. -/
def K (α : Type) : Type := Kernel → Res α

/-- Sequencing: the rest runs only when the first part continues. -/
def K.bind {α β : Type} (x : K α) (f : α → K β) : K β := fun k =>
  match x k with
  | .ok a k1 => f a k1
  | .exited k1 => .exited k1
  | .halted k1 => .halted k1
  | .page_fault a k1 => .page_fault a k1
  | .null_deref k1 => .null_deref k1
  | .hang k1 => .hang k1

/-- Code that does nothing and yields `a`. -/
def K.pure {α : Type} (a : α) : K α := fun k => .ok a k

instance : Monad K where
  pure := K.pure
  bind := K.bind

/-- The state after the events `es`. -/
def Kernel.logs (k : Kernel) (es : List Event) : Kernel :=
  { k with trace := k.trace ++ es }

/-- Record one event. -/
def emit (e : Event) : K Unit := fun k => .ok () (k.logs [e])

/-- Ask a collaborator for its result at the present trace. -/
def ask {α : Type} (f : List Event → α) : K α := fun k => .ok (f k.trace) k

/-! ## Memory access -/

/-- Read of one byte of memory by the kernel. -/
def load8 (m : Machine) (a : Nat) : K Nat := fun k =>
  if m.present a then .ok (m.byte a % 256) (k.logs [.load a])
  else .page_fault a (k.logs [.load a])

/-- Read of the little-endian 32-bit word at `a` (`args[i]`). -/
def load32 (m : Machine) (a : Nat) : K Nat := do
  let b0 ← load8 m a
  let b1 ← load8 m (padd a 1)
  let b2 ← load8 m (padd a 2)
  let b3 ← load8 m (padd a 3)
  pure (b0 + 256 * b1 + 65536 * b2 + 16777216 * b3)

/-- Write of one byte of memory by the kernel. -/
def store8 (m : Machine) (a v : Nat) : K Unit := fun k =>
  if m.present a then .ok () (k.logs [.store a v])
  else .page_fault a (k.logs [.store a v])

/-- The loop of `strlen`: `n` bytes counted so far, next byte at `a`. -/
def strlen_loop (m : Machine) : Nat → Nat → Nat → K Nat
  | 0, _, _ => fun k => .hang k
  | fuel + 1, a, n => do
    let b ← load8 m a
    if b = 0 then pure n else strlen_loop m fuel (padd a 1) (n + 1)

/-- Library function `strlen (p)`: scans memory from `p` to the first zero byte.  After a whole
turn of the address space without one the scan repeats for ever. -/
def strlen (m : Machine) (p : Nat) : K Nat := strlen_loop m 4294967296 p 0

/-- The word at `a` when its four bytes are present. -/
def peek32 (m : Machine) (a : Nat) : Option Nat :=
  if m.present a && m.present (padd a 1) && m.present (padd a 2) && m.present (padd a 3) then
    some (m.byte a % 256 + 256 * (m.byte (padd a 1) % 256) + 65536 * (m.byte (padd a 2) % 256)
      + 16777216 * (m.byte (padd a 3) % 256))
  else none

/-- The four byte reads of a word read at `a`. -/
def loads32 (a : Nat) : List Event :=
  [.load a, .load (padd a 1), .load (padd a 2), .load (padd a 3)]

/-! ## `syscall.c` -/

/-- Function `is_valid_ptr`: non-null, below `PHYS_BASE` (`is_user_vaddr`) and present in
the page directory of the current thread (`pagedir_get_page (...) != NULL`). -/
def is_valid_ptr (c : Consts) (m : Machine) (ptr : Nat) : Bool :=
  ptr != 0 && decide (ptr < c.PHYS_BASE) && m.present ptr

/-- A call of `is_valid_ptr`, recorded in the trace. -/
def check_ptr (c : Consts) (m : Machine) (ptr : Nat) : K Bool := fun k =>
  .ok (is_valid_ptr c m ptr) (k.logs [.valid ptr (is_valid_ptr c m ptr)])

/-- Assignment `f->eax = v`. -/
def set_eax (v : Nat) : K Unit := fun k =>
  .ok () { k with eax := v, trace := k.trace ++ [.set_eax v] }

/-- Call `printf ("%s: exit(%d)\n", thread_current ()->name, status)`. -/
def printf_exit (status : Int) : K Unit := fun k =>
  .ok () (k.logs [.printf_exit k.cur.name status])

/-- Call `thread_exit ()`. -/
def thread_exit : K Unit := fun k => .exited (k.logs [.thread_exit])

/-- Function `exit_error`. -/
def exit_error : K Unit := do
  (fun k => .ok () { k with cur := { k.cur with exit_status := -1 } })
  printf_exit (-1)
  thread_exit

/-- The search loop of `find_file_descriptor` over the descriptor list. -/
def find_in : List file_descriptor_t → Int → Option file_descriptor_t
  | [], _ => none
  | d :: rest, fd => if d.fileno = fd then some d else find_in rest fd

/-- Function `find_file_descriptor`: the first entry whose `fileno` is `fd`. -/
def find_file_descriptor (fd : Int) (k : Kernel) : Option file_descriptor_t :=
  find_in k.cur.file_descriptors fd

/-- The list without its first entry whose `fileno` is `fd`: `list_remove` of
the element that `find_file_descriptor (fd)` returned. -/
def remove_in : List file_descriptor_t → Int → List file_descriptor_t
  | [], _ => []
  | d :: rest, fd => if d.fileno = fd then rest else d :: remove_in rest fd

/-- The call `list_remove (&file_descriptor->elem)` on the entry found for `fd`. -/
def remove_fd (fd : Int) : K Unit := fun k =>
  .ok () { k with cur := { k.cur with file_descriptors := remove_in k.cur.file_descriptors fd } }

/-- The block `f->eax = -1; exit_error ();`. -/
def fail_exit : K Unit := do
  set_eax (to_u32 (-1))
  exit_error

/-- A call of `find_file_descriptor`; `none` is the NULL pointer. -/
def lookup (fd : Int) : K (Option file_descriptor_t) := fun k =>
  .ok (find_file_descriptor fd k) k

/-- The read `file_descriptor->file` through the pointer the lookup returned. -/
def file_of : Option file_descriptor_t → K Nat
  | none => fun k => .null_deref k
  | some d => pure d.file

/-- Modelled from the spec: `putbuf`, the console write primitive, is outside
the translated file; it sends the `size` bytes starting at `buffer` to the
console, so the kernel reads them one at a time, here with `n` bytes left and
the next one at index `i`. -/
def putbuf_loop (m : Machine) (buffer : Nat) : Nat → Nat → K Unit
  | 0, _ => pure ()
  | n + 1, i => do
    let _ ← load8 m (padd buffer i)
    putbuf_loop m buffer n (i + 1)

/-- Function `syscall_write`. -/
def syscall_write (c : Consts) (env : Env) (m : Machine) (args : Nat) : K Unit := do
  let fd := to_int (← load32 m (padd args 4))
  let buffer ← load32 m (padd args 8)
  let size ← load32 m (padd args 12)
  let v1 ← check_ptr c m buffer
  let bad ← (if !v1 then pure true else do
    let v2 ← check_ptr c m (last_byte buffer size)
    pure (!v2 || fd == 0))
  if bad then fail_exit
  else if fd == 1 then do
    emit (.putbuf buffer size)
    putbuf_loop m buffer size 0
    set_eax size
  else do
    let file_descriptor ← lookup fd
    if file_descriptor = none then fail_exit
    let file ← file_of file_descriptor
    let r ← (ask (fun t => env.file_write t file buffer size))
    emit (.file_write file buffer size r)
    set_eax (to_u32 r)

/-- The test `!is_valid_ptr (file) || !is_valid_ptr (file + strlen (file) - 1)`. -/
def bad_string (c : Consts) (m : Machine) (file : Nat) : K Bool := do
  let v1 ← check_ptr c m file
  if !v1 then pure true else do
    let len ← strlen m file
    let v2 ← check_ptr c m (last_byte file len)
    pure (!v2)

/-- Function `syscall_create`. -/
def syscall_create (c : Consts) (env : Env) (m : Machine) (args : Nat) : K Unit := do
  let file ← load32 m (padd args 4)
  let initial_size ← load32 m (padd args 8)
  let bad ← bad_string c m file
  if bad then fail_exit
  else do
    let r ← (ask (fun t => env.filesys_create t file initial_size))
    emit (.filesys_create file initial_size r)
    set_eax (if r then 1 else 0)

/-- Function `syscall_remove`. -/
def syscall_remove (c : Consts) (env : Env) (m : Machine) (args : Nat) : K Unit := do
  let file ← load32 m (padd args 4)
  let bad ← bad_string c m file
  if bad then fail_exit
  else do
    let r ← (ask (fun t => env.filesys_remove t file))
    emit (.filesys_remove file r)
    set_eax (if r then 1 else 0)

/-- The statements of `syscall_open` after a successful `filesys_open`:
`last_fileno++`, `malloc`, the two field assignments, `list_push_back`. -/
def install_fd (env : Env) (opened_file : Nat) : K Int := fun k =>
  let fileno := k.cur.last_fileno
  let k1 : Kernel :=
    { k with cur := { k.cur with last_fileno := to_int (to_u32 (fileno + 1)) } }
  let p := env.malloc k1.trace
  let k2 := k1.logs [.malloc p]
  if p = 0 then .null_deref k2
  else .ok fileno
    { k2 with cur := { k2.cur with
        file_descriptors := k2.cur.file_descriptors ++ [⟨fileno, opened_file⟩] } }

/-- Function `syscall_open`. -/
def syscall_open (c : Consts) (env : Env) (m : Machine) (args : Nat) : K Unit := do
  let file ← load32 m (padd args 4)
  let bad ← bad_string c m file
  if bad then fail_exit
  else do
    let opened_file ← (ask (fun t => env.filesys_open t file))
    emit (.filesys_open file opened_file)
    if opened_file = 0 then set_eax (to_u32 (-1))
    else do
      let fileno ← install_fd env opened_file
      set_eax (to_u32 fileno)

/-- Function `syscall_filesize`. -/
def syscall_filesize (env : Env) (m : Machine) (args : Nat) : K Unit := do
  let fd := to_int (← load32 m (padd args 4))
  if fd == 0 || fd == 1 then fail_exit
  else do
    let file_descriptor ← lookup fd
    if file_descriptor = none then fail_exit
    let file ← file_of file_descriptor
    let r ← (ask (fun t => env.file_length t file))
    emit (.file_length file r)
    set_eax (to_u32 r)

/-- The loop `for (i = 0; i < size; i++) buffer[i] = input_getc ();`, with
`n` iterations left and index `i`. -/
def getc_loop (env : Env) (m : Machine) (buffer : Nat) : Nat → Nat → K Unit
  | 0, _ => pure ()
  | n + 1, i => do
    let ch ← (ask (fun t => env.input_getc t % 256))
    emit (.input_getc ch)
    store8 m (padd buffer i) ch
    getc_loop env m buffer n (i + 1)

/-- Function `syscall_read`. -/
def syscall_read (c : Consts) (env : Env) (m : Machine) (args : Nat) : K Unit := do
  let fd := to_int (← load32 m (padd args 4))
  let buffer ← load32 m (padd args 8)
  let size ← load32 m (padd args 12)
  let v1 ← check_ptr c m buffer
  let bad ← (if !v1 then pure true else do
    let v2 ← check_ptr c m (last_byte buffer size)
    pure (!v2 || fd == 1))
  if bad then fail_exit
  else if fd == 0 then do
    getc_loop env m buffer size 0
    set_eax size
  else do
    let file_descriptor ← lookup fd
    if file_descriptor = none then fail_exit
    let file ← file_of file_descriptor
    let r ← (ask (fun t => env.file_read t file buffer size))
    emit (.file_read file buffer size r)
    set_eax (to_u32 r)

/-- Function `syscall_seek`: the result of the lookup is used without a test. -/
def syscall_seek (m : Machine) (args : Nat) : K Unit := do
  let fd := to_int (← load32 m (padd args 4))
  let position ← load32 m (padd args 8)
  let file_descriptor ← lookup fd
  let file ← file_of file_descriptor
  emit (.file_seek file position)
  set_eax 0

/-- Function `syscall_tell`. -/
def syscall_tell (env : Env) (m : Machine) (args : Nat) : K Unit := do
  let fd := to_int (← load32 m (padd args 4))
  let file_descriptor ← lookup fd
  if file_descriptor = none then fail_exit
  let file ← file_of file_descriptor
  let r ← (ask (fun t => env.file_tell t file))
  emit (.file_tell file r)
  set_eax (to_u32 r)

/-- Function `syscall_close`. -/
def syscall_close (m : Machine) (args : Nat) : K Unit := do
  let fd := to_int (← load32 m (padd args 4))
  let file_descriptor ← lookup fd
  if file_descriptor = none then fail_exit
  let file ← file_of file_descriptor
  emit (.file_close file)
  remove_fd fd
  emit .free
  set_eax 0

/-- Function `syscall_exit`. -/
def syscall_exit (m : Machine) (args : Nat) : K Unit := do
  let status := to_int (← load32 m (padd args 4))
  set_eax (to_u32 status)
  printf_exit status
  thread_exit

/-- Function `syscall_practice`. -/
def syscall_practice (m : Machine) (args : Nat) : K Unit := do
  let i := to_int (← load32 m (padd args 4))
  set_eax (to_u32 (i + 1))

/-- Function `syscall_halt`. -/
def syscall_halt : K Unit := fun k => .halted (k.logs [.shutdown_power_off])

/-- Function `syscall_wait`. -/
def syscall_wait (env : Env) (m : Machine) (args : Nat) : K Unit := do
  let pid := to_int (← load32 m (padd args 4))
  let r ← (ask (fun t => env.process_wait t pid))
  emit (.process_wait pid r)
  set_eax (to_u32 r)

/-- Function `syscall_exec`. -/
def syscall_exec (c : Consts) (env : Env) (m : Machine) (args : Nat) : K Unit := do
  let file ← load32 m (padd args 4)
  let bad ← bad_string c m file
  if bad then fail_exit
  else do
    let r ← (ask (fun t => env.process_execute t file))
    emit (.process_execute file r)
    set_eax (to_u32 r)

/-- The handlers of the table. -/
inductive Sys where
  | write | create | remove | open | filesize | read | seek | tell | close
  | exit | practice | halt | wait | exec
  deriving DecidableEq, Repr

/-- The function a table entry points to, applied to `(f, args)`. -/
def Sys.func (c : Consts) (env : Env) (m : Machine) (args : Nat) : Sys → K Unit
  | .write => syscall_write c env m args
  | .create => syscall_create c env m args
  | .remove => syscall_remove c env m args
  | .open => syscall_open c env m args
  | .filesize => syscall_filesize env m args
  | .read => syscall_read c env m args
  | .seek => syscall_seek m args
  | .tell => syscall_tell env m args
  | .close => syscall_close m args
  | .exit => syscall_exit m args
  | .practice => syscall_practice m args
  | .halt => syscall_halt
  | .wait => syscall_wait env m args
  | .exec => syscall_exec c env m args

/-- An entry of `syscall_table`. -/
structure syscall_descriptor_t where
  number : Int
  syscall_func : Sys
  is_file_op : Bool
  deriving DecidableEq, Repr

/-- The array `syscall_table`, in source order. -/
def syscall_table (c : Consts) : List syscall_descriptor_t :=
  [ ⟨c.SYS_WRITE, .write, true⟩,
    ⟨c.SYS_CREATE, .create, true⟩,
    ⟨c.SYS_REMOVE, .remove, true⟩,
    ⟨c.SYS_OPEN, .open, true⟩,
    ⟨c.SYS_FILESIZE, .filesize, true⟩,
    ⟨c.SYS_READ, .read, true⟩,
    ⟨c.SYS_SEEK, .seek, true⟩,
    ⟨c.SYS_TELL, .tell, true⟩,
    ⟨c.SYS_CLOSE, .close, true⟩,
    ⟨c.SYS_EXIT, .exit, false⟩,
    ⟨c.SYS_PRACTICE, .practice, false⟩,
    ⟨c.SYS_HALT, .halt, false⟩,
    ⟨c.SYS_WAIT, .wait, false⟩,
    ⟨c.SYS_EXEC, .exec, false⟩ ]

/-- Call `lock_acquire (&filesys_lock)`. -/
def lock_acquire : K Unit := fun k =>
  .ok () { k with filesys_lock := true, trace := k.trace ++ [.lock_acquire] }

/-- Call `lock_release (&filesys_lock)`. -/
def lock_release : K Unit := fun k =>
  .ok () { k with filesys_lock := false, trace := k.trace ++ [.lock_release] }

/-- The `for` loop of `syscall_handler` over the entries not yet compared,
followed by the final `exit_error ()`. -/
def dispatch (c : Consts) (env : Env) (m : Machine) (args : Nat) (syscall_number : Int) :
    List syscall_descriptor_t → K Unit
  | [] => exit_error
  | d :: rest =>
    if syscall_number = d.number then do
      if d.is_file_op then lock_acquire
      d.syscall_func.func c env m args
      if d.is_file_op then lock_release
    else dispatch c env m args syscall_number rest

/-- Function `syscall_handler`, entered with `f->esp = esp`. -/
def syscall_handler (c : Consts) (env : Env) (m : Machine) (esp : Nat) : K Unit := do
  let v ← check_ptr c m esp
  if !v then exit_error
  let args := esp
  let v ← check_ptr c m args
  if !v then exit_error
  let syscall_number := to_int (← load32 m args)
  dispatch c env m args syscall_number (syscall_table c)

/-! ## Notions used by the statements -/

/-- Events that only inspect the request or write the return slot: pointer
checks, reads of user memory and `f->eax = v`.  Every other event is a call of a
primitive, a write to user memory, a printed line or a lock operation. -/
def Event.quiet : Event → Bool
  | .valid _ _ => true
  | .load _ => true
  | .set_eax _ => true
  | _ => false

/-- Fatal termination out of state `k`: after quiet events only, the exit status
becomes `-1`, exactly one line `"<name>: exit(-1)"` is printed and the thread
exits; the descriptor list, the counter and the lock are as in `k`. -/
def Fatal (k : Kernel) (r : Res Unit) : Prop :=
  ∃ (es : List Event) (eax : Nat), (∀ e ∈ es, e.quiet = true) ∧
    r = .exited { cur := { k.cur with exit_status := -1 }, eax := eax,
                  filesys_lock := k.filesys_lock,
                  trace := k.trace ++ es ++ [.printf_exit k.cur.name (-1), .thread_exit] }

/-- One call of a handler: the handler, the user memory at the time of the call
and the argument pointer. -/
structure Call where
  sys : Sys
  m : Machine
  args : Nat

/-- The call is `close (n)`. -/
def Call.is_close (x : Call) (n : Int) : Prop :=
  x.sys = .close ∧ (peek32 x.m (padd x.args 4)).map to_int = some n

/-- The state after a sequence of handler calls that all return to the caller. -/
def run_calls (c : Consts) (env : Env) : List Call → Kernel → Option Kernel
  | [], k => some k
  | x :: xs, k =>
    match x.sys.func c env x.m x.args k with
    | .ok _ k1 => run_calls c env xs k1
    | _ => none

/-- The events of the buffer test of `read` and `write`: the first byte is
checked, the last byte only when the first is valid. -/
def buffer_checks (c : Consts) (m : Machine) (buffer size : Nat) : List Event :=
  if is_valid_ptr c m buffer then
    [.valid buffer true, .valid (last_byte buffer size) (is_valid_ptr c m (last_byte buffer size))]
  else [.valid buffer false]

/-- The three argument reads of `read` and `write`. -/
def loads_rw (args : Nat) : List Event :=
  loads32 (padd args 4) ++ loads32 (padd args 8) ++ loads32 (padd args 12)

/-- Every continuing run of `x` relates the state before to the state after by `R`. -/
def Keeps {α : Type} (R : Kernel → Kernel → Prop) (x : K α) : Prop :=
  ∀ k a k1, x k = .ok a k1 → R k k1

/-- A relation between states that composes and holds whenever the current
thread's fields are the same: it does not look at `eax`, the lock or the trace. -/
structure Stable (R : Kernel → Kernel → Prop) : Prop where
  trans : ∀ k1 k2 k3, R k1 k2 → R k2 k3 → R k1 k3
  of_cur : ∀ k k1, k1.cur = k.cur → R k k1

/-- The lookup of `n` that gave `d` before still gives `d` after. -/
def FindStays (n : Int) (d : file_descriptor_t) (k k1 : Kernel) : Prop :=
  find_file_descriptor n k = some d → find_file_descriptor n k1 = some d

/-- In state `k`, `seek` and `tell` on fileno `n` return to the caller after
calling `file_seek`, `file_tell` on the handle `h`. -/
def SeekTellDelegate (env : Env) (n : Int) (h : Nat) (k : Kernel) : Prop :=
  (∀ (m : Machine) (args w pos : Nat), peek32 m (padd args 4) = some w → to_int w = n →
    peek32 m (padd args 8) = some pos →
    syscall_seek m args k = .ok ()
      { cur := k.cur, eax := 0, filesys_lock := k.filesys_lock,
        trace := k.trace ++ (loads32 (padd args 4) ++ loads32 (padd args 8) ++
          [.file_seek h pos, .set_eax 0]) }) ∧
  (∀ (m : Machine) (args w : Nat), peek32 m (padd args 4) = some w → to_int w = n →
    ∃ r : Int, syscall_tell env m args k = .ok ()
      { cur := k.cur, eax := to_u32 r, filesys_lock := k.filesys_lock,
        trace := k.trace ++ (loads32 (padd args 4) ++
          [.file_tell h r, .set_eax (to_u32 r)]) })

/-- In state `k`, `read` and `write` on fileno `n` with a buffer whose first and
last byte are valid return to the caller after calling `file_read`,
`file_write` on the handle `h` with that buffer and size. -/
def ReadWriteDelegate (c : Consts) (env : Env) (n : Int) (h : Nat) (k : Kernel) : Prop :=
  ∀ (m : Machine) (args w buffer size : Nat), peek32 m (padd args 4) = some w → to_int w = n →
    peek32 m (padd args 8) = some buffer → peek32 m (padd args 12) = some size →
    is_valid_ptr c m buffer = true → is_valid_ptr c m (last_byte buffer size) = true →
    (∃ r : Int, syscall_read c env m args k = .ok ()
      { cur := k.cur, eax := to_u32 r, filesys_lock := k.filesys_lock,
        trace := k.trace ++ (loads_rw args ++ buffer_checks c m buffer size ++
          [.file_read h buffer size r, .set_eax (to_u32 r)]) }) ∧
    (∃ r : Int, syscall_write c env m args k = .ok ()
      { cur := k.cur, eax := to_u32 r, filesys_lock := k.filesys_lock,
        trace := k.trace ++ (loads_rw args ++ buffer_checks c m buffer size ++
          [.file_write h buffer size r, .set_eax (to_u32 r)]) })

/-- In state `k`, the handlers that look fileno `n` up terminate the process
fatally: `tell`, `filesize` and `close` always, `read` unless `n` is 0 (the
keyboard) and `write` unless `n` is 1 (the console), whatever the buffer. -/
def UnknownFatal (c : Consts) (env : Env) (n : Int) (k : Kernel) : Prop :=
  (∀ (m : Machine) (args w : Nat), peek32 m (padd args 4) = some w → to_int w = n →
    Fatal k (syscall_tell env m args k) ∧ Fatal k (syscall_filesize env m args k) ∧
    Fatal k (syscall_close m args k)) ∧
  (∀ (m : Machine) (args w buffer size : Nat), peek32 m (padd args 4) = some w → to_int w = n →
    peek32 m (padd args 8) = some buffer → peek32 m (padd args 12) = some size →
    (n ≠ 0 → Fatal k (syscall_read c env m args k)) ∧
    (n ≠ 1 → Fatal k (syscall_write c env m args k)))

/-! ## Notions used by the statements on strings, outcomes and sequences -/

/-- A C string of length `len` at `a`: `len` present non-zero bytes followed by
a present zero byte. -/
def is_cstring (m : Machine) : Nat → Nat → Bool
  | a, 0 => m.present a && (m.byte a % 256 == 0)
  | a, len + 1 => m.present a && (m.byte a % 256 != 0) && is_cstring m (padd a 1) len

/-- The byte reads of `strlen` on a string of length `len` at `a`. -/
def string_loads : Nat → Nat → List Event
  | a, 0 => [.load a]
  | a, len + 1 => .load a :: string_loads (padd a 1) len

/-- The events of the string test on a valid pointer `p` to a string of length
`len`: the check of `p`, the reads of `strlen`, the check of the last byte. -/
def string_checks (c : Consts) (m : Machine) (p len : Nat) : List Event :=
  [.valid p true] ++ string_loads p len ++
    [.valid (last_byte p len) (is_valid_ptr c m (last_byte p len))]

/-- The state in which a piece of code ends, however it ends. -/
def Res.state {α : Type} : Res α → Kernel
  | .ok _ k => k
  | .exited k => k
  | .halted k => k
  | .page_fault _ k => k
  | .null_deref k => k
  | .hang k => k

/-- The event is an assignment to the return slot. -/
def Event.is_set_eax : Event → Bool
  | .set_eax _ => true
  | _ => false

/-- The event is an operation on `filesys_lock`. -/
def Event.is_lock : Event → Bool
  | .lock_acquire => true
  | .lock_release => true
  | _ => false

/-! ## Sample inputs -/

/-- Sample header values: `PHYS_BASE` and the system-call numbers in the order
of the handlers' declaration in Pintos. -/
def sample_consts : Consts :=
  ⟨0xc0000000, 0, 1, 2, 3, 4, 5, 6, 7, 8, 9, 10, 11, 12, 13⟩

/-- Sample collaborators: every operation succeeds; `filesys_open` returns the
handle `0xc0100000`, transfers move all the bytes asked for. -/
def sample_env : Env :=
  ⟨fun _ _ _ => true, fun _ _ => true, fun _ _ => 0xc0100000, fun _ _ => 5,
   fun _ _ _ n => n, fun _ _ _ n => n, fun _ _ => 0, fun _ => 65,
   fun _ => 0xc0200000, fun _ _ => -1, fun _ _ => 3⟩

/-- Sample initial state: a thread `main` with an empty descriptor list. -/
def k_init : Kernel := ⟨⟨"main", 0, [], 2⟩, 0, false, []⟩

/-- Sample memory: the words `ws` from address `base` on and nothing else. -/
def word_mem (base : Nat) (ws : List Nat) : Machine :=
  ⟨fun a => decide (base ≤ a) && decide (a < base + 4 * ws.length),
   fun a => (ws.getD ((a - base) / 4) 0) / 256 ^ ((a - base) % 4) % 256⟩

/-- Sample memory of a trap at the top of the user stack: the user page below
`PHYS_BASE` holds the word `w` at `0xbffffffc`; kernel memory from `PHYS_BASE`
on is present when `kernel` is set and begins with the word `0x1234`. -/
def top_mem (w : Nat) (kernel : Bool) : Machine :=
  ⟨fun a => decide (0xbffff000 ≤ a) && (decide (a < 0xc0000000) || kernel),
   fun a => if a = 0xbffffffc then w else if a = 0xc0000000 then 0x34
     else if a = 0xc0000001 then 0x12 else 0⟩

/-- Sample state whose counter is 0 and whose descriptor list is empty. -/
def k_zero : Kernel := ⟨⟨"main", 0, [], 0⟩, 0, false, []⟩

/-- Sample state after `open` returned 2: one entry, fileno 2, counter 3. -/
def k_open : Kernel := ⟨⟨"main", 0, [⟨2, 0xc0100000⟩], 3⟩, 2, false, []⟩

/-- Sample state whose descriptor list holds an entry with fileno 0. -/
def k_stdin : Kernel := ⟨⟨"main", 0, [⟨0, 0xc0100000⟩], 1⟩, 0, false, []⟩

/-- Sample memory of an `open` trap: the argument points to the string `"f"`
stored in the third word. -/
def open_mem : Machine := word_mem 0xbffffff0 [6, 0xbffffff8, 0x66]

/-- Sample collaborators whose `filesys_open` finds no file; the rest as in
`sample_env`. -/
def failing_env : Env := { sample_env with filesys_open := fun _ _ => 0 }

/-- The dispatcher as C19 describes it, with the second validation step (the
check of `args`) removed. -/
def syscall_handler_one_check (c : Consts) (env : Env) (m : Machine) (esp : Nat) : K Unit := do
  let v ← check_ptr c m esp
  if !v then exit_error
  let args := esp
  let syscall_number := to_int (← load32 m args)
  dispatch c env m args syscall_number (syscall_table c)

/-- Every run of `x`, however it ends, relates the state before to the state in
which it ends by `R`. -/
def Always {α : Type} (R : Kernel → Kernel → Prop) (x : K α) : Prop :=
  ∀ k, R k (x k).state

/-- A relation between states that composes and holds across every step that
leaves the descriptor list, the counter and the lock as they are and appends
events other than lock operations to the trace. -/
structure Frame (R : Kernel → Kernel → Prop) : Prop where
  trans : ∀ k1 k2 k3, R k1 k2 → R k2 k3 → R k1 k3
  step : ∀ k k1 : Kernel, k1.cur.file_descriptors = k.cur.file_descriptors →
    k1.cur.last_fileno = k.cur.last_fileno → k1.filesys_lock = k.filesys_lock →
    (∃ es, k1.trace = k.trace ++ es ∧ ∀ e ∈ es, e.is_lock = false) → R k k1

/-- The lock is as before and the events added to the trace are not lock
operations. -/
def NoLock (k k1 : Kernel) : Prop :=
  k1.filesys_lock = k.filesys_lock ∧
    ∃ es, k1.trace = k.trace ++ es ∧ ∀ e ∈ es, e.is_lock = false

/-- The events of the dispatcher up to the search of the table: the two checks
of `esp` and the read of the number. -/
def decode_events (esp : Nat) : List Event :=
  [.valid esp true, .valid esp true] ++ loads32 esp

/-- The run `r` out of state `k` begins, after the events `pre`, with the
string test of a valid pointer `p` to a string of length `len`: the check of
`p`, the reads of `strlen`, then the check of `last_byte p len`. -/
def ChecksString (c : Consts) (m : Machine) (k : Kernel) (p len : Nat) (pre : List Event)
    (r : Res Unit) : Prop :=
  ∃ rest, r.state.trace = k.trace ++ (pre ++ string_checks c m p len) ++ rest

/-- The run appended events to the trace, `n` of them assignments to `eax`. -/
def Writes (n : Nat) (k k1 : Kernel) : Prop :=
  ∃ es, k1.trace = k.trace ++ es ∧ es.countP Event.is_set_eax = n

/-- The descriptor list and the counter `last_fileno` are the same in both states. -/
def TableSame (k k1 : Kernel) : Prop :=
  k1.cur.file_descriptors = k.cur.file_descriptors ∧ k1.cur.last_fileno = k.cur.last_fileno

/-- The descriptor list of `k1` is the one of `k` with entries taken out; the
counter is the same. -/
def TableShrinks (k k1 : Kernel) : Prop :=
  k1.cur.file_descriptors.Sublist k.cur.file_descriptors ∧
    k1.cur.last_fileno = k.cur.last_fileno

/-- Either the list shrank under the same counter, or the counter went through
`last_fileno++` and the list is the same or has one new entry at its end, whose
fileno is the old counter. -/
def TableStep (k k1 : Kernel) : Prop :=
  TableShrinks k k1 ∨
  (k1.cur.last_fileno = to_int (to_u32 (k.cur.last_fileno + 1)) ∧
    (k1.cur.file_descriptors = k.cur.file_descriptors ∨
     ∃ h, k1.cur.file_descriptors = k.cur.file_descriptors ++ [⟨k.cur.last_fileno, h⟩]))

/-- The filenos of the descriptor list are pairwise distinct and all smaller
than the counter `last_fileno`. -/
def TableOk (k : Kernel) : Prop :=
  (k.cur.file_descriptors.map file_descriptor_t.fileno).Nodup ∧
    ∀ d ∈ k.cur.file_descriptors, d.fileno < k.cur.last_fileno

/-- The return values of the `open` calls that did not return -1, in call
order, and the state after a sequence of handler calls that all return to the
caller. -/
def opened_filenos (c : Consts) (env : Env) : List Call → Kernel → Option (List Int × Kernel)
  | [], k => some ([], k)
  | x :: xs, k =>
    match x.sys.func c env x.m x.args k with
    | .ok _ k1 =>
      match opened_filenos c env xs k1 with
      | some (ns, k2) =>
        if x.sys = .open ∧ to_int k1.eax ≠ -1 then some (to_int k1.eax :: ns, k2)
        else some (ns, k2)
      | none => none
    | _ => none

/-- Sample state whose counter is `INT_MAX` and whose descriptor list is empty. -/
def k_max : Kernel := ⟨⟨"main", 0, [], 2147483647⟩, 0, false, []⟩

/-- Sample memory of a `close (2)` trap. -/
def close_mem : Machine := word_mem 0xbffffff0 [12, 2]

/-- Sample sequence of calls: `open ("f")`, `close (2)`, `open ("f")`. -/
def sample_calls : List Call :=
  [⟨.open, open_mem, 0xbffffff0⟩, ⟨.close, close_mem, 0xbffffff0⟩,
   ⟨.open, open_mem, 0xbffffff0⟩]

theorem bind_eq {α β : Type} (x : K α) (f : α → K β) : (x >>= f) = K.bind x f := rfl

theorem pure_eq {α : Type} (a : α) : (pure a : K α) = K.pure a := rfl

theorem peek32_lt {m : Machine} {a w : Nat} (h : peek32 m a = some w) : w < 4294967296 := by
  unfold peek32 at h
  split at h
  · simp only [Option.some.injEq] at h
    omega
  · simp at h

/-- A word read succeeds with the value `peek32` gives, after four byte reads. -/
theorem load32_of_peek {m : Machine} {a w : Nat} (h : peek32 m a = some w) (k : Kernel) :
    load32 m a k = .ok w (k.logs (loads32 a)) := by
  unfold peek32 at h
  split at h
  · rename_i hp
    simp only [Bool.and_eq_true] at hp
    obtain ⟨⟨⟨h0, h1⟩, h2⟩, h3⟩ := hp
    simp only [Option.some.injEq] at h
    simp [load32, bind_eq, pure_eq, K.bind, K.pure, load8, h0, h1, h2, h3, Kernel.logs,
      loads32, h]
  · simp at h

/-- A word read that continues read the value `peek32` gives. -/
theorem load32_ok {m : Machine} {a w : Nat} {k k1 : Kernel} (h : load32 m a k = .ok w k1) :
    peek32 m a = some w ∧ k1 = k.logs (loads32 a) := by
  cases hp : peek32 m a with
  | some v =>
    rw [load32_of_peek hp] at h
    simp only [Res.ok.injEq] at h
    exact ⟨by rw [h.1], h.2.symm⟩
  | none =>
    exfalso
    unfold peek32 at hp
    split at hp
    · simp at hp
    · rename_i hq
      simp only [Bool.and_eq_true, not_and, Bool.not_eq_true] at hq
      revert h
      simp only [load32, bind_eq, pure_eq, K.bind, K.pure, load8]
      cases h0 : m.present a <;> simp
      cases h1 : m.present (padd a 1) <;> simp
      cases h2 : m.present (padd a 2) <;> simp
      cases h3 : m.present (padd a 3) <;> simp
      simp [h0, h1, h2, h3] at hq

theorem to_u32_to_int (w : Nat) (h : w < 4294967296) : to_u32 (to_int w) = w := by
  unfold to_u32 to_int
  split <;> omega

theorem to_u32_to_int_succ (w : Nat) : to_u32 (to_int w + 1) = (w + 1) % 4294967296 := by
  unfold to_u32 to_int
  split <;> omega

theorem last_byte_eq (p n : Nat) (hn : 1 ≤ n) :
    last_byte p n = (p + n - 1) % 4294967296 := by
  unfold last_byte
  omega

/-- When no entry of the table carries the number, the loop ends in `exit_error`. -/
theorem dispatch_no_match (c : Consts) (env : Env) (m : Machine) (args : Nat) (n : Int) :
    ∀ tbl : List syscall_descriptor_t, (∀ d ∈ tbl, d.number ≠ n) →
      dispatch c env m args n tbl = exit_error := by
  intro tbl
  induction tbl with
  | nil => intro _; rfl
  | cons d rest ih =>
    intro h
    have hd : n ≠ d.number := fun e => h d (List.mem_cons_self _ _) e.symm
    simp only [dispatch, hd, if_false]
    exact ih (fun x hx => h x (List.mem_cons_of_mem _ hx))

/-! ## Fatal termination -/

/-- The block `f->eax = -1; exit_error ();` after quiet events `es` is a fatal
termination. -/
theorem fatal_of_fail_exit (k : Kernel) (es : List Event) (hes : ∀ e ∈ es, e.quiet = true)
    (r : Res Unit) (h : r = fail_exit (k.logs es)) : Fatal k r := by
  refine ⟨es ++ [.set_eax (to_u32 (-1))], to_u32 (-1), ?_, ?_⟩
  · intro e he
    rcases List.mem_append.1 he with h1 | h1
    · exact hes e h1
    · simp only [List.mem_singleton] at h1
      subst h1
      rfl
  · subst h
    simp [fail_exit, exit_error, bind_eq, K.bind, set_eax, printf_exit, thread_exit, Kernel.logs]

theorem quiet_loads32 (a : Nat) : ∀ e ∈ loads32 a, e.quiet = true := by
  intro e he
  simp only [loads32, List.mem_cons, List.mem_singleton, List.not_mem_nil, or_false] at he
  rcases he with h | h | h | h <;> subst h <;> rfl

theorem quiet_append {es fs : List Event} (h1 : ∀ e ∈ es, e.quiet = true)
    (h2 : ∀ e ∈ fs, e.quiet = true) : ∀ e ∈ es ++ fs, e.quiet = true := by
  intro e he
  rcases List.mem_append.1 he with h | h
  · exact h1 e h
  · exact h2 e h

theorem quiet_buffer_checks (c : Consts) (m : Machine) (buffer size : Nat) :
    ∀ e ∈ buffer_checks c m buffer size, e.quiet = true := by
  intro e he
  unfold buffer_checks at he
  split at he
  · simp only [List.mem_cons, List.mem_singleton, List.not_mem_nil, or_false] at he
    rcases he with h | h <;> subst h <;> rfl
  · simp only [List.mem_singleton] at he
    subst he
    rfl

theorem quiet_loads_rw (args : Nat) : ∀ e ∈ loads_rw args, e.quiet = true :=
  quiet_append (quiet_append (quiet_loads32 _) (quiet_loads32 _)) (quiet_loads32 _)

/-- A `syscall_write` whose test `!valid (buffer) || !valid (last) || fd == 0`
holds takes the fatal block right after the argument reads and pointer checks. -/
theorem write_bad (c : Consts) (env : Env) (m : Machine) (args : Nat) (k : Kernel)
    (w buffer size : Nat)
    (hfd : peek32 m (padd args 4) = some w) (hbuf : peek32 m (padd args 8) = some buffer)
    (hsize : peek32 m (padd args 12) = some size)
    (hbad : is_valid_ptr c m buffer = false ∨ is_valid_ptr c m (last_byte buffer size) = false
      ∨ to_int w = 0) :
    syscall_write c env m args k
      = fail_exit (k.logs (loads_rw args ++ buffer_checks c m buffer size)) := by
  simp only [syscall_write, bind_eq, K.bind, load32_of_peek hfd, load32_of_peek hbuf,
    load32_of_peek hsize, check_ptr, pure_eq, K.pure, buffer_checks, loads_rw]
  cases h1 : is_valid_ptr c m buffer
  · simp [K.pure, Kernel.logs]
  · cases h2 : is_valid_ptr c m (last_byte buffer size)
    · simp [K.pure, K.bind, Kernel.logs, check_ptr, h2]
    · have h0 : to_int w = 0 := by simpa [h1, h2] using hbad
      simp [K.pure, K.bind, Kernel.logs, check_ptr, h2, h0]

/-- A `syscall_read` whose test `!valid (buffer) || !valid (last) || fd == 1`
holds takes the fatal block right after the argument reads and pointer checks. -/
theorem read_bad (c : Consts) (env : Env) (m : Machine) (args : Nat) (k : Kernel)
    (w buffer size : Nat)
    (hfd : peek32 m (padd args 4) = some w) (hbuf : peek32 m (padd args 8) = some buffer)
    (hsize : peek32 m (padd args 12) = some size)
    (hbad : is_valid_ptr c m buffer = false ∨ is_valid_ptr c m (last_byte buffer size) = false
      ∨ to_int w = 1) :
    syscall_read c env m args k
      = fail_exit (k.logs (loads_rw args ++ buffer_checks c m buffer size)) := by
  simp only [syscall_read, bind_eq, K.bind, load32_of_peek hfd, load32_of_peek hbuf,
    load32_of_peek hsize, check_ptr, pure_eq, K.pure, buffer_checks, loads_rw]
  cases h1 : is_valid_ptr c m buffer
  · simp [K.pure, Kernel.logs]
  · cases h2 : is_valid_ptr c m (last_byte buffer size)
    · simp [K.pure, K.bind, Kernel.logs, check_ptr, h2]
    · have h0 : to_int w = 1 := by simpa [h1, h2] using hbad
      simp [K.pure, K.bind, Kernel.logs, check_ptr, h2, h0]

/-! ## What a handler that returns leaves in place -/

theorem bind_ok_inv {α β : Type} {x : K α} {f : α → K β} {k k' : Kernel} {b : β}
    (h : (x >>= f) k = .ok b k') : ∃ a k1, x k = .ok a k1 ∧ f a k1 = .ok b k' := by
  simp only [bind_eq, K.bind] at h
  split at h <;> first | exact ⟨_, _, by assumption, h⟩ | simp at h

theorem exit_error_not_ok (k : Kernel) (a : Unit) (k1 : Kernel) : exit_error k ≠ .ok a k1 := by
  simp [exit_error, bind_eq, K.bind, printf_exit, thread_exit]

theorem fail_exit_not_ok (k : Kernel) (a : Unit) (k1 : Kernel) : fail_exit k ≠ .ok a k1 := by
  simp [fail_exit, exit_error, bind_eq, K.bind, printf_exit, thread_exit, set_eax]

section keeps

variable {R : Kernel → Kernel → Prop}

theorem keeps_bind {α β : Type} (hR : Stable R) {x : K α} {f : α → K β}
    (hx : Keeps R x) (hf : ∀ a, Keeps R (f a)) : Keeps R (x >>= f) := by
  intro k b k' h
  obtain ⟨a, k1, h1, h2⟩ := bind_ok_inv h
  exact hR.trans _ _ _ (hx _ _ _ h1) (hf a _ _ _ h2)

theorem keeps_pure {α : Type} (hR : Stable R) (a : α) : Keeps R (pure a : K α) := by
  intro k b k' h
  simp only [pure_eq, K.pure, Res.ok.injEq] at h
  exact hR.of_cur _ _ (by rw [← h.2])

theorem keeps_load32 (hR : Stable R) (m : Machine) (a : Nat) : Keeps R (load32 m a) := by
  intro k w k1 h
  rw [(load32_ok h).2]
  exact hR.of_cur _ _ rfl

theorem keeps_bind_load32 {β : Type} (hR : Stable R) {m : Machine} {a : Nat} {f : Nat → K β}
    (hf : ∀ w, peek32 m a = some w → Keeps R (f w)) : Keeps R (load32 m a >>= f) := by
  intro k b k' h
  obtain ⟨w, k1, h1, h2⟩ := bind_ok_inv h
  exact hR.trans _ _ _ (keeps_load32 hR m a _ _ _ h1) (hf w (load32_ok h1).1 _ _ _ h2)

theorem keeps_load8 (hR : Stable R) (m : Machine) (a : Nat) : Keeps R (load8 m a) := by
  intro k w k1 h
  unfold load8 at h
  split at h
  · simp only [Res.ok.injEq] at h
    rw [← h.2]
    exact hR.of_cur _ _ rfl
  · simp at h

theorem keeps_store8 (hR : Stable R) (m : Machine) (a v : Nat) : Keeps R (store8 m a v) := by
  intro k w k1 h
  unfold store8 at h
  split at h
  · simp only [Res.ok.injEq] at h
    rw [← h.2]
    exact hR.of_cur _ _ rfl
  · simp at h

theorem keeps_check_ptr (hR : Stable R) (c : Consts) (m : Machine) (a : Nat) :
    Keeps R (check_ptr c m a) := by
  intro k w k1 h
  simp only [check_ptr, Res.ok.injEq] at h
  rw [← h.2]
  exact hR.of_cur _ _ rfl

theorem keeps_emit (hR : Stable R) (e : Event) : Keeps R (emit e) := by
  intro k w k1 h
  simp only [emit, Res.ok.injEq] at h
  rw [← h.2]
  exact hR.of_cur _ _ rfl

theorem keeps_ask {α : Type} (hR : Stable R) (f : List Event → α) : Keeps R (ask f) := by
  intro k w k1 h
  simp only [ask, Res.ok.injEq] at h
  rw [← h.2]
  exact hR.of_cur _ _ rfl

theorem keeps_set_eax (hR : Stable R) (v : Nat) : Keeps R (set_eax v) := by
  intro k w k1 h
  simp only [set_eax, Res.ok.injEq] at h
  rw [← h.2]
  exact hR.of_cur _ _ rfl

theorem keeps_lookup (hR : Stable R) (fd : Int) : Keeps R (lookup fd) := by
  intro k w k1 h
  simp only [lookup, Res.ok.injEq] at h
  rw [← h.2]
  exact hR.of_cur _ _ rfl

theorem keeps_file_of (hR : Stable R) (d : Option file_descriptor_t) : Keeps R (file_of d) := by
  intro k w k1 h
  cases d with
  | none => simp [file_of] at h
  | some d =>
    simp only [file_of, pure_eq, K.pure, Res.ok.injEq] at h
    rw [← h.2]
    exact hR.of_cur _ _ rfl

theorem keeps_fail_exit : Keeps R fail_exit :=
  fun k a k1 h => absurd h (fail_exit_not_ok k a k1)

theorem keeps_fail_bind {β : Type} (f : Unit → K β) : Keeps R (fail_exit >>= f) := by
  intro k b k' h
  obtain ⟨a, k1, h1, _⟩ := bind_ok_inv h
  exact absurd h1 (fail_exit_not_ok k a k1)

theorem keeps_strlen_loop (hR : Stable R) (m : Machine) :
    ∀ fuel a n, Keeps R (strlen_loop m fuel a n) := by
  intro fuel
  induction fuel with
  | zero => intro a n k w k1 h; simp [strlen_loop] at h
  | succ fuel ih =>
    intro a n
    unfold strlen_loop
    apply keeps_bind hR (keeps_load8 hR m a)
    intro b
    split
    · exact keeps_pure hR n
    · exact ih _ _

theorem keeps_strlen (hR : Stable R) (m : Machine) (p : Nat) : Keeps R (strlen m p) :=
  keeps_strlen_loop hR m _ _ _

theorem keeps_bad_string (hR : Stable R) (c : Consts) (m : Machine) (file : Nat) :
    Keeps R (bad_string c m file) := by
  unfold bad_string
  apply keeps_bind hR (keeps_check_ptr hR _ _ _)
  intro v1
  split
  · exact keeps_pure hR _
  · apply keeps_bind hR (keeps_strlen hR _ _)
    intro len
    apply keeps_bind hR (keeps_check_ptr hR _ _ _)
    intro v2
    exact keeps_pure hR _

theorem keeps_getc_loop (hR : Stable R) (env : Env) (m : Machine) (buffer : Nat) :
    ∀ n i, Keeps R (getc_loop env m buffer n i) := by
  intro n
  induction n with
  | zero => intro i; exact keeps_pure hR _
  | succ n ih =>
    intro i
    unfold getc_loop
    apply keeps_bind hR (keeps_ask hR _)
    intro ch
    apply keeps_bind hR (keeps_emit hR _)
    intro _
    apply keeps_bind hR (keeps_store8 hR _ _ _)
    intro _
    exact ih _

theorem keeps_putbuf_loop (hR : Stable R) (m : Machine) (buffer : Nat) :
    ∀ n i, Keeps R (putbuf_loop m buffer n i) := by
  intro n
  induction n with
  | zero => intro i; exact keeps_pure hR _
  | succ n ih =>
    intro i
    unfold putbuf_loop
    apply keeps_bind hR (keeps_load8 hR _ _)
    intro _
    exact ih _

theorem keeps_write (hR : Stable R) (c : Consts) (env : Env) (m : Machine) (args : Nat) :
    Keeps R (syscall_write c env m args) := by
  unfold syscall_write
  apply keeps_bind hR (keeps_load32 hR _ _)
  intro w
  apply keeps_bind hR (keeps_load32 hR _ _)
  intro buffer
  apply keeps_bind hR (keeps_load32 hR _ _)
  intro size
  apply keeps_bind hR (keeps_check_ptr hR _ _ _)
  intro v1
  apply keeps_bind hR
  · split
    · exact keeps_pure hR _
    · apply keeps_bind hR (keeps_check_ptr hR _ _ _)
      intro v2
      exact keeps_pure hR _
  · intro bad
    split
    · exact keeps_fail_exit
    · split
      · apply keeps_bind hR (keeps_emit hR _)
        intro _
        exact keeps_bind hR (keeps_putbuf_loop hR _ _ _ _) (fun _ => keeps_set_eax hR _)
      · apply keeps_bind hR (keeps_lookup hR _)
        intro file_descriptor
        split
        · exact keeps_fail_bind _
        · apply keeps_bind hR (keeps_pure hR _)
          intro _
          apply keeps_bind hR (keeps_file_of hR _)
          intro file
          apply keeps_bind hR (keeps_ask hR _)
          intro r
          exact keeps_bind hR (keeps_emit hR _) (fun _ => keeps_set_eax hR _)

theorem keeps_read (hR : Stable R) (c : Consts) (env : Env) (m : Machine) (args : Nat) :
    Keeps R (syscall_read c env m args) := by
  unfold syscall_read
  apply keeps_bind hR (keeps_load32 hR _ _)
  intro w
  apply keeps_bind hR (keeps_load32 hR _ _)
  intro buffer
  apply keeps_bind hR (keeps_load32 hR _ _)
  intro size
  apply keeps_bind hR (keeps_check_ptr hR _ _ _)
  intro v1
  apply keeps_bind hR
  · split
    · exact keeps_pure hR _
    · apply keeps_bind hR (keeps_check_ptr hR _ _ _)
      intro v2
      exact keeps_pure hR _
  · intro bad
    split
    · exact keeps_fail_exit
    · split
      · exact keeps_bind hR (keeps_getc_loop hR _ _ _ _ _) (fun _ => keeps_set_eax hR _)
      · apply keeps_bind hR (keeps_lookup hR _)
        intro file_descriptor
        split
        · exact keeps_fail_bind _
        · apply keeps_bind hR (keeps_pure hR _)
          intro _
          apply keeps_bind hR (keeps_file_of hR _)
          intro file
          apply keeps_bind hR (keeps_ask hR _)
          intro r
          exact keeps_bind hR (keeps_emit hR _) (fun _ => keeps_set_eax hR _)

theorem keeps_create (hR : Stable R) (c : Consts) (env : Env) (m : Machine) (args : Nat) :
    Keeps R (syscall_create c env m args) := by
  unfold syscall_create
  apply keeps_bind hR (keeps_load32 hR _ _)
  intro file
  apply keeps_bind hR (keeps_load32 hR _ _)
  intro initial_size
  apply keeps_bind hR (keeps_bad_string hR _ _ _)
  intro bad
  split
  · exact keeps_fail_exit
  · apply keeps_bind hR (keeps_ask hR _)
    intro r
    exact keeps_bind hR (keeps_emit hR _) (fun _ => keeps_set_eax hR _)

theorem keeps_remove (hR : Stable R) (c : Consts) (env : Env) (m : Machine) (args : Nat) :
    Keeps R (syscall_remove c env m args) := by
  unfold syscall_remove
  apply keeps_bind hR (keeps_load32 hR _ _)
  intro file
  apply keeps_bind hR (keeps_bad_string hR _ _ _)
  intro bad
  split
  · exact keeps_fail_exit
  · apply keeps_bind hR (keeps_ask hR _)
    intro r
    exact keeps_bind hR (keeps_emit hR _) (fun _ => keeps_set_eax hR _)

theorem keeps_exec (hR : Stable R) (c : Consts) (env : Env) (m : Machine) (args : Nat) :
    Keeps R (syscall_exec c env m args) := by
  unfold syscall_exec
  apply keeps_bind hR (keeps_load32 hR _ _)
  intro file
  apply keeps_bind hR (keeps_bad_string hR _ _ _)
  intro bad
  split
  · exact keeps_fail_exit
  · apply keeps_bind hR (keeps_ask hR _)
    intro r
    exact keeps_bind hR (keeps_emit hR _) (fun _ => keeps_set_eax hR _)

theorem keeps_open (hR : Stable R) (c : Consts) (env : Env) (m : Machine) (args : Nat)
    (hinstall : ∀ h, Keeps R (install_fd env h)) : Keeps R (syscall_open c env m args) := by
  unfold syscall_open
  apply keeps_bind hR (keeps_load32 hR _ _)
  intro file
  apply keeps_bind hR (keeps_bad_string hR _ _ _)
  intro bad
  split
  · exact keeps_fail_exit
  · apply keeps_bind hR (keeps_ask hR _)
    intro opened_file
    apply keeps_bind hR (keeps_emit hR _)
    intro _
    split
    · exact keeps_set_eax hR _
    · exact keeps_bind hR (hinstall _) (fun _ => keeps_set_eax hR _)

theorem keeps_filesize (hR : Stable R) (env : Env) (m : Machine) (args : Nat) :
    Keeps R (syscall_filesize env m args) := by
  unfold syscall_filesize
  apply keeps_bind hR (keeps_load32 hR _ _)
  intro w
  dsimp only
  split
  · exact keeps_fail_exit
  · apply keeps_bind hR (keeps_lookup hR _)
    intro file_descriptor
    split
    · exact keeps_fail_bind _
    · apply keeps_bind hR (keeps_pure hR _)
      intro _
      apply keeps_bind hR (keeps_file_of hR _)
      intro file
      apply keeps_bind hR (keeps_ask hR _)
      intro r
      exact keeps_bind hR (keeps_emit hR _) (fun _ => keeps_set_eax hR _)

theorem keeps_seek (hR : Stable R) (m : Machine) (args : Nat) :
    Keeps R (syscall_seek m args) := by
  unfold syscall_seek
  apply keeps_bind hR (keeps_load32 hR _ _)
  intro w
  apply keeps_bind hR (keeps_load32 hR _ _)
  intro position
  apply keeps_bind hR (keeps_lookup hR _)
  intro file_descriptor
  apply keeps_bind hR (keeps_file_of hR _)
  intro file
  exact keeps_bind hR (keeps_emit hR _) (fun _ => keeps_set_eax hR _)

theorem keeps_tell (hR : Stable R) (env : Env) (m : Machine) (args : Nat) :
    Keeps R (syscall_tell env m args) := by
  unfold syscall_tell
  apply keeps_bind hR (keeps_load32 hR _ _)
  intro w
  apply keeps_bind hR (keeps_lookup hR _)
  intro file_descriptor
  split
  · exact keeps_fail_bind _
  · apply keeps_bind hR (keeps_pure hR _)
    intro _
    apply keeps_bind hR (keeps_file_of hR _)
    intro file
    apply keeps_bind hR (keeps_ask hR _)
    intro r
    exact keeps_bind hR (keeps_emit hR _) (fun _ => keeps_set_eax hR _)

theorem keeps_close (hR : Stable R) (m : Machine) (args : Nat)
    (hremove : ∀ w, peek32 m (padd args 4) = some w → Keeps R (remove_fd (to_int w))) :
    Keeps R (syscall_close m args) := by
  unfold syscall_close
  apply keeps_bind_load32 hR
  intro w hw
  apply keeps_bind hR (keeps_lookup hR _)
  intro file_descriptor
  split
  · exact keeps_fail_bind _
  · apply keeps_bind hR (keeps_pure hR _)
    intro _
    apply keeps_bind hR (keeps_file_of hR _)
    intro file
    apply keeps_bind hR (keeps_emit hR _)
    intro _
    apply keeps_bind hR (hremove w hw)
    intro _
    exact keeps_bind hR (keeps_emit hR _) (fun _ => keeps_set_eax hR _)

theorem keeps_exit (m : Machine) (args : Nat) : Keeps R (syscall_exit m args) := by
  intro k a k1 h
  unfold syscall_exit at h
  obtain ⟨w, k2, _, h⟩ := bind_ok_inv h
  simp [bind_eq, K.bind, set_eax, printf_exit, thread_exit] at h

theorem keeps_practice (hR : Stable R) (m : Machine) (args : Nat) :
    Keeps R (syscall_practice m args) := by
  unfold syscall_practice
  exact keeps_bind hR (keeps_load32 hR _ _) (fun _ => keeps_set_eax hR _)

theorem keeps_halt : Keeps R syscall_halt := by
  intro k a k1 h
  simp [syscall_halt] at h

theorem keeps_wait (hR : Stable R) (env : Env) (m : Machine) (args : Nat) :
    Keeps R (syscall_wait env m args) := by
  unfold syscall_wait
  apply keeps_bind hR (keeps_load32 hR _ _)
  intro w
  apply keeps_bind hR (keeps_ask hR _)
  intro r
  exact keeps_bind hR (keeps_emit hR _) (fun _ => keeps_set_eax hR _)

/-- A relation that `install_fd` keeps, and that `remove_fd` keeps for the
calls at hand, is kept by every handler that returns. -/
theorem keeps_func (hR : Stable R) (c : Consts) (env : Env) (m : Machine) (args : Nat)
    (s : Sys) (hinstall : ∀ h, Keeps R (install_fd env h))
    (hremove : s = .close → ∀ w, peek32 m (padd args 4) = some w →
      Keeps R (remove_fd (to_int w))) :
    Keeps R (s.func c env m args) := by
  cases s
  · exact keeps_write hR c env m args
  · exact keeps_create hR c env m args
  · exact keeps_remove hR c env m args
  · exact keeps_open hR c env m args hinstall
  · exact keeps_filesize hR env m args
  · exact keeps_read hR c env m args
  · exact keeps_seek hR m args
  · exact keeps_tell hR env m args
  · exact keeps_close hR m args (hremove rfl)
  · exact keeps_exit m args
  · exact keeps_practice hR m args
  · exact keeps_halt
  · exact keeps_wait hR env m args
  · exact keeps_exec hR c env m args

end keeps

/-! ## The descriptor list -/

theorem find_in_some {l : List file_descriptor_t} {n : Int} {d : file_descriptor_t}
    (h : find_in l n = some d) : d.fileno = n ∧ d ∈ l := by
  induction l with
  | nil => simp [find_in] at h
  | cons x rest ih =>
    unfold find_in at h
    split at h
    · simp only [Option.some.injEq] at h
      subst h
      exact ⟨by assumption, List.mem_cons_self _ _⟩
    · exact ⟨(ih h).1, List.mem_cons_of_mem _ (ih h).2⟩

theorem find_in_none {l : List file_descriptor_t} {n : Int}
    (h : ∀ d ∈ l, d.fileno ≠ n) : find_in l n = none := by
  induction l with
  | nil => rfl
  | cons x rest ih =>
    unfold find_in
    rw [if_neg (h x (List.mem_cons_self _ _))]
    exact ih (fun d hd => h d (List.mem_cons_of_mem _ hd))

theorem find_in_append_some {l : List file_descriptor_t} {n : Int} {d : file_descriptor_t}
    (l2 : List file_descriptor_t) (h : find_in l n = some d) : find_in (l ++ l2) n = some d := by
  induction l with
  | nil => simp [find_in] at h
  | cons x rest ih =>
    unfold find_in at h
    simp only [List.cons_append, find_in]
    split
    · rename_i hx
      rw [if_pos hx] at h
      exact h
    · rename_i hx
      rw [if_neg hx] at h
      exact ih h

theorem find_in_append_new {l : List file_descriptor_t} {n : Int} (x : file_descriptor_t)
    (h : find_in l n = none) (hx : x.fileno = n) : find_in (l ++ [x]) n = some x := by
  induction l with
  | nil => simp [find_in, hx]
  | cons y rest ih =>
    unfold find_in at h
    simp only [List.cons_append, find_in]
    split
    · rename_i hy
      rw [if_pos hy] at h
      simp at h
    · rename_i hy
      rw [if_neg hy] at h
      exact ih h

theorem find_in_remove_ne (l : List file_descriptor_t) {fd n : Int} (h : fd ≠ n) :
    find_in (remove_in l fd) n = find_in l n := by
  induction l with
  | nil => rfl
  | cons x rest ih =>
    unfold remove_in
    split
    · rename_i hx
      have : x.fileno ≠ n := by rw [hx]; exact h
      simp [find_in, this]
    · simp only [find_in, ih]

theorem find_in_remove_self (l : List file_descriptor_t) (n : Int)
    (h : (l.map (fun d => d.fileno)).Nodup) : find_in (remove_in l n) n = none := by
  induction l with
  | nil => rfl
  | cons x rest ih =>
    simp only [List.map_cons, List.nodup_cons, List.mem_map, not_exists, not_and] at h
    unfold remove_in
    split
    · rename_i hx
      exact find_in_none (fun d hd e => h.1 d hd (by rw [e, hx]))
    · rename_i hx
      simp only [find_in, if_neg hx]
      exact ih h.2

theorem remove_in_eq_erase {l : List file_descriptor_t} {n : Int} {d : file_descriptor_t}
    (h : find_in l n = some d) : remove_in l n = l.erase d := by
  induction l with
  | nil => simp [find_in] at h
  | cons x rest ih =>
    unfold find_in at h
    unfold remove_in
    split
    · rename_i hx
      rw [if_pos hx] at h
      simp only [Option.some.injEq] at h
      subst h
      simp
    · rename_i hx
      rw [if_neg hx] at h
      have hne : x ≠ d := fun e => hx (by rw [e]; exact (find_in_some h).1)
      rw [List.erase_cons_tail (by simpa using hne), ih h]

theorem stable_find_stays (n : Int) (d : file_descriptor_t) : Stable (FindStays n d) :=
  ⟨fun _ _ _ h12 h23 h => h23 (h12 h),
   fun k k1 hc h => by
    unfold find_file_descriptor at *
    rw [hc]
    exact h⟩

theorem install_fd_ok {env : Env} {h : Nat} {k k1 : Kernel} {n : Int}
    (hk : install_fd env h k = .ok n k1) :
    n = k.cur.last_fileno ∧ env.malloc k.trace ≠ 0 ∧
    k1 = { cur := { k.cur with last_fileno := to_int (to_u32 (k.cur.last_fileno + 1)),
                               file_descriptors := k.cur.file_descriptors ++ [⟨k.cur.last_fileno, h⟩] },
           eax := k.eax, filesys_lock := k.filesys_lock,
           trace := k.trace ++ [.malloc (env.malloc k.trace)] } := by
  simp only [install_fd, Kernel.logs] at hk
  split at hk
  · simp at hk
  · rename_i hp
    simp only [Res.ok.injEq] at hk
    exact ⟨hk.1.symm, hp, hk.2.symm⟩

theorem keeps_install_find_stays (env : Env) (n : Int) (d : file_descriptor_t) (h : Nat) :
    Keeps (FindStays n d) (install_fd env h) := by
  intro k a k1 hk hfind
  rw [(install_fd_ok hk).2.2]
  exact find_in_append_some _ hfind

theorem keeps_remove_find_stays (n : Int) (d : file_descriptor_t) {fd : Int} (hne : fd ≠ n) :
    Keeps (FindStays n d) (remove_fd fd) := by
  intro k a k1 hk hfind
  simp only [remove_fd, Res.ok.injEq] at hk
  rw [← hk.2]
  simp only [find_file_descriptor] at *
  rw [find_in_remove_ne _ hne]
  exact hfind

/-- A stable relation kept by `install_fd` and by the removals of the `close`
calls of a sequence holds between the states before and after the sequence. -/
theorem run_calls_keeps {R : Kernel → Kernel → Prop} (hR : Stable R) (c : Consts) (env : Env)
    (hinstall : ∀ h, Keeps R (install_fd env h)) :
    ∀ (calls : List Call) (k k2 : Kernel),
      (∀ x ∈ calls, x.sys = .close → ∀ w, peek32 x.m (padd x.args 4) = some w →
        Keeps R (remove_fd (to_int w))) →
      run_calls c env calls k = some k2 → R k k2 := by
  intro calls
  induction calls with
  | nil =>
    intro k k2 _ h
    simp only [run_calls, Option.some.injEq] at h
    exact hR.of_cur _ _ (by rw [h])
  | cons x xs ih =>
    intro k k2 hrem h
    unfold run_calls at h
    split at h
    · rename_i u k1 hx
      exact hR.trans _ _ _
        (keeps_func hR c env x.m x.args x.sys hinstall (hrem x (List.mem_cons_self _ _)) _ _ _ hx)
        (ih k1 k2 (fun y hy => hrem y (List.mem_cons_of_mem _ hy)) h)
    · simp at h

/-- The lookup of `n` is the same after any sequence of returning handler calls
none of which is `close (n)`. -/
theorem find_stays_run_calls (c : Consts) (env : Env) (n : Int) (d : file_descriptor_t)
    (calls : List Call) (k k2 : Kernel) (hno : ∀ x ∈ calls, ¬ x.is_close n)
    (hrun : run_calls c env calls k = some k2) (hfind : find_file_descriptor n k = some d) :
    find_file_descriptor n k2 = some d := by
  refine run_calls_keeps (stable_find_stays n d) c env
    (fun h => keeps_install_find_stays env n d h) calls k k2 ?_ hrun hfind
  intro x hx hclose w hw
  apply keeps_remove_find_stays
  intro e
  exact hno x hx ⟨hclose, by rw [hw]; simp [e]⟩

/-! ## `open`: what a returning call did -/

theorem strlen_loop_ok (m : Machine) : ∀ (fuel a n : Nat) (k k1 : Kernel) (len : Nat),
    strlen_loop m fuel a n k = .ok len k1 →
    ∃ es : List Event, (∀ e ∈ es, e.quiet = true) ∧ k1 = k.logs es := by
  intro fuel
  induction fuel with
  | zero => intro a n k k1 len h; simp [strlen_loop] at h
  | succ fuel ih =>
    intro a n k k1 len h
    unfold strlen_loop at h
    obtain ⟨b, k2, h1, h2⟩ := bind_ok_inv h
    have hk2 : k2 = k.logs [.load a] := by
      unfold load8 at h1
      split at h1
      · simp only [Res.ok.injEq] at h1
        exact h1.2.symm
      · simp at h1
    split at h2
    · simp only [pure_eq, K.pure, Res.ok.injEq] at h2
      refine ⟨[.load a], ?_, ?_⟩
      · intro e he
        simp only [List.mem_singleton] at he
        subst he
        rfl
      · rw [← h2.2, hk2]
    · obtain ⟨es, hes, hk1⟩ := ih _ _ _ _ _ h2
      refine ⟨.load a :: es, ?_, ?_⟩
      · intro e he
        rcases List.mem_cons.1 he with h3 | h3
        · subst h3
          rfl
        · exact hes e h3
      · rw [hk1, hk2]
        simp [Kernel.logs]

theorem strlen_ok {m : Machine} {p : Nat} {k k1 : Kernel} {len : Nat}
    (h : strlen m p k = .ok len k1) :
    ∃ es : List Event, (∀ e ∈ es, e.quiet = true) ∧ k1 = k.logs es :=
  strlen_loop_ok m 4294967296 p 0 k k1 len h

theorem bad_string_ok {c : Consts} {m : Machine} {file : Nat} {k k1 : Kernel} {b : Bool}
    (h : bad_string c m file k = .ok b k1) :
    ∃ es : List Event, (∀ e ∈ es, e.quiet = true) ∧ k1 = k.logs es := by
  unfold bad_string at h
  obtain ⟨v1, k2, h1, h2⟩ := bind_ok_inv h
  simp only [check_ptr, Res.ok.injEq] at h1
  split at h2
  · simp only [pure_eq, K.pure, Res.ok.injEq] at h2
    refine ⟨[.valid file (is_valid_ptr c m file)], ?_, ?_⟩
    · intro e he
      simp only [List.mem_singleton] at he
      subst he
      rfl
    · rw [← h2.2, ← h1.2]
  · obtain ⟨len, k3, h3, h4⟩ := bind_ok_inv h2
    obtain ⟨v2, k4, h5, h6⟩ := bind_ok_inv h4
    obtain ⟨es, hes, hk3⟩ := strlen_ok h3
    simp only [check_ptr, Res.ok.injEq] at h5
    simp only [pure_eq, K.pure, Res.ok.injEq] at h6
    refine ⟨[.valid file (is_valid_ptr c m file)] ++ es ++
      [.valid (last_byte file len) (is_valid_ptr c m (last_byte file len))], ?_, ?_⟩
    · intro e he
      simp only [List.mem_append, List.mem_singleton] at he
      rcases he with (h7 | h7) | h7
      · subst h7
        rfl
      · exact hes e h7
      · subst h7
        rfl
    · rw [← h6.2, ← h5.2, hk3, ← h1.2]
      simp [Kernel.logs]

/-- A call of `syscall_open` that returns read the name pointer, checked the
string, and then either `filesys_open` gave NULL and `-1` was returned with the
thread's fields untouched, or it gave a handle, which was appended to the
descriptor list under the fileno `last_fileno`, the counter was advanced and the
fileno returned. -/
theorem open_ok_inv {c : Consts} {env : Env} {m : Machine} {args : Nat} {k k1 : Kernel}
    (h : syscall_open c env m args k = .ok () k1) :
    ∃ (file : Nat) (es : List Event), peek32 m (padd args 4) = some file ∧
      (∀ e ∈ es, e.quiet = true) ∧
      ((k1 = { cur := k.cur, eax := to_u32 (-1), filesys_lock := k.filesys_lock,
               trace := k.trace ++ (loads32 (padd args 4) ++ es ++
                 [.filesys_open file 0, .set_eax (to_u32 (-1))]) }) ∨
       (∃ hdl p : Nat, hdl ≠ 0 ∧ p ≠ 0 ∧
         k1 = { cur := { k.cur with
                    last_fileno := to_int (to_u32 (k.cur.last_fileno + 1)),
                    file_descriptors := k.cur.file_descriptors ++ [⟨k.cur.last_fileno, hdl⟩] },
                eax := to_u32 k.cur.last_fileno, filesys_lock := k.filesys_lock,
                trace := k.trace ++ (loads32 (padd args 4) ++ es ++
                  [.filesys_open file hdl, .malloc p, .set_eax (to_u32 k.cur.last_fileno)]) })) := by
  unfold syscall_open at h
  obtain ⟨file, k2, h1, h2⟩ := bind_ok_inv h
  obtain ⟨hfile, hk2⟩ := load32_ok h1
  obtain ⟨bad, k3, h3, h4⟩ := bind_ok_inv h2
  obtain ⟨es, hes, hk3⟩ := bad_string_ok h3
  refine ⟨file, es, hfile, hes, ?_⟩
  split at h4
  · exact absurd h4 (fail_exit_not_ok _ _ _)
  · obtain ⟨opened, k4, h5, h6⟩ := bind_ok_inv h4
    simp only [ask, Res.ok.injEq] at h5
    obtain ⟨u, k5, h7, h8⟩ := bind_ok_inv h6
    simp only [emit, Res.ok.injEq] at h7
    split at h8
    · rename_i hz
      left
      simp only [set_eax, Res.ok.injEq, true_and] at h8
      rw [← h8, ← h7.2, ← h5.2, hk3, hk2, hz]
      simp [Kernel.logs]
    · rename_i hz
      right
      obtain ⟨fileno, k6, h9, h10⟩ := bind_ok_inv h8
      obtain ⟨hn, hp, hk6⟩ := install_fd_ok h9
      simp only [set_eax, Res.ok.injEq, true_and] at h10
      refine ⟨opened, env.malloc k5.trace, hz, hp, ?_⟩
      rw [← h10, hk6, hn, ← h7.2, ← h5.2, hk3, hk2]
      simp [Kernel.logs]

/-! ## Handlers on a fileno that is, or is not, in the list -/

theorem seek_found (m : Machine) (args : Nat) (k : Kernel) (w pos : Nat) (d : file_descriptor_t)
    (hfd : peek32 m (padd args 4) = some w) (hpos : peek32 m (padd args 8) = some pos)
    (hfind : find_file_descriptor (to_int w) k = some d) :
    syscall_seek m args k = .ok ()
      { cur := k.cur, eax := 0, filesys_lock := k.filesys_lock,
        trace := k.trace ++ (loads32 (padd args 4) ++ loads32 (padd args 8) ++
          [.file_seek d.file pos, .set_eax 0]) } := by
  have hf : find_in k.cur.file_descriptors (to_int w) = some d := hfind
  simp [syscall_seek, bind_eq, pure_eq, K.bind, K.pure, load32_of_peek hfd, load32_of_peek hpos,
    lookup, file_of, find_file_descriptor, Kernel.logs, hf, emit, set_eax]

theorem tell_found (env : Env) (m : Machine) (args : Nat) (k : Kernel) (w : Nat)
    (d : file_descriptor_t) (hfd : peek32 m (padd args 4) = some w)
    (hfind : find_file_descriptor (to_int w) k = some d) :
    ∃ r : Int, syscall_tell env m args k = .ok ()
      { cur := k.cur, eax := to_u32 r, filesys_lock := k.filesys_lock,
        trace := k.trace ++ (loads32 (padd args 4) ++
          [.file_tell d.file r, .set_eax (to_u32 r)]) } := by
  have hf : find_in k.cur.file_descriptors (to_int w) = some d := hfind
  refine ⟨env.file_tell (k.trace ++ loads32 (padd args 4)) d.file, ?_⟩
  simp [syscall_tell, bind_eq, pure_eq, K.bind, K.pure, load32_of_peek hfd,
    lookup, file_of, find_file_descriptor, Kernel.logs, hf, emit, set_eax, ask]

theorem read_found (c : Consts) (env : Env) (m : Machine) (args : Nat) (k : Kernel)
    (w buffer size : Nat) (d : file_descriptor_t)
    (hfd : peek32 m (padd args 4) = some w) (hbuf : peek32 m (padd args 8) = some buffer)
    (hsize : peek32 m (padd args 12) = some size)
    (hv1 : is_valid_ptr c m buffer = true) (hv2 : is_valid_ptr c m (last_byte buffer size) = true)
    (h0 : to_int w ≠ 0) (h1 : to_int w ≠ 1)
    (hfind : find_file_descriptor (to_int w) k = some d) :
    ∃ r : Int, syscall_read c env m args k = .ok ()
      { cur := k.cur, eax := to_u32 r, filesys_lock := k.filesys_lock,
        trace := k.trace ++ (loads_rw args ++ buffer_checks c m buffer size ++
          [.file_read d.file buffer size r, .set_eax (to_u32 r)]) } := by
  have hf : find_in k.cur.file_descriptors (to_int w) = some d := hfind
  refine ⟨env.file_read (k.trace ++ (loads_rw args ++ buffer_checks c m buffer size))
    d.file buffer size, ?_⟩
  simp [syscall_read, bind_eq, pure_eq, K.bind, K.pure, load32_of_peek hfd, load32_of_peek hbuf,
    load32_of_peek hsize, check_ptr, hv1, hv2, h0, h1, lookup, file_of, find_file_descriptor,
    Kernel.logs, hf, emit, set_eax, ask, loads_rw, buffer_checks]

theorem write_found (c : Consts) (env : Env) (m : Machine) (args : Nat) (k : Kernel)
    (w buffer size : Nat) (d : file_descriptor_t)
    (hfd : peek32 m (padd args 4) = some w) (hbuf : peek32 m (padd args 8) = some buffer)
    (hsize : peek32 m (padd args 12) = some size)
    (hv1 : is_valid_ptr c m buffer = true) (hv2 : is_valid_ptr c m (last_byte buffer size) = true)
    (h0 : to_int w ≠ 0) (h1 : to_int w ≠ 1)
    (hfind : find_file_descriptor (to_int w) k = some d) :
    ∃ r : Int, syscall_write c env m args k = .ok ()
      { cur := k.cur, eax := to_u32 r, filesys_lock := k.filesys_lock,
        trace := k.trace ++ (loads_rw args ++ buffer_checks c m buffer size ++
          [.file_write d.file buffer size r, .set_eax (to_u32 r)]) } := by
  have hf : find_in k.cur.file_descriptors (to_int w) = some d := hfind
  refine ⟨env.file_write (k.trace ++ (loads_rw args ++ buffer_checks c m buffer size))
    d.file buffer size, ?_⟩
  simp [syscall_write, bind_eq, pure_eq, K.bind, K.pure, load32_of_peek hfd, load32_of_peek hbuf,
    load32_of_peek hsize, check_ptr, hv1, hv2, h0, h1, lookup, file_of, find_file_descriptor,
    Kernel.logs, hf, emit, set_eax, ask, loads_rw, buffer_checks]

theorem fail_exit_eq (k : Kernel) :
    fail_exit k = .exited
      { cur := { k.cur with exit_status := -1 }, eax := to_u32 (-1),
        filesys_lock := k.filesys_lock,
        trace := k.trace ++ [.set_eax (to_u32 (-1)), .printf_exit k.cur.name (-1), .thread_exit] } := by
  simp [fail_exit, exit_error, bind_eq, K.bind, set_eax, printf_exit, thread_exit, Kernel.logs]

theorem tell_unknown (env : Env) (m : Machine) (args : Nat) (k : Kernel) (w : Nat)
    (hfd : peek32 m (padd args 4) = some w)
    (hfind : find_file_descriptor (to_int w) k = none) :
    syscall_tell env m args k = fail_exit (k.logs (loads32 (padd args 4))) := by
  have hf : find_in k.cur.file_descriptors (to_int w) = none := hfind
  simp [syscall_tell, bind_eq, K.bind, load32_of_peek hfd, lookup, find_file_descriptor,
    Kernel.logs, hf, fail_exit_eq]

theorem close_unknown (m : Machine) (args : Nat) (k : Kernel) (w : Nat)
    (hfd : peek32 m (padd args 4) = some w)
    (hfind : find_file_descriptor (to_int w) k = none) :
    syscall_close m args k = fail_exit (k.logs (loads32 (padd args 4))) := by
  have hf : find_in k.cur.file_descriptors (to_int w) = none := hfind
  simp [syscall_close, bind_eq, K.bind, load32_of_peek hfd, lookup, find_file_descriptor,
    Kernel.logs, hf, fail_exit_eq]

theorem filesize_unknown (env : Env) (m : Machine) (args : Nat) (k : Kernel) (w : Nat)
    (hfd : peek32 m (padd args 4) = some w)
    (hfind : find_file_descriptor (to_int w) k = none) :
    syscall_filesize env m args k = fail_exit (k.logs (loads32 (padd args 4))) := by
  have hf : find_in k.cur.file_descriptors (to_int w) = none := hfind
  by_cases h01 : to_int w = 0 ∨ to_int w = 1
  · simp [syscall_filesize, bind_eq, K.bind, load32_of_peek hfd, Kernel.logs, h01]
  · simp only [not_or] at h01
    simp [syscall_filesize, bind_eq, K.bind, load32_of_peek hfd, lookup, find_file_descriptor,
      Kernel.logs, hf, h01.1, h01.2, fail_exit_eq]

theorem read_unknown (c : Consts) (env : Env) (m : Machine) (args : Nat) (k : Kernel)
    (w buffer size : Nat)
    (hfd : peek32 m (padd args 4) = some w) (hbuf : peek32 m (padd args 8) = some buffer)
    (hsize : peek32 m (padd args 12) = some size) (h0 : to_int w ≠ 0)
    (hfind : find_file_descriptor (to_int w) k = none) :
    syscall_read c env m args k
      = fail_exit (k.logs (loads_rw args ++ buffer_checks c m buffer size)) := by
  have hf : find_in k.cur.file_descriptors (to_int w) = none := hfind
  by_cases hbad : is_valid_ptr c m buffer = false ∨
      is_valid_ptr c m (last_byte buffer size) = false ∨ to_int w = 1
  · exact read_bad c env m args k w buffer size hfd hbuf hsize hbad
  · simp only [not_or, Bool.not_eq_false] at hbad
    obtain ⟨hv1, hv2, h1⟩ := hbad
    simp [syscall_read, bind_eq, pure_eq, K.bind, K.pure, load32_of_peek hfd,
      load32_of_peek hbuf, load32_of_peek hsize, check_ptr, hv1, hv2, h0, h1, lookup,
      find_file_descriptor, Kernel.logs, hf, loads_rw, buffer_checks, fail_exit_eq]

theorem write_unknown (c : Consts) (env : Env) (m : Machine) (args : Nat) (k : Kernel)
    (w buffer size : Nat)
    (hfd : peek32 m (padd args 4) = some w) (hbuf : peek32 m (padd args 8) = some buffer)
    (hsize : peek32 m (padd args 12) = some size) (h1 : to_int w ≠ 1)
    (hfind : find_file_descriptor (to_int w) k = none) :
    syscall_write c env m args k
      = fail_exit (k.logs (loads_rw args ++ buffer_checks c m buffer size)) := by
  have hf : find_in k.cur.file_descriptors (to_int w) = none := hfind
  by_cases hbad : is_valid_ptr c m buffer = false ∨
      is_valid_ptr c m (last_byte buffer size) = false ∨ to_int w = 0
  · exact write_bad c env m args k w buffer size hfd hbuf hsize hbad
  · simp only [not_or, Bool.not_eq_false] at hbad
    obtain ⟨hv1, hv2, h0⟩ := hbad
    simp [syscall_write, bind_eq, pure_eq, K.bind, K.pure, load32_of_peek hfd,
      load32_of_peek hbuf, load32_of_peek hsize, check_ptr, hv1, hv2, h0, h1, lookup,
      find_file_descriptor, Kernel.logs, hf, loads_rw, buffer_checks, fail_exit_eq]

/-- When the lookup of `n` finds nothing, every handler that uses it is fatal. -/
theorem unknown_fatal (c : Consts) (env : Env) (n : Int) (k : Kernel)
    (hfind : find_file_descriptor n k = none) : UnknownFatal c env n k := by
  constructor
  · intro m args w hfd hn
    subst hn
    exact ⟨fatal_of_fail_exit k _ (quiet_loads32 _) _ (tell_unknown env m args k w hfd hfind),
      fatal_of_fail_exit k _ (quiet_loads32 _) _ (filesize_unknown env m args k w hfd hfind),
      fatal_of_fail_exit k _ (quiet_loads32 _) _ (close_unknown m args k w hfd hfind)⟩
  · intro m args w buffer size hfd hn hbuf hsize
    subst hn
    exact ⟨fun h0 => fatal_of_fail_exit k _
        (quiet_append (quiet_loads_rw args) (quiet_buffer_checks c m buffer size)) _
        (read_unknown c env m args k w buffer size hfd hbuf hsize h0 hfind),
      fun h1 => fatal_of_fail_exit k _
        (quiet_append (quiet_loads_rw args) (quiet_buffer_checks c m buffer size)) _
        (write_unknown c env m args k w buffer size hfd hbuf hsize h1 hfind)⟩

theorem close_found (m : Machine) (args : Nat) (k : Kernel) (w : Nat) (d : file_descriptor_t)
    (hfd : peek32 m (padd args 4) = some w)
    (hfind : find_file_descriptor (to_int w) k = some d) :
    syscall_close m args k = .ok ()
      { cur := { k.cur with file_descriptors := remove_in k.cur.file_descriptors (to_int w) },
        eax := 0, filesys_lock := k.filesys_lock,
        trace := k.trace ++ (loads32 (padd args 4) ++
          [.file_close d.file, .free, .set_eax 0]) } := by
  have hf : find_in k.cur.file_descriptors (to_int w) = some d := hfind
  simp [syscall_close, bind_eq, pure_eq, K.bind, K.pure, load32_of_peek hfd, lookup, file_of,
    find_file_descriptor, Kernel.logs, hf, emit, set_eax, remove_fd]

theorem not_mem_quiet {es : List Event} (hes : ∀ e ∈ es, e.quiet = true) {e : Event}
    (he : e.quiet = false) : e ∉ es := by
  intro hmem
  rw [hes e hmem] at he
  exact Bool.noConfusion he

/-! ## The filesystem lock on the fatal path (C1) -/

/-- C1, evaluated on the code: a `write` trap with a null buffer and a `close`
trap on a fileno that was never opened are dispatched with `filesys_lock`
acquired, the handler leaves through `exit_error`, and when the thread exits
the lock is still held: `lock_release` was never called. -/
theorem lock_still_held_after_fatal_handler :
    (∃ k, syscall_handler sample_consts sample_env (word_mem 0xbffffff0 [9, 1, 0, 5])
        0xbffffff0 k_init = .exited k ∧
      k.filesys_lock = true ∧ Event.lock_acquire ∈ k.trace ∧ Event.lock_release ∉ k.trace) ∧
    (∃ k, syscall_handler sample_consts sample_env (word_mem 0xbffffff0 [12, 5])
        0xbffffff0 k_init = .exited k ∧
      k.filesys_lock = true ∧ Event.lock_acquire ∈ k.trace ∧ Event.lock_release ∉ k.trace) := by
  refine ⟨⟨_, rfl, ?_, ?_, ?_⟩, ⟨_, rfl, ?_, ?_, ?_⟩⟩ <;> decide

/-! ## Reads of the argument words (C2) -/

/-- C2, evaluated on the code: with `esp = PHYS_BASE - 4` valid and the word
`SYS_PRACTICE` there, the handler reads `args[1]` at `PHYS_BASE`, an address
that `is_valid_ptr` rejects and that was never passed to it.  When kernel memory
is present the call returns that kernel word plus one to the user; when it is
not, the read faults.  In neither case does the process end in the fatal
termination with status `-1`. -/
theorem argument_word_read_without_validation :
    is_valid_ptr sample_consts (top_mem 13 true) 0xbffffffc = true ∧
    is_valid_ptr sample_consts (top_mem 13 true) 0xc0000000 = false ∧
    (∃ k, syscall_handler sample_consts sample_env (top_mem 13 true) 0xbffffffc k_init
        = .ok () k ∧
      k.eax = 0x1235 ∧ Event.load 0xc0000000 ∈ k.trace ∧
      Event.valid 0xc0000000 true ∉ k.trace ∧ Event.valid 0xc0000000 false ∉ k.trace) ∧
    (∃ k, syscall_handler sample_consts sample_env (top_mem 13 false) 0xbffffffc k_init
        = .page_fault 0xc0000000 k ∧
      Event.load 0xc0000000 ∈ k.trace ∧
      Event.valid 0xc0000000 true ∉ k.trace ∧ Event.valid 0xc0000000 false ∉ k.trace) := by
  refine ⟨by decide, by decide, ⟨_, rfl, ?_, ?_, ?_, ?_⟩, ⟨_, rfl, ?_, ?_, ?_⟩⟩ <;> decide

/-! ## `seek` on an unknown fileno (C3) -/

/-- C3, evaluated on the code: when the fileno of a `seek` is not in the
descriptor list, `syscall_seek` reads `file_descriptor->file` through the null
pointer that the lookup returned; it does not terminate the process with status
`-1` and nothing is printed. -/
theorem seek_unknown_fileno_null_deref (m : Machine) (args : Nat) (k : Kernel) (w pos : Nat)
    (hfd : peek32 m (padd args 4) = some w) (hpos : peek32 m (padd args 8) = some pos)
    (hnone : find_file_descriptor (to_int w) k = none) :
    syscall_seek m args k
      = .null_deref (k.logs (loads32 (padd args 4) ++ loads32 (padd args 8))) := by
  have hf : find_in k.cur.file_descriptors (to_int w) = none := hnone
  simp [syscall_seek, bind_eq, K.bind, load32_of_peek hfd, load32_of_peek hpos, lookup,
    file_of, hf, Kernel.logs, find_file_descriptor]

/-- On a `seek (7, 0)` with an empty descriptor list the handler dereferences
null, where `tell (7)` in the same state terminates the process with status `-1`. -/
theorem seek_unknown_fileno_null_deref_witness :
    syscall_seek (word_mem 0xbffffff0 [10, 7, 0]) 0xbffffff0 k_init
        = .null_deref (k_init.logs (loads32 (padd 0xbffffff0 4) ++ loads32 (padd 0xbffffff0 8))) ∧
    Fatal k_init (syscall_tell sample_env (word_mem 0xbffffff0 [11, 7]) 0xbffffff0 k_init) :=
  ⟨seek_unknown_fileno_null_deref (word_mem 0xbffffff0 [10, 7, 0]) 0xbffffff0 k_init 7 0
      (by decide) (by decide) (by decide),
   ⟨loads32 (padd 0xbffffff0 4) ++ [.set_eax 4294967295], 4294967295, by decide, by decide⟩⟩

/-! ## `exit` (C4) -/

/-- C4, evaluated on the code: `syscall_exit` writes the status to `eax`, prints
the line `"<name>: exit(<status>)"` once and calls `thread_exit`, but it leaves
`wait_info->exit_status` as it was: the status is not published. -/
theorem exit_does_not_publish_status (m : Machine) (args : Nat) (k : Kernel) (w : Nat)
    (h : peek32 m (padd args 4) = some w) :
    syscall_exit m args k = .exited
      { cur := k.cur, eax := w, filesys_lock := k.filesys_lock,
        trace := k.trace ++ (loads32 (padd args 4) ++
          [.set_eax w, .printf_exit k.cur.name (to_int w), .thread_exit]) } := by
  simp [syscall_exit, bind_eq, K.bind, load32_of_peek h, set_eax, printf_exit, thread_exit,
    Kernel.logs, to_u32_to_int w (peek32_lt h)]

/-- On `exit (7)` by a thread whose exit status slot holds `0`, the slot still
holds `0` when the thread exits. -/
theorem exit_does_not_publish_status_witness :
    ∃ k, syscall_exit (word_mem 0xbffffff0 [1, 7]) 0xbffffff0 k_init = .exited k ∧
      k.eax = 7 ∧ k.cur.exit_status = 0 ∧ Event.printf_exit "main" 7 ∈ k.trace :=
  ⟨_, exit_does_not_publish_status (word_mem 0xbffffff0 [1, 7]) 0xbffffff0 k_init 7 (by decide),
    rfl, rfl, by decide⟩

/-! ## A fileno returned by `open` (C5) -/

/-- C5 as stated fails: from a state with an empty descriptor list and counter
0, `open` succeeds and returns fileno 0 with the new entry found by the lookup,
yet `write` on that fileno with a valid buffer terminates the process. -/
theorem open_returns_zero_write_fatal :
    (∀ d ∈ k_zero.cur.file_descriptors, d.fileno < k_zero.cur.last_fileno) ∧
    ∃ k1, syscall_open sample_consts sample_env open_mem 0xbffffff0 k_zero = .ok () k1 ∧
      Event.filesys_open 0xbffffff8 0xc0100000 ∈ k1.trace.drop k_zero.trace.length ∧
      k1.eax = 0 ∧ find_file_descriptor 0 k1 = some ⟨0, 0xc0100000⟩ ∧
      is_valid_ptr sample_consts (word_mem 0xbffffff0 [9, 0, 0xbffffff0, 2]) 0xbffffff0 = true ∧
      is_valid_ptr sample_consts (word_mem 0xbffffff0 [9, 0, 0xbffffff0, 2])
        (last_byte 0xbffffff0 2) = true ∧
      ∃ k2, syscall_write sample_consts sample_env (word_mem 0xbffffff0 [9, 0, 0xbffffff0, 2])
          0xbffffff0 k1 = .exited k2 ∧ k2.cur.exit_status = -1 := by
  refine ⟨by decide, _, rfl, ?_, ?_, ?_, ?_, ?_, _, rfl, ?_⟩ <;> decide

/-- C5, amended: from a state whose filenos are all below the counter, when
`syscall_open` returns after `filesys_open` gave the handle `h`, it returns the
old counter `n`; then and after any further returning handler calls other than
`close (n)`, the lookup of `n` gives the entry `(n, h)`, `seek` and `tell` on `n`
return normally and call `file_seek`, `file_tell` on `h`, and when `n` is
neither 0 nor 1 `read` and `write` on `n` with a valid buffer return normally
and call `file_read`, `file_write` on `h`. -/
theorem open_fileno_usable (c : Consts) (env : Env) (m : Machine) (args : Nat) (k k1 : Kernel)
    (file h : Nat)
    (hlt : ∀ d ∈ k.cur.file_descriptors, d.fileno < k.cur.last_fileno)
    (hok : syscall_open c env m args k = .ok () k1)
    (hev : Event.filesys_open file h ∈ k1.trace.drop k.trace.length) (hh : h ≠ 0) :
    k1.eax = to_u32 k.cur.last_fileno ∧
    ∀ (calls : List Call) (k2 : Kernel), (∀ x ∈ calls, ¬ x.is_close k.cur.last_fileno) →
      run_calls c env calls k1 = some k2 →
      find_file_descriptor k.cur.last_fileno k2 = some ⟨k.cur.last_fileno, h⟩ ∧
      SeekTellDelegate env k.cur.last_fileno h k2 ∧
      (k.cur.last_fileno ≠ 0 → k.cur.last_fileno ≠ 1 →
        ReadWriteDelegate c env k.cur.last_fileno h k2) := by
  obtain ⟨file1, es, _, hes, hcase⟩ := open_ok_inv hok
  have hq : ∀ a, Event.filesys_open file h ∉ loads32 a ++ es :=
    fun a => not_mem_quiet (quiet_append (quiet_loads32 a) hes) rfl
  rcases hcase with hk1 | ⟨hdl, p, _, _, hk1⟩
  · exfalso
    rw [hk1] at hev
    simp only [List.drop_left, List.mem_append, List.mem_cons, List.mem_singleton,
      Event.filesys_open.injEq, List.not_mem_nil, or_false] at hev
    rcases hev with h1 | h1 | h1
    · exact hq _ (List.mem_append.2 h1)
    · exact hh h1.2
    · simp at h1
  · have hhdl : h = hdl := by
      rw [hk1] at hev
      simp only [List.drop_left, List.mem_append, List.mem_cons, List.mem_singleton,
        Event.filesys_open.injEq, List.not_mem_nil, or_false] at hev
      rcases hev with h1 | h1 | h1 | h1
      · exact absurd (List.mem_append.2 h1) (hq _)
      · exact h1.2
      · simp at h1
      · simp at h1
    subst hhdl
    have hnone : find_in k.cur.file_descriptors k.cur.last_fileno = none :=
      find_in_none (fun d hd => ne_of_lt (hlt d hd))
    have hfind1 : find_file_descriptor k.cur.last_fileno k1 = some ⟨k.cur.last_fileno, h⟩ := by
      rw [hk1]
      exact find_in_append_new _ hnone rfl
    refine ⟨by rw [hk1], ?_⟩
    intro calls k2 hno hrun
    have hfind2 := find_stays_run_calls c env _ _ calls k1 k2 hno hrun hfind1
    refine ⟨hfind2, ⟨?_, ?_⟩, ?_⟩
    · intro m2 args2 w pos hw hn hpos
      rw [← hn] at hfind2
      exact seek_found m2 args2 k2 w pos _ hw hpos hfind2
    · intro m2 args2 w hw hn
      rw [← hn] at hfind2
      exact tell_found env m2 args2 k2 w _ hw hfind2
    · intro h0 h1 m2 args2 w buffer size hw hn hbuf hsize hv1 hv2
      rw [← hn] at h0 h1 hfind2
      exact ⟨read_found c env m2 args2 k2 w buffer size _ hw hbuf hsize hv1 hv2 h0 h1 hfind2,
        write_found c env m2 args2 k2 w buffer size _ hw hbuf hsize hv1 hv2 h0 h1 hfind2⟩

/-- Instance of C5: the first `open` of a thread whose counter is 2 returns 2;
after a `write (2, buf, 2)` the lookup of 2 still gives the handle, and `read`
and `write` on 2 delegate to it. -/
theorem open_fileno_usable_witness :
    ∃ k1 k2, syscall_open sample_consts sample_env open_mem 0xbffffff0 k_init = .ok () k1 ∧
      k1.eax = 2 ∧
      run_calls sample_consts sample_env
        [⟨.write, word_mem 0xbffffff0 [9, 2, 0xbffffff0, 2], 0xbffffff0⟩] k1 = some k2 ∧
      find_file_descriptor 2 k2 = some ⟨2, 0xc0100000⟩ ∧
      ReadWriteDelegate sample_consts sample_env 2 0xc0100000 k2 := by
  have h := open_fileno_usable sample_consts sample_env open_mem 0xbffffff0 k_init _
    0xbffffff8 0xc0100000 (by decide) rfl (by decide) (by decide)
  have h2 := h.2 [⟨.write, word_mem 0xbffffff0 [9, 2, 0xbffffff0, 2], 0xbffffff0⟩] _
    (by intro x hx hc
        simp only [List.mem_singleton] at hx
        subst hx
        exact absurd hc.1 (by decide)) rfl
  exact ⟨_, _, rfl, h.1, rfl, h2.1, h2.2.2 (by decide) (by decide)⟩

/-! ## A fileno after `close` (C6) -/

/-- C6 as stated fails: in a state whose filenos are pairwise distinct and
whose list holds fileno 0, `close (0)` returns and the lookup of 0 then finds
nothing, yet a following `read (0, buf, 1)` with a valid buffer returns 1 to the
caller: it reads the keyboard. -/
theorem close_zero_then_read_returns :
    (k_stdin.cur.file_descriptors.map (fun d => d.fileno)).Nodup ∧
    find_file_descriptor 0 k_stdin = some ⟨0, 0xc0100000⟩ ∧
    ∃ k1, syscall_close (word_mem 0xbffffff0 [12, 0]) 0xbffffff0 k_stdin = .ok () k1 ∧
      k1.eax = 0 ∧ find_file_descriptor 0 k1 = none ∧
      ∃ k2, syscall_read sample_consts sample_env (word_mem 0xbffffff0 [8, 0, 0xbffffff0, 1])
          0xbffffff0 k1 = .ok () k2 ∧ k2.eax = 1 ∧ k2.cur.exit_status = 0 := by
  refine ⟨by decide, by decide, _, rfl, ?_, ?_, _, rfl, ?_, ?_⟩ <;> decide

/-- C6, amended: in a state whose filenos are pairwise distinct, `close` on a
fileno `n` of the list calls `file_close` on that entry's handle once, removes
the entry and returns 0; afterwards the lookup of `n` finds nothing, so a
following `tell`, `filesize` or `close` on `n` is fatal, a following `read` on
`n` is fatal when `n` is not 0 and a following `write` on `n` is fatal when `n`
is not 1. -/
theorem close_then_unknown (c : Consts) (env : Env) (m : Machine) (args : Nat) (k : Kernel)
    (w : Nat) (d : file_descriptor_t)
    (hnodup : (k.cur.file_descriptors.map (fun d => d.fileno)).Nodup)
    (hfd : peek32 m (padd args 4) = some w)
    (hfind : find_file_descriptor (to_int w) k = some d) :
    ∃ k1, syscall_close m args k = .ok () k1 ∧ k1.eax = 0 ∧
      k1.trace = k.trace ++ (loads32 (padd args 4) ++ [.file_close d.file, .free, .set_eax 0]) ∧
      k1.cur.file_descriptors = k.cur.file_descriptors.erase d ∧
      find_file_descriptor (to_int w) k1 = none ∧
      UnknownFatal c env (to_int w) k1 := by
  have hnone : find_in (remove_in k.cur.file_descriptors (to_int w)) (to_int w) = none :=
    find_in_remove_self _ _ hnodup
  exact ⟨_, close_found m args k w d hfd hfind, rfl, rfl, remove_in_eq_erase hfind, hnone,
    unknown_fatal c env _ _ hnone⟩

/-- Instance of C6, the scenario of the specification: with fileno 2 open,
`close (2)` returns and a following `read (2, buf, 1)` is fatal. -/
theorem close_then_unknown_witness :
    ∃ k1, syscall_close (word_mem 0xbffffff0 [12, 2]) 0xbffffff0 k_open = .ok () k1 ∧
      k1.cur.file_descriptors = [] ∧
      Fatal k1 (syscall_read sample_consts sample_env (word_mem 0xbffffff0 [8, 2, 0xbffffff0, 1])
        0xbffffff0 k1) := by
  obtain ⟨k1, h1, _, _, h2, _, hU⟩ := close_then_unknown sample_consts sample_env
    (word_mem 0xbffffff0 [12, 2]) 0xbffffff0 k_open 2 ⟨2, 0xc0100000⟩
    (by decide) (by decide) (by decide)
  exact ⟨k1, h1, by rw [h2]; decide,
    (hU.2 (word_mem 0xbffffff0 [8, 2, 0xbffffff0, 1]) 0xbffffff0 2 0xbffffff0 1
      (by decide) (by decide) (by decide) (by decide)).1 (by decide)⟩

/-! ## `write` to fileno 0, `read` from fileno 1 (C7) -/

/-- C7: whatever the buffer address, the length and the state, `syscall_write`
with fileno 0 and `syscall_read` with fileno 1 terminate the caller fatally: the
exit status becomes `-1`, one termination line is printed, and before it only
pointer checks, argument reads and the write of `eax` happen, so no console,
keyboard or file primitive is called. -/
theorem write_fd0_read_fd1_fatal (c : Consts) (env : Env) (m : Machine) (args : Nat)
    (k : Kernel) (w buffer size : Nat)
    (hfd : peek32 m (padd args 4) = some w) (hbuf : peek32 m (padd args 8) = some buffer)
    (hsize : peek32 m (padd args 12) = some size) :
    (to_int w = 0 → Fatal k (syscall_write c env m args k)) ∧
    (to_int w = 1 → Fatal k (syscall_read c env m args k)) := by
  constructor
  · intro h0
    exact fatal_of_fail_exit k _ (quiet_append (quiet_loads_rw args) (quiet_buffer_checks c m buffer size)) _
      (write_bad c env m args k w buffer size hfd hbuf hsize (Or.inr (Or.inr h0)))
  · intro h1
    exact fatal_of_fail_exit k _ (quiet_append (quiet_loads_rw args) (quiet_buffer_checks c m buffer size)) _
      (read_bad c env m args k w buffer size hfd hbuf hsize (Or.inr (Or.inr h1)))

/-- Instance of C7: `write (0, buf, 2)` and `read (1, buf, 2)` with a valid
two-byte buffer are both fatal. -/
theorem write_fd0_read_fd1_fatal_witness :
    Fatal k_init (syscall_write sample_consts sample_env
        (word_mem 0xbffffff0 [9, 0, 0xbffffff0, 2]) 0xbffffff0 k_init) ∧
    Fatal k_init (syscall_read sample_consts sample_env
        (word_mem 0xbffffff0 [8, 1, 0xbffffff0, 2]) 0xbffffff0 k_init) :=
  ⟨(write_fd0_read_fd1_fatal sample_consts sample_env (word_mem 0xbffffff0 [9, 0, 0xbffffff0, 2])
      0xbffffff0 k_init 0 0xbffffff0 2 (by decide) (by decide) (by decide)).1 (by decide),
   (write_fd0_read_fd1_fatal sample_consts sample_env (word_mem 0xbffffff0 [8, 1, 0xbffffff0, 2])
      0xbffffff0 k_init 1 0xbffffff0 2 (by decide) (by decide) (by decide)).2 (by decide)⟩

/-! ## A buffer whose last byte is invalid (C8) -/

/-- C8: for every fileno, buffer start `p` and length `n ≥ 1`, when the address
`p + n - 1` of the last byte (in 32-bit pointer arithmetic) fails `is_valid_ptr`,
`syscall_read` and `syscall_write` terminate the caller fatally, whether or not
`p` itself is valid; nothing but pointer checks, argument reads and the write of
`eax` precedes the termination line, so no byte is transferred. -/
theorem invalid_last_byte_fatal (c : Consts) (env : Env) (m : Machine) (args : Nat)
    (k : Kernel) (w p n : Nat)
    (hfd : peek32 m (padd args 4) = some w) (hbuf : peek32 m (padd args 8) = some p)
    (hsize : peek32 m (padd args 12) = some n) (hn : 1 ≤ n)
    (hlast : is_valid_ptr c m ((p + n - 1) % 4294967296) = false) :
    Fatal k (syscall_read c env m args k) ∧ Fatal k (syscall_write c env m args k) := by
  rw [← last_byte_eq p n hn] at hlast
  exact ⟨fatal_of_fail_exit k _
      (quiet_append (quiet_loads_rw args) (quiet_buffer_checks c m p n)) _
      (read_bad c env m args k w p n hfd hbuf hsize (Or.inr (Or.inl hlast))),
    fatal_of_fail_exit k _
      (quiet_append (quiet_loads_rw args) (quiet_buffer_checks c m p n)) _
      (write_bad c env m args k w p n hfd hbuf hsize (Or.inr (Or.inl hlast)))⟩

/-- Instance of C8: a buffer of 32 bytes that starts on the mapped stack words
at `0xbffffff0` and ends above them. -/
theorem invalid_last_byte_fatal_witness :
    is_valid_ptr sample_consts (word_mem 0xbffffff0 [9, 1, 0xbffffff0, 32]) 0xbffffff0 = true ∧
    Fatal k_init (syscall_read sample_consts sample_env
      (word_mem 0xbffffff0 [9, 1, 0xbffffff0, 32]) 0xbffffff0 k_init) ∧
    Fatal k_init (syscall_write sample_consts sample_env
      (word_mem 0xbffffff0 [9, 1, 0xbffffff0, 32]) 0xbffffff0 k_init) :=
  ⟨by decide,
   invalid_last_byte_fatal sample_consts sample_env (word_mem 0xbffffff0 [9, 1, 0xbffffff0, 32])
    0xbffffff0 k_init 1 0xbffffff0 32 (by decide) (by decide) (by decide) (by decide) (by decide)⟩

/-! ## `practice` (C9) -/

/-- C9: for every argument word `n`, `syscall_practice` returns normally with
`eax = (n + 1) mod 2 ^ 32`; besides `eax` and the trace (the argument read and
the write of `eax`) the state is unchanged.  In particular `n = 0xffffffff` (the
int `-1`) gives `0` and `n = 0x7fffffff` gives `0x80000000`. -/
theorem practice_returns_succ (m : Machine) (args : Nat) (k : Kernel) (n : Nat)
    (h : peek32 m (padd args 4) = some n) :
    syscall_practice m args k = .ok ()
      { cur := k.cur, eax := (n + 1) % 4294967296, filesys_lock := k.filesys_lock,
        trace := k.trace ++ (loads32 (padd args 4) ++ [.set_eax ((n + 1) % 4294967296)]) } := by
  simp [syscall_practice, bind_eq, K.bind, load32_of_peek h, set_eax, to_u32_to_int_succ n,
    Kernel.logs]

/-- Instances of C9 at the boundaries: `-1` gives `0`, `INT_MAX` gives
`0x80000000`, and `-5` gives `-4`. -/
theorem practice_returns_succ_witness :
    (∃ k, syscall_practice (word_mem 0xbffffff0 [13, 0xffffffff]) 0xbffffff0 k_init = .ok () k
      ∧ k.eax = 0) ∧
    (∃ k, syscall_practice (word_mem 0xbffffff0 [13, 0x7fffffff]) 0xbffffff0 k_init = .ok () k
      ∧ k.eax = 0x80000000) ∧
    (∃ k, syscall_practice (word_mem 0xbffffff0 [13, 0xfffffffb]) 0xbffffff0 k_init = .ok () k
      ∧ to_int k.eax = -4) :=
  ⟨⟨_, practice_returns_succ (word_mem 0xbffffff0 [13, 0xffffffff]) 0xbffffff0 k_init 0xffffffff
      (by decide), by decide⟩,
   ⟨_, practice_returns_succ (word_mem 0xbffffff0 [13, 0x7fffffff]) 0xbffffff0 k_init 0x7fffffff
      (by decide), by decide⟩,
   ⟨_, practice_returns_succ (word_mem 0xbffffff0 [13, 0xfffffffb]) 0xbffffff0 k_init 0xfffffffb
      (by decide), by decide⟩⟩

/-! ## An unknown system-call number (C10) -/

/-- C10: for every trap whose stack pointer is valid and whose number matches no
entry of `syscall_table`, `syscall_handler` ends in `thread_exit` with exit
status `-1`; between the two pointer checks, the read of the number and the one
termination line `"<name>: exit(-1)"` nothing happens: no handler runs, the lock
is not acquired and `eax` is not written. -/
theorem unknown_number_fatal (c : Consts) (env : Env) (m : Machine) (esp : Nat) (k : Kernel)
    (w : Nat) (hesp : is_valid_ptr c m esp = true) (hw : peek32 m esp = some w)
    (hno : ∀ d ∈ syscall_table c, d.number ≠ to_int w) :
    syscall_handler c env m esp k = .exited
      { cur := { k.cur with exit_status := -1 }, eax := k.eax, filesys_lock := k.filesys_lock,
        trace := k.trace ++ ([.valid esp true, .valid esp true] ++ loads32 esp ++
          [.printf_exit k.cur.name (-1), .thread_exit]) } := by
  simp [syscall_handler, bind_eq, pure_eq, K.bind, K.pure, check_ptr, hesp, Kernel.logs,
    load32_of_peek hw, dispatch_no_match c env m esp (to_int w) (syscall_table c) hno,
    exit_error, printf_exit, thread_exit]

/-- Instance of C10: number 77 with the sample numbers 0..13. -/
theorem unknown_number_fatal_witness :
    ∃ k, syscall_handler sample_consts sample_env (word_mem 0xbffffff0 [77]) 0xbffffff0 k_init
        = .exited k ∧
      k.cur.exit_status = -1 ∧ k.filesys_lock = false ∧
      k.trace.count (.printf_exit "main" (-1)) = 1 ∧ Event.lock_acquire ∉ k.trace :=
  ⟨_, unknown_number_fatal sample_consts sample_env (word_mem 0xbffffff0 [77]) 0xbffffff0 k_init
      77 (by decide) (by decide) (by decide), by decide, by decide, by decide, by decide⟩

/-! ## Strings in user memory -/

theorem strlen_loop_cstring (m : Machine) : ∀ (len fuel a n : Nat) (k : Kernel),
    len < fuel → is_cstring m a len = true →
    strlen_loop m fuel a n k = .ok (n + len) (k.logs (string_loads a len)) := by
  intro len
  induction len with
  | zero =>
    intro fuel a n k hf hs
    obtain ⟨f, rfl⟩ : ∃ f, fuel = f + 1 := ⟨fuel - 1, by omega⟩
    simp only [is_cstring, Bool.and_eq_true, beq_iff_eq] at hs
    simp [strlen_loop, bind_eq, pure_eq, K.bind, K.pure, load8, hs.1, hs.2, string_loads]
  | succ len ih =>
    intro fuel a n k hf hs
    obtain ⟨f, rfl⟩ : ∃ f, fuel = f + 1 := ⟨fuel - 1, by omega⟩
    simp only [is_cstring, Bool.and_eq_true, bne_iff_ne, ne_eq] at hs
    obtain ⟨⟨h1, h2⟩, h3⟩ := hs
    simp only [strlen_loop, bind_eq, K.bind, load8, h1, if_true, h2, if_false]
    rw [ih f (padd a 1) (n + 1) _ (by omega) h3]
    simp [Kernel.logs, string_loads]
    omega

/-- On a string of length `len` in memory `strlen` returns `len` after reading
its bytes and the terminator. -/
theorem strlen_cstring {m : Machine} {p len : Nat} (hlen : len < 4294967296)
    (hs : is_cstring m p len = true) (k : Kernel) :
    strlen m p k = .ok len (k.logs (string_loads p len)) := by
  have h := strlen_loop_cstring m len 4294967296 p 0 k hlen hs
  rw [Nat.zero_add] at h
  exact h

/-- The string test on a valid pointer to a string in memory: it checks the
first byte, measures the string and checks its last byte. -/
theorem bad_string_cstring {c : Consts} {m : Machine} {p len : Nat} (hlen : len < 4294967296)
    (hs : is_cstring m p len = true) (hv : is_valid_ptr c m p = true) (k : Kernel) :
    bad_string c m p k
      = .ok (!is_valid_ptr c m (last_byte p len)) (k.logs (string_checks c m p len)) := by
  simp [bad_string, bind_eq, pure_eq, K.bind, K.pure, check_ptr, hv, strlen_cstring hlen hs,
    Kernel.logs, string_checks]

/-- The string test on an invalid pointer: one check, nothing is read. -/
theorem bad_string_invalid {c : Consts} {m : Machine} {p : Nat}
    (hv : is_valid_ptr c m p = false) (k : Kernel) :
    bad_string c m p k = .ok true (k.logs [.valid p false]) := by
  simp [bad_string, bind_eq, pure_eq, K.bind, K.pure, check_ptr, hv, Kernel.logs]

/-! ## `open` when the filesystem reports failure (C11) -/

/-- C11: for every name pointer that passes the string test (a string in
memory whose first and last byte are valid) and for which `filesys_open`
returns NULL, `syscall_open` writes `-1` to `eax` and returns to the caller; the
thread's fields, among them the descriptor list and the counter, and the lock
are as before. -/
theorem open_failure_returns_minus_one (c : Consts) (env : Env) (m : Machine) (args : Nat)
    (k : Kernel) (file len : Nat)
    (hfile : peek32 m (padd args 4) = some file) (hlen : len < 4294967296)
    (hs : is_cstring m file len = true) (hv1 : is_valid_ptr c m file = true)
    (hv2 : is_valid_ptr c m (last_byte file len) = true)
    (hfail : env.filesys_open
      (k.trace ++ (loads32 (padd args 4) ++ string_checks c m file len)) file = 0) :
    syscall_open c env m args k = .ok ()
      { cur := k.cur, eax := 4294967295, filesys_lock := k.filesys_lock,
        trace := k.trace ++ (loads32 (padd args 4) ++ string_checks c m file len ++
          [.filesys_open file 0, .set_eax 4294967295]) } := by
  have hf : env.filesys_open
      (k.trace ++ (loads32 (padd args 4) ++ string_checks c m file len)) file = 0 := hfail
  simp [syscall_open, bind_eq, K.bind, load32_of_peek hfile, bad_string_cstring hlen hs hv1,
    hv2, ask, emit, set_eax, Kernel.logs, hf, to_u32]

/-- Instance of C11: `open ("f")` when the filesystem has no such file. -/
theorem open_failure_returns_minus_one_witness :
    ∃ k1, syscall_open sample_consts failing_env open_mem 0xbffffff0 k_init = .ok () k1 ∧
      k1.eax = 4294967295 ∧ k1.cur = k_init.cur :=
  ⟨_, open_failure_returns_minus_one sample_consts failing_env open_mem 0xbffffff0 k_init
      0xbffffff8 1 (by decide) (by decide) (by decide) (by decide) (by decide) (by decide),
    rfl, rfl⟩

/-! ## `write` to the console (C15) -/

theorem filesize_console (env : Env) (m : Machine) (args : Nat) (k : Kernel) (w : Nat)
    (hfd : peek32 m (padd args 4) = some w) (h01 : to_int w = 0 ∨ to_int w = 1) :
    syscall_filesize env m args k = fail_exit (k.logs (loads32 (padd args 4))) := by
  simp [syscall_filesize, bind_eq, K.bind, load32_of_peek hfd, Kernel.logs, h01]

/-- C16: for every fileno `n ≥ 2` that is not in the descriptor list and every
buffer, `syscall_read`, `syscall_write`, `syscall_filesize`, `syscall_tell` and
`syscall_close` on `n` terminate the process with exit status `-1` after
argument reads, pointer checks and the write of `eax` only, so no file
primitive is called; and `syscall_filesize` on fileno 0 or 1 is fatal in every
state. -/
theorem invalid_fileno_fatal (c : Consts) (env : Env) (k : Kernel) (n : Int) (hn : 2 ≤ n)
    (hfind : find_file_descriptor n k = none) :
    (∀ (m : Machine) (args w buffer size : Nat), peek32 m (padd args 4) = some w →
      to_int w = n → peek32 m (padd args 8) = some buffer →
      peek32 m (padd args 12) = some size →
      Fatal k (syscall_read c env m args k) ∧ Fatal k (syscall_write c env m args k)) ∧
    (∀ (m : Machine) (args w : Nat), peek32 m (padd args 4) = some w → to_int w = n →
      Fatal k (syscall_filesize env m args k) ∧ Fatal k (syscall_tell env m args k) ∧
      Fatal k (syscall_close m args k)) ∧
    (∀ (k0 : Kernel) (m : Machine) (args w : Nat), peek32 m (padd args 4) = some w →
      to_int w = 0 ∨ to_int w = 1 → Fatal k0 (syscall_filesize env m args k0)) := by
  refine ⟨?_, ?_, ?_⟩
  · intro m args w buffer size hfd hw hbuf hsize
    subst hw
    exact ⟨fatal_of_fail_exit k _
        (quiet_append (quiet_loads_rw args) (quiet_buffer_checks c m buffer size)) _
        (read_unknown c env m args k w buffer size hfd hbuf hsize (by omega) hfind),
      fatal_of_fail_exit k _
        (quiet_append (quiet_loads_rw args) (quiet_buffer_checks c m buffer size)) _
        (write_unknown c env m args k w buffer size hfd hbuf hsize (by omega) hfind)⟩
  · intro m args w hfd hw
    subst hw
    exact ⟨fatal_of_fail_exit k _ (quiet_loads32 _) _ (filesize_unknown env m args k w hfd hfind),
      fatal_of_fail_exit k _ (quiet_loads32 _) _ (tell_unknown env m args k w hfd hfind),
      fatal_of_fail_exit k _ (quiet_loads32 _) _ (close_unknown m args k w hfd hfind)⟩
  · intro k0 m args w hfd h01
    exact fatal_of_fail_exit k0 _ (quiet_loads32 _) _ (filesize_console env m args k0 w hfd h01)

/-- Instance of C16, the scenario of the specification: `read (5, buf, 10)`
with fileno 5 never opened. -/
theorem invalid_fileno_fatal_witness :
    Fatal k_init (syscall_read sample_consts sample_env
      (word_mem 0xbffffff0 [8, 5, 0xbffffff0, 10]) 0xbffffff0 k_init) :=
  ((invalid_fileno_fatal sample_consts sample_env k_init 5 (by decide) (by decide)).1
    (word_mem 0xbffffff0 [8, 5, 0xbffffff0, 10]) 0xbffffff0 5 0xbffffff0 10
    (by decide) (by decide) (by decide) (by decide)).1

/-! ## The second validation step of the dispatcher (C19) -/

/-- C19: in `syscall_handler` the pointer `args` is `f->esp`, so the second
check evaluates `is_valid_ptr` on the address the first check accepted and
never fails after it.  When `esp` is invalid the dispatcher and the dispatcher
without the second check end alike; when `esp` is valid the dispatcher does
what the dispatcher without the second check does from a state whose trace
already records one successful `is_valid_ptr (esp)`: same outcome, same
handler, same final state. -/
theorem second_check_redundant (c : Consts) (env : Env) (m : Machine) (esp : Nat) (k : Kernel) :
    (is_valid_ptr c m esp = false →
      syscall_handler c env m esp k = syscall_handler_one_check c env m esp k) ∧
    (is_valid_ptr c m esp = true →
      syscall_handler c env m esp k
        = syscall_handler_one_check c env m esp (k.logs [.valid esp true])) := by
  constructor
  · intro h
    simp [syscall_handler, syscall_handler_one_check, bind_eq, pure_eq, K.bind, K.pure,
      check_ptr, h, exit_error, printf_exit, thread_exit, Kernel.logs]
  · intro h
    simp [syscall_handler, syscall_handler_one_check, bind_eq, pure_eq, K.bind, K.pure,
      check_ptr, h, Kernel.logs]

/-! ## A transfer of length zero (C20) -/

theorem last_byte_zero (p : Nat) (hp : p < 4294967296) :
    last_byte p 0 = if p = 0 then 4294967295 else p - 1 := by
  unfold last_byte
  split <;> omega

/-- C20: with length 0, `syscall_read` and `syscall_write` check `p` and then
`last_byte p 0`, which is `p - 1` (and `0xffffffff` for `p = 0`): the byte
before the buffer.  When `p` is valid and that address is not, both calls
terminate the process after these two checks; when both are valid, `write` on
fileno 1 calls `putbuf (p, 0)` and returns 0, and `read` on fileno 0 reads no
character and returns 0. -/
theorem zero_length_checks_byte_before (c : Consts) (env : Env) (m : Machine) (args : Nat)
    (k : Kernel) (w p : Nat)
    (hfd : peek32 m (padd args 4) = some w) (hbuf : peek32 m (padd args 8) = some p)
    (hsize : peek32 m (padd args 12) = some 0) (hv1 : is_valid_ptr c m p = true) :
    (last_byte p 0 = if p = 0 then 4294967295 else p - 1) ∧
    (is_valid_ptr c m (last_byte p 0) = false →
      syscall_read c env m args k = .exited
        { cur := { k.cur with exit_status := -1 }, eax := 4294967295,
          filesys_lock := k.filesys_lock,
          trace := k.trace ++ (loads_rw args ++ [.valid p true, .valid (last_byte p 0) false] ++
            [.set_eax 4294967295, .printf_exit k.cur.name (-1), .thread_exit]) } ∧
      syscall_write c env m args k = .exited
        { cur := { k.cur with exit_status := -1 }, eax := 4294967295,
          filesys_lock := k.filesys_lock,
          trace := k.trace ++ (loads_rw args ++ [.valid p true, .valid (last_byte p 0) false] ++
            [.set_eax 4294967295, .printf_exit k.cur.name (-1), .thread_exit]) }) ∧
    (is_valid_ptr c m (last_byte p 0) = true →
      (to_int w = 1 → syscall_write c env m args k = .ok ()
        { cur := k.cur, eax := 0, filesys_lock := k.filesys_lock,
          trace := k.trace ++ (loads_rw args ++ [.valid p true, .valid (last_byte p 0) true] ++
            [.putbuf p 0, .set_eax 0]) }) ∧
      (to_int w = 0 → syscall_read c env m args k = .ok ()
        { cur := k.cur, eax := 0, filesys_lock := k.filesys_lock,
          trace := k.trace ++ (loads_rw args ++ [.valid p true, .valid (last_byte p 0) true] ++
            [.set_eax 0]) })) := by
  refine ⟨last_byte_zero p (peek32_lt hbuf), ?_, ?_⟩
  · intro hv2
    rw [read_bad c env m args k w p 0 hfd hbuf hsize (Or.inr (Or.inl hv2)),
      write_bad c env m args k w p 0 hfd hbuf hsize (Or.inr (Or.inl hv2)), fail_exit_eq]
    simp [Kernel.logs, buffer_checks, hv1, hv2, to_u32]
  · intro hv2
    constructor
    · intro h1
      simp [syscall_write, bind_eq, pure_eq, K.bind, K.pure, load32_of_peek hfd,
        load32_of_peek hbuf, load32_of_peek hsize, check_ptr, hv1, hv2, h1, Kernel.logs, emit,
        putbuf_loop, set_eax, loads_rw]
    · intro h0
      simp [syscall_read, bind_eq, pure_eq, K.bind, K.pure, load32_of_peek hfd,
        load32_of_peek hbuf, load32_of_peek hsize, check_ptr, hv1, hv2, h0, Kernel.logs,
        getc_loop, set_eax, loads_rw]

/-- Instance of C20: a buffer at the first byte of the only mapped words, with
nothing mapped below it, and a buffer one word further up. -/
theorem zero_length_checks_byte_before_witness :
    (∃ k1, syscall_write sample_consts sample_env (word_mem 0xbffffff0 [9, 1, 0xbffffff0, 0])
        0xbffffff0 k_init = .exited k1 ∧ k1.cur.exit_status = -1) ∧
    (∃ k1, syscall_write sample_consts sample_env (word_mem 0xbffffff0 [9, 1, 0xbffffff4, 0])
        0xbffffff0 k_init = .ok () k1 ∧ k1.eax = 0) ∧
    (∃ k1, syscall_read sample_consts sample_env (word_mem 0xbffffff0 [8, 0, 0xbffffff4, 0])
        0xbffffff0 k_init = .ok () k1 ∧ k1.eax = 0) :=
  ⟨⟨_, ((zero_length_checks_byte_before sample_consts sample_env
        (word_mem 0xbffffff0 [9, 1, 0xbffffff0, 0]) 0xbffffff0 k_init 1 0xbffffff0
        (by decide) (by decide) (by decide) (by decide)).2.1 (by decide)).2, rfl⟩,
   ⟨_, ((zero_length_checks_byte_before sample_consts sample_env
        (word_mem 0xbffffff0 [9, 1, 0xbffffff4, 0]) 0xbffffff0 k_init 1 0xbffffff4
        (by decide) (by decide) (by decide) (by decide)).2.2 (by decide)).1 (by decide), rfl⟩,
   ⟨_, ((zero_length_checks_byte_before sample_consts sample_env
        (word_mem 0xbffffff0 [8, 0, 0xbffffff4, 0]) 0xbffffff0 k_init 0 0xbffffff4
        (by decide) (by decide) (by decide) (by decide)).2.2 (by decide)).2 (by decide), rfl⟩⟩

/-! ## What a handler leaves in place, however it ends -/

section always

variable {R : Kernel → Kernel → Prop}

theorem frame_refl (hR : Frame R) (k : Kernel) : R k k :=
  hR.step k k rfl rfl rfl ⟨[], by simp, by simp⟩

theorem frame_logs (hR : Frame R) (k : Kernel) (es : List Event)
    (h : ∀ e ∈ es, e.is_lock = false) : R k (k.logs es) :=
  hR.step k _ rfl rfl rfl ⟨es, rfl, h⟩

theorem frame_log1 (hR : Frame R) (k : Kernel) (e : Event) (h : e.is_lock = false) :
    R k (k.logs [e]) :=
  frame_logs hR k [e] (by simpa using h)

theorem always_bind {α β : Type} (hR : Frame R) {x : K α} {f : α → K β}
    (hx : Always R x) (hf : ∀ a, Always R (f a)) : Always R (x >>= f) := by
  intro k
  have h1 := hx k
  simp only [bind_eq, K.bind]
  cases h : x k with
  | ok a k1 =>
    rw [h] at h1
    exact hR.trans _ _ _ h1 (hf a k1)
  | exited k1 => rw [h] at h1; exact h1
  | halted k1 => rw [h] at h1; exact h1
  | page_fault a k1 => rw [h] at h1; exact h1
  | null_deref k1 => rw [h] at h1; exact h1
  | hang k1 => rw [h] at h1; exact h1

theorem always_pure {α : Type} (hR : Frame R) (a : α) : Always R (pure a : K α) :=
  fun k => frame_refl hR k

theorem always_load8 (hR : Frame R) (m : Machine) (a : Nat) : Always R (load8 m a) := by
  intro k
  unfold load8
  split <;> exact frame_log1 hR k _ rfl

theorem always_store8 (hR : Frame R) (m : Machine) (a v : Nat) : Always R (store8 m a v) := by
  intro k
  unfold store8
  split <;> exact frame_log1 hR k _ rfl

theorem always_load32 (hR : Frame R) (m : Machine) (a : Nat) : Always R (load32 m a) := by
  unfold load32
  apply always_bind hR (always_load8 hR _ _)
  intro b0
  apply always_bind hR (always_load8 hR _ _)
  intro b1
  apply always_bind hR (always_load8 hR _ _)
  intro b2
  apply always_bind hR (always_load8 hR _ _)
  intro b3
  exact always_pure hR _

theorem always_bind_load32 {β : Type} (hR : Frame R) {m : Machine} {a : Nat} {f : Nat → K β}
    (hf : ∀ w, peek32 m a = some w → Always R (f w)) : Always R (load32 m a >>= f) := by
  intro k
  have h1 := always_load32 hR m a k
  simp only [bind_eq, K.bind]
  cases h : load32 m a k with
  | ok w k1 =>
    rw [h] at h1
    exact hR.trans _ _ _ h1 (hf w (load32_ok h).1 k1)
  | exited k1 => rw [h] at h1; exact h1
  | halted k1 => rw [h] at h1; exact h1
  | page_fault a k1 => rw [h] at h1; exact h1
  | null_deref k1 => rw [h] at h1; exact h1
  | hang k1 => rw [h] at h1; exact h1

theorem always_check_ptr (hR : Frame R) (c : Consts) (m : Machine) (a : Nat) :
    Always R (check_ptr c m a) :=
  fun k => frame_log1 hR k _ rfl

theorem always_emit (hR : Frame R) (e : Event) (h : e.is_lock = false) : Always R (emit e) :=
  fun k => frame_log1 hR k e h

theorem always_ask {α : Type} (hR : Frame R) (f : List Event → α) : Always R (ask f) :=
  fun k => frame_refl hR k

theorem always_set_eax (hR : Frame R) (v : Nat) : Always R (set_eax v) :=
  fun k => hR.step k _ rfl rfl rfl ⟨[.set_eax v], rfl, by simp [Event.is_lock]⟩

theorem always_lookup (hR : Frame R) (fd : Int) : Always R (lookup fd) :=
  fun k => frame_refl hR k

theorem always_file_of (hR : Frame R) (d : Option file_descriptor_t) :
    Always R (file_of d) := by
  intro k
  cases d <;> exact frame_refl hR k

theorem always_printf_exit (hR : Frame R) (status : Int) : Always R (printf_exit status) :=
  fun k => frame_log1 hR k _ rfl

theorem always_thread_exit (hR : Frame R) : Always R thread_exit :=
  fun k => frame_log1 hR k _ rfl

theorem always_exit_error (hR : Frame R) : Always R exit_error := by
  unfold exit_error
  apply always_bind hR
  · intro k
    exact hR.step k _ rfl rfl rfl ⟨[], by simp [Res.state], by simp⟩
  · intro _
    exact always_bind hR (always_printf_exit hR _) (fun _ => always_thread_exit hR)

theorem always_fail_exit (hR : Frame R) : Always R fail_exit := by
  unfold fail_exit
  exact always_bind hR (always_set_eax hR _) (fun _ => always_exit_error hR)

theorem fail_exit_bind {β : Type} (f : Unit → K β) (k : Kernel) :
    (fail_exit >>= f) k = .exited (fail_exit k).state := by
  simp [bind_eq, K.bind, fail_exit_eq, Res.state]

theorem always_fail_bind {β : Type} (hR : Frame R) (f : Unit → K β) :
    Always R (fail_exit >>= f) := by
  intro k
  rw [fail_exit_bind]
  exact always_fail_exit hR k

theorem always_strlen_loop (hR : Frame R) (m : Machine) :
    ∀ fuel a n, Always R (strlen_loop m fuel a n) := by
  intro fuel
  induction fuel with
  | zero => intro a n k; exact frame_refl hR k
  | succ fuel ih =>
    intro a n
    unfold strlen_loop
    apply always_bind hR (always_load8 hR m a)
    intro b
    split
    · exact always_pure hR n
    · exact ih _ _

theorem always_strlen (hR : Frame R) (m : Machine) (p : Nat) : Always R (strlen m p) :=
  always_strlen_loop hR m _ _ _

theorem always_bad_string (hR : Frame R) (c : Consts) (m : Machine) (file : Nat) :
    Always R (bad_string c m file) := by
  unfold bad_string
  apply always_bind hR (always_check_ptr hR _ _ _)
  intro v1
  split
  · exact always_pure hR _
  · apply always_bind hR (always_strlen hR _ _)
    intro len
    apply always_bind hR (always_check_ptr hR _ _ _)
    intro v2
    exact always_pure hR _

theorem always_getc_loop (hR : Frame R) (env : Env) (m : Machine) (buffer : Nat) :
    ∀ n i, Always R (getc_loop env m buffer n i) := by
  intro n
  induction n with
  | zero => intro i; exact always_pure hR _
  | succ n ih =>
    intro i
    unfold getc_loop
    apply always_bind hR (always_ask hR _)
    intro ch
    apply always_bind hR (always_emit hR _ (by rfl))
    intro _
    apply always_bind hR (always_store8 hR _ _ _)
    intro _
    exact ih _

theorem always_putbuf_loop (hR : Frame R) (m : Machine) (buffer : Nat) :
    ∀ n i, Always R (putbuf_loop m buffer n i) := by
  intro n
  induction n with
  | zero => intro i; exact always_pure hR _
  | succ n ih =>
    intro i
    unfold putbuf_loop
    apply always_bind hR (always_load8 hR _ _)
    intro _
    exact ih _

theorem always_write (hR : Frame R) (c : Consts) (env : Env) (m : Machine) (args : Nat) :
    Always R (syscall_write c env m args) := by
  unfold syscall_write
  apply always_bind hR (always_load32 hR _ _)
  intro w
  apply always_bind hR (always_load32 hR _ _)
  intro buffer
  apply always_bind hR (always_load32 hR _ _)
  intro size
  apply always_bind hR (always_check_ptr hR _ _ _)
  intro v1
  apply always_bind hR
  · split
    · exact always_pure hR _
    · apply always_bind hR (always_check_ptr hR _ _ _)
      intro v2
      exact always_pure hR _
  · intro bad
    split
    · exact always_fail_exit hR
    · split
      · apply always_bind hR (always_emit hR _ (by rfl))
        intro _
        exact always_bind hR (always_putbuf_loop hR _ _ _ _) (fun _ => always_set_eax hR _)
      · apply always_bind hR (always_lookup hR _)
        intro file_descriptor
        split
        · exact always_fail_bind hR _
        · apply always_bind hR (always_pure hR _)
          intro _
          apply always_bind hR (always_file_of hR _)
          intro file
          apply always_bind hR (always_ask hR _)
          intro r
          exact always_bind hR (always_emit hR _ (by rfl)) (fun _ => always_set_eax hR _)

theorem always_read (hR : Frame R) (c : Consts) (env : Env) (m : Machine) (args : Nat) :
    Always R (syscall_read c env m args) := by
  unfold syscall_read
  apply always_bind hR (always_load32 hR _ _)
  intro w
  apply always_bind hR (always_load32 hR _ _)
  intro buffer
  apply always_bind hR (always_load32 hR _ _)
  intro size
  apply always_bind hR (always_check_ptr hR _ _ _)
  intro v1
  apply always_bind hR
  · split
    · exact always_pure hR _
    · apply always_bind hR (always_check_ptr hR _ _ _)
      intro v2
      exact always_pure hR _
  · intro bad
    split
    · exact always_fail_exit hR
    · split
      · exact always_bind hR (always_getc_loop hR _ _ _ _ _) (fun _ => always_set_eax hR _)
      · apply always_bind hR (always_lookup hR _)
        intro file_descriptor
        split
        · exact always_fail_bind hR _
        · apply always_bind hR (always_pure hR _)
          intro _
          apply always_bind hR (always_file_of hR _)
          intro file
          apply always_bind hR (always_ask hR _)
          intro r
          exact always_bind hR (always_emit hR _ (by rfl)) (fun _ => always_set_eax hR _)

theorem always_create (hR : Frame R) (c : Consts) (env : Env) (m : Machine) (args : Nat) :
    Always R (syscall_create c env m args) := by
  unfold syscall_create
  apply always_bind hR (always_load32 hR _ _)
  intro file
  apply always_bind hR (always_load32 hR _ _)
  intro initial_size
  apply always_bind hR (always_bad_string hR _ _ _)
  intro bad
  split
  · exact always_fail_exit hR
  · apply always_bind hR (always_ask hR _)
    intro r
    exact always_bind hR (always_emit hR _ (by rfl)) (fun _ => always_set_eax hR _)

theorem always_remove (hR : Frame R) (c : Consts) (env : Env) (m : Machine) (args : Nat) :
    Always R (syscall_remove c env m args) := by
  unfold syscall_remove
  apply always_bind hR (always_load32 hR _ _)
  intro file
  apply always_bind hR (always_bad_string hR _ _ _)
  intro bad
  split
  · exact always_fail_exit hR
  · apply always_bind hR (always_ask hR _)
    intro r
    exact always_bind hR (always_emit hR _ (by rfl)) (fun _ => always_set_eax hR _)

theorem always_exec (hR : Frame R) (c : Consts) (env : Env) (m : Machine) (args : Nat) :
    Always R (syscall_exec c env m args) := by
  unfold syscall_exec
  apply always_bind hR (always_load32 hR _ _)
  intro file
  apply always_bind hR (always_bad_string hR _ _ _)
  intro bad
  split
  · exact always_fail_exit hR
  · apply always_bind hR (always_ask hR _)
    intro r
    exact always_bind hR (always_emit hR _ (by rfl)) (fun _ => always_set_eax hR _)

theorem always_open (hR : Frame R) (c : Consts) (env : Env) (m : Machine) (args : Nat)
    (hinstall : ∀ h, Always R (install_fd env h)) : Always R (syscall_open c env m args) := by
  unfold syscall_open
  apply always_bind hR (always_load32 hR _ _)
  intro file
  apply always_bind hR (always_bad_string hR _ _ _)
  intro bad
  split
  · exact always_fail_exit hR
  · apply always_bind hR (always_ask hR _)
    intro opened_file
    apply always_bind hR (always_emit hR _ (by rfl))
    intro _
    split
    · exact always_set_eax hR _
    · exact always_bind hR (hinstall _) (fun _ => always_set_eax hR _)

theorem always_filesize (hR : Frame R) (env : Env) (m : Machine) (args : Nat) :
    Always R (syscall_filesize env m args) := by
  unfold syscall_filesize
  apply always_bind hR (always_load32 hR _ _)
  intro w
  dsimp only
  split
  · exact always_fail_exit hR
  · apply always_bind hR (always_lookup hR _)
    intro file_descriptor
    split
    · exact always_fail_bind hR _
    · apply always_bind hR (always_pure hR _)
      intro _
      apply always_bind hR (always_file_of hR _)
      intro file
      apply always_bind hR (always_ask hR _)
      intro r
      exact always_bind hR (always_emit hR _ (by rfl)) (fun _ => always_set_eax hR _)

theorem always_seek (hR : Frame R) (m : Machine) (args : Nat) :
    Always R (syscall_seek m args) := by
  unfold syscall_seek
  apply always_bind hR (always_load32 hR _ _)
  intro w
  apply always_bind hR (always_load32 hR _ _)
  intro position
  apply always_bind hR (always_lookup hR _)
  intro file_descriptor
  apply always_bind hR (always_file_of hR _)
  intro file
  exact always_bind hR (always_emit hR _ (by rfl)) (fun _ => always_set_eax hR _)

theorem always_tell (hR : Frame R) (env : Env) (m : Machine) (args : Nat) :
    Always R (syscall_tell env m args) := by
  unfold syscall_tell
  apply always_bind hR (always_load32 hR _ _)
  intro w
  apply always_bind hR (always_lookup hR _)
  intro file_descriptor
  split
  · exact always_fail_bind hR _
  · apply always_bind hR (always_pure hR _)
    intro _
    apply always_bind hR (always_file_of hR _)
    intro file
    apply always_bind hR (always_ask hR _)
    intro r
    exact always_bind hR (always_emit hR _ (by rfl)) (fun _ => always_set_eax hR _)

theorem always_close (hR : Frame R) (m : Machine) (args : Nat)
    (hremove : ∀ w, peek32 m (padd args 4) = some w → Always R (remove_fd (to_int w))) :
    Always R (syscall_close m args) := by
  unfold syscall_close
  apply always_bind_load32 hR
  intro w hw
  apply always_bind hR (always_lookup hR _)
  intro file_descriptor
  split
  · exact always_fail_bind hR _
  · apply always_bind hR (always_pure hR _)
    intro _
    apply always_bind hR (always_file_of hR _)
    intro file
    apply always_bind hR (always_emit hR _ (by rfl))
    intro _
    apply always_bind hR (hremove w hw)
    intro _
    exact always_bind hR (always_emit hR _ (by rfl)) (fun _ => always_set_eax hR _)

theorem always_practice (hR : Frame R) (m : Machine) (args : Nat) :
    Always R (syscall_practice m args) := by
  unfold syscall_practice
  exact always_bind hR (always_load32 hR _ _) (fun _ => always_set_eax hR _)

theorem always_wait (hR : Frame R) (env : Env) (m : Machine) (args : Nat) :
    Always R (syscall_wait env m args) := by
  unfold syscall_wait
  apply always_bind hR (always_load32 hR _ _)
  intro w
  apply always_bind hR (always_ask hR _)
  intro r
  exact always_bind hR (always_emit hR _ (by rfl)) (fun _ => always_set_eax hR _)

theorem always_exit (hR : Frame R) (m : Machine) (args : Nat) :
    Always R (syscall_exit m args) := by
  unfold syscall_exit
  apply always_bind hR (always_load32 hR _ _)
  intro w
  apply always_bind hR (always_set_eax hR _)
  intro _
  exact always_bind hR (always_printf_exit hR _) (fun _ => always_thread_exit hR)

theorem always_halt (hR : Frame R) : Always R syscall_halt :=
  fun k => frame_log1 hR k _ rfl

/-- A framed relation that `install_fd` and the removals of the calls at hand
keep holds across every handler, however it ends. -/
theorem always_func (hR : Frame R) (c : Consts) (env : Env) (m : Machine) (args : Nat)
    (s : Sys) (hinstall : ∀ h, Always R (install_fd env h))
    (hremove : s = .close → ∀ w, peek32 m (padd args 4) = some w →
      Always R (remove_fd (to_int w))) :
    Always R (s.func c env m args) := by
  cases s
  · exact always_write hR c env m args
  · exact always_create hR c env m args
  · exact always_remove hR c env m args
  · exact always_open hR c env m args hinstall
  · exact always_filesize hR env m args
  · exact always_read hR c env m args
  · exact always_seek hR m args
  · exact always_tell hR env m args
  · exact always_close hR m args (hremove rfl)
  · exact always_exit hR m args
  · exact always_practice hR m args
  · exact always_halt hR
  · exact always_wait hR env m args
  · exact always_exec hR c env m args

end always

/-! ## The lock around flagged handlers (C18) -/

theorem frame_no_lock : Frame NoLock :=
  ⟨fun k1 k2 k3 h12 h23 => by
    obtain ⟨hl1, es1, ht1, he1⟩ := h12
    obtain ⟨hl2, es2, ht2, he2⟩ := h23
    refine ⟨by rw [hl2, hl1], es1 ++ es2, by rw [ht2, ht1, List.append_assoc], ?_⟩
    intro e he
    rcases List.mem_append.1 he with h | h
    · exact he1 e h
    · exact he2 e h,
   fun k k1 _ _ hl ht => ⟨hl, ht⟩⟩

theorem always_install_no_lock (env : Env) (h : Nat) : Always NoLock (install_fd env h) := by
  intro k
  simp only [install_fd, Kernel.logs]
  split <;> exact ⟨rfl, [.malloc _], rfl, by simp [Event.is_lock]⟩

theorem always_remove_no_lock (fd : Int) : Always NoLock (remove_fd fd) :=
  fun k => ⟨rfl, [], by simp [remove_fd, Res.state], by simp⟩

/-- No handler touches the lock, however it ends. -/
theorem func_no_lock (c : Consts) (env : Env) (m : Machine) (args : Nat) (s : Sys) :
    Always NoLock (s.func c env m args) :=
  always_func frame_no_lock c env m args s (always_install_no_lock env)
    (fun _ _ _ => always_remove_no_lock _)

/-- The loop of the dispatcher stops at the first entry with the number. -/
theorem dispatch_match (c : Consts) (env : Env) (m : Machine) (args : Nat) (n : Int)
    (d : syscall_descriptor_t) :
    ∀ tbl : List syscall_descriptor_t,
      tbl.find? (fun x => decide (n = x.number)) = some d →
      dispatch c env m args n tbl = (do
        if d.is_file_op then lock_acquire
        d.syscall_func.func c env m args
        if d.is_file_op then lock_release) := by
  intro tbl
  induction tbl with
  | nil => intro h; simp at h
  | cons x rest ih =>
    intro h
    by_cases hx : n = x.number
    · simp only [List.find?, hx, decide_True, Option.some.injEq] at h
      subst h
      simp only [dispatch, hx, if_true]
    · simp only [List.find?, hx, decide_False] at h
      simp only [dispatch, hx, if_false]
      exact ih h

/-- The dispatcher on a valid `esp` with a readable number is the loop over
the table, entered after the two checks and the read. -/
theorem handler_decode (c : Consts) (env : Env) (m : Machine) (esp : Nat) (k : Kernel) (w : Nat)
    (hesp : is_valid_ptr c m esp = true) (hw : peek32 m esp = some w) :
    syscall_handler c env m esp k
      = dispatch c env m esp (to_int w) (syscall_table c) (k.logs (decode_events esp)) := by
  simp [syscall_handler, bind_eq, pure_eq, K.bind, K.pure, check_ptr, hesp, Kernel.logs,
    load32_of_peek hw, decode_events]

/-- A flagged entry runs between `lock_acquire` and `lock_release`. -/
theorem flagged_run (x : K Unit) (k : Kernel) (hx : Always NoLock x) :
    ∃ es, (∀ e ∈ es, e.is_lock = false) ∧
      ((lock_acquire >>= fun _ => x >>= fun _ => lock_release) k).state.trace
        = k.trace ++ [.lock_acquire] ++ es ++
          (match x { k with filesys_lock := true, trace := k.trace ++ [.lock_acquire] } with
            | .ok _ _ => [.lock_release]
            | _ => []) ∧
      ((lock_acquire >>= fun _ => x >>= fun _ => lock_release) k).state.filesys_lock
        = (match x { k with filesys_lock := true, trace := k.trace ++ [.lock_acquire] } with
            | .ok _ _ => false
            | _ => true) ∧
      ∀ k1, (lock_acquire >>= fun _ => x >>= fun _ => lock_release) k = .ok () k1 →
        k1.filesys_lock = false ∧
        k1.trace = k.trace ++ [.lock_acquire] ++ es ++ [.lock_release] := by
  obtain ⟨hl, es, ht, hes⟩ := hx { k with filesys_lock := true, trace := k.trace ++ [.lock_acquire] }
  refine ⟨es, hes, ?_⟩
  simp only [bind_eq, K.bind, lock_acquire]
  cases h : x { k with filesys_lock := true, trace := k.trace ++ [.lock_acquire] } <;>
    rw [h] at hl ht <;> simp [Res.state, lock_release] at hl ht ⊢ <;> simp [hl, ht]

/-- The entries of the table whose number is one of the nine file system calls
are the flagged ones, when the numbers are pairwise distinct. -/
theorem flagged_iff (c : Consts) (n : Int) (d : syscall_descriptor_t)
    (hnd : ((syscall_table c).map (fun x => x.number)).Nodup)
    (hd : (syscall_table c).find? (fun x => decide (n = x.number)) = some d) :
    (d.is_file_op = true ↔ n ∈ [c.SYS_CREATE, c.SYS_REMOVE, c.SYS_OPEN, c.SYS_FILESIZE,
      c.SYS_READ, c.SYS_WRITE, c.SYS_SEEK, c.SYS_TELL, c.SYS_CLOSE]) ∧
    (d.is_file_op = false ↔ n ∈ [c.SYS_HALT, c.SYS_EXIT, c.SYS_EXEC, c.SYS_WAIT,
      c.SYS_PRACTICE]) := by
  have hmem := List.mem_of_find?_eq_some hd
  have hn : n = d.number := by simpa using List.find?_some hd
  have inj : ∀ d', d' ∈ syscall_table c → n = d'.number → d = d' :=
    fun d' hd' he => List.inj_on_of_nodup_map hnd hmem hd' (by rw [← hn, he])
  constructor
  · constructor
    · intro hf
      simp only [syscall_table, List.mem_cons, List.mem_singleton, List.not_mem_nil,
        or_false] at hmem
      rcases hmem with h | h | h | h | h | h | h | h | h | h | h | h | h | h <;> subst h <;>
        first
          | exact Bool.noConfusion hf
          | (simp only at hn; simp [hn])
    · intro hin
      simp only [List.mem_cons, List.mem_singleton, List.not_mem_nil, or_false] at hin
      rcases hin with h | h | h | h | h | h | h | h | h
      · rw [inj ⟨c.SYS_CREATE, .create, true⟩ (by simp [syscall_table]) h]
      · rw [inj ⟨c.SYS_REMOVE, .remove, true⟩ (by simp [syscall_table]) h]
      · rw [inj ⟨c.SYS_OPEN, .open, true⟩ (by simp [syscall_table]) h]
      · rw [inj ⟨c.SYS_FILESIZE, .filesize, true⟩ (by simp [syscall_table]) h]
      · rw [inj ⟨c.SYS_READ, .read, true⟩ (by simp [syscall_table]) h]
      · rw [inj ⟨c.SYS_WRITE, .write, true⟩ (by simp [syscall_table]) h]
      · rw [inj ⟨c.SYS_SEEK, .seek, true⟩ (by simp [syscall_table]) h]
      · rw [inj ⟨c.SYS_TELL, .tell, true⟩ (by simp [syscall_table]) h]
      · rw [inj ⟨c.SYS_CLOSE, .close, true⟩ (by simp [syscall_table]) h]
  · constructor
    · intro hf
      simp only [syscall_table, List.mem_cons, List.mem_singleton, List.not_mem_nil,
        or_false] at hmem
      rcases hmem with h | h | h | h | h | h | h | h | h | h | h | h | h | h <;> subst h <;>
        first
          | exact Bool.noConfusion hf
          | (simp only at hn; simp [hn])
    · intro hin
      simp only [List.mem_cons, List.mem_singleton, List.not_mem_nil, or_false] at hin
      rcases hin with h | h | h | h | h
      · rw [inj ⟨c.SYS_HALT, .halt, false⟩ (by simp [syscall_table]) h]
      · rw [inj ⟨c.SYS_EXIT, .exit, false⟩ (by simp [syscall_table]) h]
      · rw [inj ⟨c.SYS_EXEC, .exec, false⟩ (by simp [syscall_table]) h]
      · rw [inj ⟨c.SYS_WAIT, .wait, false⟩ (by simp [syscall_table]) h]
      · rw [inj ⟨c.SYS_PRACTICE, .practice, false⟩ (by simp [syscall_table]) h]

theorem dispatch_flagged (c : Consts) (env : Env) (m : Machine) (args : Nat) (n : Int)
    (d : syscall_descriptor_t) (tbl : List syscall_descriptor_t)
    (hd : tbl.find? (fun x => decide (n = x.number)) = some d) (hf : d.is_file_op = true) :
    dispatch c env m args n tbl
      = (lock_acquire >>= fun _ => d.syscall_func.func c env m args >>= fun _ => lock_release) := by
  rw [dispatch_match c env m args n d tbl hd]
  simp [hf]

theorem dispatch_unflagged (c : Consts) (env : Env) (m : Machine) (args : Nat) (n : Int)
    (d : syscall_descriptor_t) (tbl : List syscall_descriptor_t)
    (hd : tbl.find? (fun x => decide (n = x.number)) = some d) (hf : d.is_file_op = false) :
    dispatch c env m args n tbl = d.syscall_func.func c env m args := by
  rw [dispatch_match c env m args n d tbl hd]
  funext k
  simp only [hf, bind_eq, pure_eq, K.bind, K.pure, Bool.false_eq_true, if_false]
  cases h : d.syscall_func.func c env m args k <;> simp

theorem decode_events_no_lock (esp : Nat) : ∀ e ∈ decode_events esp, e.is_lock = false := by
  intro e he
  simp only [decode_events, loads32, List.cons_append, List.nil_append, List.mem_cons,
    List.mem_singleton, List.not_mem_nil, or_false] at he
  rcases he with h | h | h | h | h | h <;> subst h <;> rfl

/-- C18: for every trap with a valid stack pointer whose number matches the
table entry `d` (the numbers of the table being pairwise distinct), `d` is
flagged exactly when the number is one of CREATE, REMOVE, OPEN, FILESIZE, READ,
WRITE, SEEK, TELL, CLOSE and not flagged exactly when it is one of HALT, EXIT,
EXEC, WAIT, PRACTICE.  For an entry that is not flagged the dispatcher runs the
handler alone: no lock operation occurs and the lock is as before, however the
call ends.  For a flagged entry the dispatcher runs `lock_acquire`, the handler,
`lock_release`: `lock_acquire` is the first event after the number is read, the
handler's own events are no lock operations, and when the dispatch returns the
last event is `lock_release` and the lock is not held, as before the dispatch
for a thread that entered without holding it. -/
theorem lock_exactly_around_flagged (c : Consts) (env : Env) (m : Machine) (esp : Nat)
    (k : Kernel) (w : Nat) (d : syscall_descriptor_t)
    (hesp : is_valid_ptr c m esp = true) (hw : peek32 m esp = some w)
    (hnd : ((syscall_table c).map (fun x => x.number)).Nodup)
    (hd : (syscall_table c).find? (fun x => decide (to_int w = x.number)) = some d) :
    (d.is_file_op = true ↔ to_int w ∈ [c.SYS_CREATE, c.SYS_REMOVE, c.SYS_OPEN, c.SYS_FILESIZE,
      c.SYS_READ, c.SYS_WRITE, c.SYS_SEEK, c.SYS_TELL, c.SYS_CLOSE]) ∧
    (d.is_file_op = false ↔ to_int w ∈ [c.SYS_HALT, c.SYS_EXIT, c.SYS_EXEC, c.SYS_WAIT,
      c.SYS_PRACTICE]) ∧
    (d.is_file_op = false →
      syscall_handler c env m esp k
        = d.syscall_func.func c env m esp (k.logs (decode_events esp)) ∧
      (syscall_handler c env m esp k).state.filesys_lock = k.filesys_lock ∧
      ∃ es, (syscall_handler c env m esp k).state.trace = k.trace ++ es ∧
        ∀ e ∈ es, e.is_lock = false) ∧
    (d.is_file_op = true →
      syscall_handler c env m esp k
        = (lock_acquire >>= fun _ => d.syscall_func.func c env m esp >>= fun _ => lock_release)
            (k.logs (decode_events esp)) ∧
      ∃ es, (∀ e ∈ es, e.is_lock = false) ∧
        (∃ tail, (syscall_handler c env m esp k).state.trace
            = k.trace ++ decode_events esp ++ [.lock_acquire] ++ es ++ tail ∧
          (tail = [] ∨ tail = [.lock_release])) ∧
        ∀ k1, syscall_handler c env m esp k = .ok () k1 →
          k1.trace = k.trace ++ decode_events esp ++ [.lock_acquire] ++ es ++ [.lock_release] ∧
          k1.filesys_lock = false ∧ (k.filesys_lock = false → k1.filesys_lock = k.filesys_lock)) := by
  have hdec := handler_decode c env m esp k w hesp hw
  refine ⟨(flagged_iff c (to_int w) d hnd hd).1, (flagged_iff c (to_int w) d hnd hd).2, ?_, ?_⟩
  · intro hf
    rw [hdec, dispatch_unflagged c env m esp (to_int w) d _ hd hf]
    obtain ⟨hl, es, ht, hes⟩ := func_no_lock c env m esp d.syscall_func (k.logs (decode_events esp))
    refine ⟨rfl, hl, decode_events esp ++ es, ?_, ?_⟩
    · rw [ht]
      simp [Kernel.logs]
    · intro e he
      rcases List.mem_append.1 he with h | h
      · exact decode_events_no_lock esp e h
      · exact hes e h
  · intro hf
    rw [hdec, dispatch_flagged c env m esp (to_int w) d _ hd hf]
    obtain ⟨es, hes, ht, _, hret⟩ := flagged_run (d.syscall_func.func c env m esp)
      (k.logs (decode_events esp)) (func_no_lock c env m esp d.syscall_func)
    refine ⟨rfl, es, hes, ⟨_, ht, ?_⟩, ?_⟩
    · split <;> simp
    · intro k1 h1
      obtain ⟨h2, h3⟩ := hret k1 h1
      exact ⟨h3, h2, fun h => by rw [h2, h]⟩

/-- Instance of C18: `write (1, buf, 2)` is dispatched under the lock and
returns with the lock released; `practice (5)` is dispatched without it. -/
theorem lock_exactly_around_flagged_witness :
    (∃ k1, syscall_handler sample_consts sample_env (word_mem 0xbffffff0 [9, 1, 0xbffffff0, 2])
        0xbffffff0 k_init = .ok () k1 ∧ k1.filesys_lock = false ∧
      k1.trace.count .lock_acquire = 1 ∧ k1.trace.count .lock_release = 1) ∧
    (∃ k1, syscall_handler sample_consts sample_env (word_mem 0xbffffff0 [13, 5])
        0xbffffff0 k_init = .ok () k1 ∧ k1.filesys_lock = false ∧
      k1.trace.count .lock_acquire = 0) := by
  have h1 := lock_exactly_around_flagged sample_consts sample_env
    (word_mem 0xbffffff0 [9, 1, 0xbffffff0, 2]) 0xbffffff0 k_init 9 ⟨9, .write, true⟩
    (by decide) (by decide) (by decide) (by decide)
  have h2 := lock_exactly_around_flagged sample_consts sample_env
    (word_mem 0xbffffff0 [13, 5]) 0xbffffff0 k_init 13 ⟨13, .practice, false⟩
    (by decide) (by decide) (by decide) (by decide)
  obtain ⟨_, es, _, _, hret⟩ := h1.2.2.2 rfl
  refine ⟨⟨_, rfl, (hret _ rfl).2.1, by decide, by decide⟩, ⟨_, rfl, ?_, by decide⟩⟩
  exact (h2.2.2.1 rfl).2.1

theorem logs_append (k : Kernel) (es fs : List Event) :
    (k.logs es).logs fs = k.logs (es ++ fs) := by
  simp [Kernel.logs]

/-! ## The length of a user string (C17) -/

theorem bind_run {α β : Type} {x : K α} {f : α → K β} {k k1 : Kernel} {a : α}
    (h : x k = .ok a k1) : (x >>= f) k = f a k1 := by
  simp [bind_eq, K.bind, h]

/-- After an argument read and a passed string test the rest of a handler only
appends to the trace. -/
theorem checks_string_of_rest (c : Consts) (m : Machine) (k : Kernel) (p len : Nat)
    (pre : List Event) (x : K Unit) (hx : Always NoLock x) :
    ChecksString c m k p len pre (x (k.logs (pre ++ string_checks c m p len))) := by
  obtain ⟨_, es, ht, _⟩ := hx (k.logs (pre ++ string_checks c m p len))
  exact ⟨es, ht⟩

/-- C17: in `syscall_create`, `syscall_remove`, `syscall_open` and
`syscall_exec`, when the string pointer `p` fails `is_valid_ptr` the handler
takes the fatal block right after the argument reads and that one check: no
byte of the string is read and no collaborator is called.  When `p` is valid
and points to a string of length `len`, the handler checks `p`, reads the
string up to its terminator and then checks exactly `last_byte p len`, the
address `p + strlen (p) - 1`. -/
theorem string_measured_after_first_check (c : Consts) (env : Env) (m : Machine) (args : Nat)
    (k : Kernel) (p : Nat) (hp : peek32 m (padd args 4) = some p) :
    (is_valid_ptr c m p = false →
      syscall_remove c env m args k
        = fail_exit (k.logs (loads32 (padd args 4) ++ [.valid p false])) ∧
      syscall_open c env m args k
        = fail_exit (k.logs (loads32 (padd args 4) ++ [.valid p false])) ∧
      syscall_exec c env m args k
        = fail_exit (k.logs (loads32 (padd args 4) ++ [.valid p false])) ∧
      ∀ size, peek32 m (padd args 8) = some size →
        syscall_create c env m args k = fail_exit
          (k.logs (loads32 (padd args 4) ++ loads32 (padd args 8) ++ [.valid p false]))) ∧
    (is_valid_ptr c m p = true → ∀ len, len < 4294967296 → is_cstring m p len = true →
      ChecksString c m k p len (loads32 (padd args 4)) (syscall_remove c env m args k) ∧
      ChecksString c m k p len (loads32 (padd args 4)) (syscall_open c env m args k) ∧
      ChecksString c m k p len (loads32 (padd args 4)) (syscall_exec c env m args k) ∧
      ∀ size, peek32 m (padd args 8) = some size →
        ChecksString c m k p len (loads32 (padd args 4) ++ loads32 (padd args 8))
          (syscall_create c env m args k)) := by
  constructor
  · intro hv
    refine ⟨?_, ?_, ?_, ?_⟩
    · simp [syscall_remove, bind_eq, K.bind, load32_of_peek hp, bad_string_invalid hv,
        Kernel.logs]
    · simp [syscall_open, bind_eq, K.bind, load32_of_peek hp, bad_string_invalid hv,
        Kernel.logs]
    · simp [syscall_exec, bind_eq, K.bind, load32_of_peek hp, bad_string_invalid hv,
        Kernel.logs]
    · intro size hsize
      simp [syscall_create, bind_eq, K.bind, load32_of_peek hp, load32_of_peek hsize,
        bad_string_invalid hv, Kernel.logs]
  · intro hv len hlen hs
    have hR := frame_no_lock
    refine ⟨?_, ?_, ?_, ?_⟩
    · unfold syscall_remove
      rw [bind_run (load32_of_peek hp k), bind_run (bad_string_cstring hlen hs hv _), logs_append]
      apply checks_string_of_rest
      split
      · exact always_fail_exit hR
      · apply always_bind hR (always_ask hR _)
        intro r
        exact always_bind hR (always_emit hR _ (by rfl)) (fun _ => always_set_eax hR _)
    · unfold syscall_open
      rw [bind_run (load32_of_peek hp k), bind_run (bad_string_cstring hlen hs hv _), logs_append]
      apply checks_string_of_rest
      split
      · exact always_fail_exit hR
      · apply always_bind hR (always_ask hR _)
        intro opened_file
        apply always_bind hR (always_emit hR _ (by rfl))
        intro _
        split
        · exact always_set_eax hR _
        · exact always_bind hR (always_install_no_lock env _) (fun _ => always_set_eax hR _)
    · unfold syscall_exec
      rw [bind_run (load32_of_peek hp k), bind_run (bad_string_cstring hlen hs hv _), logs_append]
      apply checks_string_of_rest
      split
      · exact always_fail_exit hR
      · apply always_bind hR (always_ask hR _)
        intro r
        exact always_bind hR (always_emit hR _ (by rfl)) (fun _ => always_set_eax hR _)
    · intro size hsize
      unfold syscall_create
      rw [bind_run (load32_of_peek hp k), bind_run (load32_of_peek hsize _),
        bind_run (bad_string_cstring hlen hs hv _), logs_append, logs_append]
      apply checks_string_of_rest
      split
      · exact always_fail_exit hR
      · apply always_bind hR (always_ask hR _)
        intro r
        exact always_bind hR (always_emit hR _ (by rfl)) (fun _ => always_set_eax hR _)

/-- Instances of C17: `open (NULL)` is fatal after one failed check, and
`open ("f")` checks the pointer, reads `'f'` and the terminator, and checks the
address of `'f'` again as the last byte. -/
theorem string_measured_after_first_check_witness :
    syscall_open sample_consts sample_env (word_mem 0xbffffff0 [6, 0]) 0xbffffff0 k_init
      = fail_exit (k_init.logs (loads32 (padd 0xbffffff0 4) ++ [.valid 0 false])) ∧
    ChecksString sample_consts open_mem k_init 0xbffffff8 1 (loads32 (padd 0xbffffff0 4))
      (syscall_open sample_consts sample_env open_mem 0xbffffff0 k_init) ∧
    last_byte 0xbffffff8 1 = 0xbffffff8 :=
  ⟨((string_measured_after_first_check sample_consts sample_env (word_mem 0xbffffff0 [6, 0])
      0xbffffff0 k_init 0 (by decide)).1 (by decide)).2.1,
   ((string_measured_after_first_check sample_consts sample_env open_mem
      0xbffffff0 k_init 0xbffffff8 (by decide)).2 (by decide) 1 (by decide) (by decide)).2.1,
   by decide⟩

/-! ## How often a handler that returns wrote `eax` -/

theorem writes_bind {α β : Type} (a b : Nat) {x : K α} {f : α → K β}
    (hx : Keeps (Writes a) x) (hf : ∀ v, Keeps (Writes b) (f v)) :
    Keeps (Writes (a + b)) (x >>= f) := by
  intro k v k2 h
  obtain ⟨u, k1, h1, h2⟩ := bind_ok_inv h
  obtain ⟨es1, ht1, hc1⟩ := hx _ _ _ h1
  obtain ⟨es2, ht2, hc2⟩ := hf u _ _ _ h2
  exact ⟨es1 ++ es2, by rw [ht2, ht1, List.append_assoc], by rw [List.countP_append, hc1, hc2]⟩

theorem writes_bind0 {α β : Type} {n : Nat} {x : K α} {f : α → K β}
    (hx : Keeps (Writes 0) x) (hf : ∀ v, Keeps (Writes n) (f v)) :
    Keeps (Writes n) (x >>= f) := by
  have h := writes_bind 0 n hx hf
  rw [Nat.zero_add] at h
  exact h

theorem writes_logs (k : Kernel) (es : List Event) (h : es.countP Event.is_set_eax = 0) :
    Writes 0 k (k.logs es) :=
  ⟨es, rfl, h⟩

theorem writes_same (k k1 : Kernel) (h : k1.trace = k.trace) : Writes 0 k k1 :=
  ⟨[], by simp [h], rfl⟩

theorem writes_pure {α : Type} (a : α) : Keeps (Writes 0) (pure a : K α) := by
  intro k b k1 h
  simp only [pure_eq, K.pure, Res.ok.injEq] at h
  exact writes_same k k1 (by rw [← h.2])

theorem writes_load8 (m : Machine) (a : Nat) : Keeps (Writes 0) (load8 m a) := by
  intro k w k1 h
  unfold load8 at h
  split at h
  · simp only [Res.ok.injEq] at h
    rw [← h.2]
    exact writes_logs k _ rfl
  · simp at h

theorem writes_store8 (m : Machine) (a v : Nat) : Keeps (Writes 0) (store8 m a v) := by
  intro k w k1 h
  unfold store8 at h
  split at h
  · simp only [Res.ok.injEq] at h
    rw [← h.2]
    exact writes_logs k _ rfl
  · simp at h

theorem writes_load32 (m : Machine) (a : Nat) : Keeps (Writes 0) (load32 m a) := by
  intro k w k1 h
  rw [(load32_ok h).2]
  exact writes_logs k _ rfl

theorem writes_check_ptr (c : Consts) (m : Machine) (a : Nat) :
    Keeps (Writes 0) (check_ptr c m a) := by
  intro k w k1 h
  simp only [check_ptr, Res.ok.injEq] at h
  rw [← h.2]
  exact writes_logs k _ rfl

theorem writes_emit (e : Event) (he : e.is_set_eax = false) : Keeps (Writes 0) (emit e) := by
  intro k w k1 h
  simp only [emit, Res.ok.injEq] at h
  rw [← h.2]
  exact writes_logs k _ (by simp [he])

theorem writes_ask {α : Type} (f : List Event → α) : Keeps (Writes 0) (ask f) := by
  intro k w k1 h
  simp only [ask, Res.ok.injEq] at h
  exact writes_same k k1 (by rw [← h.2])

theorem writes_lookup (fd : Int) : Keeps (Writes 0) (lookup fd) := by
  intro k w k1 h
  simp only [lookup, Res.ok.injEq] at h
  exact writes_same k k1 (by rw [← h.2])

theorem writes_file_of (d : Option file_descriptor_t) : Keeps (Writes 0) (file_of d) := by
  intro k w k1 h
  cases d with
  | none => simp [file_of] at h
  | some d =>
    simp only [file_of, pure_eq, K.pure, Res.ok.injEq] at h
    exact writes_same k k1 (by rw [← h.2])

theorem writes_remove_fd (fd : Int) : Keeps (Writes 0) (remove_fd fd) := by
  intro k w k1 h
  simp only [remove_fd, Res.ok.injEq] at h
  exact writes_same k k1 (by rw [← h.2])

theorem writes_install_fd (env : Env) (h : Nat) : Keeps (Writes 0) (install_fd env h) := by
  intro k n k1 hk
  rw [(install_fd_ok hk).2.2]
  exact ⟨[.malloc (env.malloc k.trace)], rfl, rfl⟩

theorem writes_lock_acquire : Keeps (Writes 0) lock_acquire := by
  intro k w k1 h
  simp only [lock_acquire, Res.ok.injEq] at h
  rw [← h.2]
  exact ⟨[.lock_acquire], rfl, rfl⟩

theorem writes_lock_release : Keeps (Writes 0) lock_release := by
  intro k w k1 h
  simp only [lock_release, Res.ok.injEq] at h
  rw [← h.2]
  exact ⟨[.lock_release], rfl, rfl⟩

theorem writes_set_eax (v : Nat) : Keeps (Writes 1) (set_eax v) := by
  intro k w k1 h
  simp only [set_eax, Res.ok.injEq] at h
  rw [← h.2]
  exact ⟨[.set_eax v], rfl, rfl⟩

theorem keeps_exit_error {R : Kernel → Kernel → Prop} : Keeps R exit_error :=
  fun k a k1 h => absurd h (exit_error_not_ok k a k1)

theorem keeps_exit_error_bind {R : Kernel → Kernel → Prop} {β : Type} (f : Unit → K β) :
    Keeps R (exit_error >>= f) := by
  intro k b k1 h
  obtain ⟨a, k2, h1, _⟩ := bind_ok_inv h
  exact absurd h1 (exit_error_not_ok k a k2)

theorem writes_strlen_loop (m : Machine) :
    ∀ fuel a n, Keeps (Writes 0) (strlen_loop m fuel a n) := by
  intro fuel
  induction fuel with
  | zero => intro a n k w k1 h; simp [strlen_loop] at h
  | succ fuel ih =>
    intro a n
    unfold strlen_loop
    apply writes_bind0 (writes_load8 m a)
    intro b
    split
    · exact writes_pure n
    · exact ih _ _

theorem writes_strlen (m : Machine) (p : Nat) : Keeps (Writes 0) (strlen m p) :=
  writes_strlen_loop m _ _ _

theorem writes_bad_string (c : Consts) (m : Machine) (file : Nat) :
    Keeps (Writes 0) (bad_string c m file) := by
  unfold bad_string
  apply writes_bind0 (writes_check_ptr _ _ _)
  intro v1
  split
  · exact writes_pure _
  · apply writes_bind0 (writes_strlen _ _)
    intro len
    apply writes_bind0 (writes_check_ptr _ _ _)
    intro v2
    exact writes_pure _

theorem writes_getc_loop (env : Env) (m : Machine) (buffer : Nat) :
    ∀ n i, Keeps (Writes 0) (getc_loop env m buffer n i) := by
  intro n
  induction n with
  | zero => intro i; exact writes_pure _
  | succ n ih =>
    intro i
    unfold getc_loop
    apply writes_bind0 (writes_ask _)
    intro ch
    apply writes_bind0 (writes_emit _ (by rfl))
    intro _
    apply writes_bind0 (writes_store8 _ _ _)
    intro _
    exact ih _

theorem writes_putbuf_loop (m : Machine) (buffer : Nat) :
    ∀ n i, Keeps (Writes 0) (putbuf_loop m buffer n i) := by
  intro n
  induction n with
  | zero => intro i; exact writes_pure _
  | succ n ih =>
    intro i
    unfold putbuf_loop
    apply writes_bind0 (writes_load8 _ _)
    intro _
    exact ih _

theorem writes_write (c : Consts) (env : Env) (m : Machine) (args : Nat) :
    Keeps (Writes 1) (syscall_write c env m args) := by
  unfold syscall_write
  apply writes_bind0 (writes_load32 _ _)
  intro w
  apply writes_bind0 (writes_load32 _ _)
  intro buffer
  apply writes_bind0 (writes_load32 _ _)
  intro size
  apply writes_bind0 (writes_check_ptr _ _ _)
  intro v1
  apply writes_bind0
  · split
    · exact writes_pure _
    · apply writes_bind0 (writes_check_ptr _ _ _)
      intro v2
      exact writes_pure _
  · intro bad
    split
    · exact keeps_fail_exit
    · split
      · apply writes_bind0 (writes_emit _ (by rfl))
        intro _
        exact writes_bind0 (writes_putbuf_loop _ _ _ _) (fun _ => writes_set_eax _)
      · apply writes_bind0 (writes_lookup _)
        intro file_descriptor
        split
        · exact keeps_fail_bind _
        · apply writes_bind0 (writes_pure _)
          intro _
          apply writes_bind0 (writes_file_of _)
          intro file
          apply writes_bind0 (writes_ask _)
          intro r
          exact writes_bind0 (writes_emit _ (by rfl)) (fun _ => writes_set_eax _)

theorem writes_read (c : Consts) (env : Env) (m : Machine) (args : Nat) :
    Keeps (Writes 1) (syscall_read c env m args) := by
  unfold syscall_read
  apply writes_bind0 (writes_load32 _ _)
  intro w
  apply writes_bind0 (writes_load32 _ _)
  intro buffer
  apply writes_bind0 (writes_load32 _ _)
  intro size
  apply writes_bind0 (writes_check_ptr _ _ _)
  intro v1
  apply writes_bind0
  · split
    · exact writes_pure _
    · apply writes_bind0 (writes_check_ptr _ _ _)
      intro v2
      exact writes_pure _
  · intro bad
    split
    · exact keeps_fail_exit
    · split
      · exact writes_bind0 (writes_getc_loop _ _ _ _ _) (fun _ => writes_set_eax _)
      · apply writes_bind0 (writes_lookup _)
        intro file_descriptor
        split
        · exact keeps_fail_bind _
        · apply writes_bind0 (writes_pure _)
          intro _
          apply writes_bind0 (writes_file_of _)
          intro file
          apply writes_bind0 (writes_ask _)
          intro r
          exact writes_bind0 (writes_emit _ (by rfl)) (fun _ => writes_set_eax _)

theorem writes_create (c : Consts) (env : Env) (m : Machine) (args : Nat) :
    Keeps (Writes 1) (syscall_create c env m args) := by
  unfold syscall_create
  apply writes_bind0 (writes_load32 _ _)
  intro file
  apply writes_bind0 (writes_load32 _ _)
  intro initial_size
  apply writes_bind0 (writes_bad_string _ _ _)
  intro bad
  split
  · exact keeps_fail_exit
  · apply writes_bind0 (writes_ask _)
    intro r
    exact writes_bind0 (writes_emit _ (by rfl)) (fun _ => writes_set_eax _)

theorem writes_remove (c : Consts) (env : Env) (m : Machine) (args : Nat) :
    Keeps (Writes 1) (syscall_remove c env m args) := by
  unfold syscall_remove
  apply writes_bind0 (writes_load32 _ _)
  intro file
  apply writes_bind0 (writes_bad_string _ _ _)
  intro bad
  split
  · exact keeps_fail_exit
  · apply writes_bind0 (writes_ask _)
    intro r
    exact writes_bind0 (writes_emit _ (by rfl)) (fun _ => writes_set_eax _)

theorem writes_exec (c : Consts) (env : Env) (m : Machine) (args : Nat) :
    Keeps (Writes 1) (syscall_exec c env m args) := by
  unfold syscall_exec
  apply writes_bind0 (writes_load32 _ _)
  intro file
  apply writes_bind0 (writes_bad_string _ _ _)
  intro bad
  split
  · exact keeps_fail_exit
  · apply writes_bind0 (writes_ask _)
    intro r
    exact writes_bind0 (writes_emit _ (by rfl)) (fun _ => writes_set_eax _)

theorem writes_open (c : Consts) (env : Env) (m : Machine) (args : Nat) :
    Keeps (Writes 1) (syscall_open c env m args) := by
  unfold syscall_open
  apply writes_bind0 (writes_load32 _ _)
  intro file
  apply writes_bind0 (writes_bad_string _ _ _)
  intro bad
  split
  · exact keeps_fail_exit
  · apply writes_bind0 (writes_ask _)
    intro opened_file
    apply writes_bind0 (writes_emit _ (by rfl))
    intro _
    split
    · exact writes_set_eax _
    · exact writes_bind0 (writes_install_fd _ _) (fun _ => writes_set_eax _)

theorem writes_filesize (env : Env) (m : Machine) (args : Nat) :
    Keeps (Writes 1) (syscall_filesize env m args) := by
  unfold syscall_filesize
  apply writes_bind0 (writes_load32 _ _)
  intro w
  dsimp only
  split
  · exact keeps_fail_exit
  · apply writes_bind0 (writes_lookup _)
    intro file_descriptor
    split
    · exact keeps_fail_bind _
    · apply writes_bind0 (writes_pure _)
      intro _
      apply writes_bind0 (writes_file_of _)
      intro file
      apply writes_bind0 (writes_ask _)
      intro r
      exact writes_bind0 (writes_emit _ (by rfl)) (fun _ => writes_set_eax _)

theorem writes_seek (m : Machine) (args : Nat) :
    Keeps (Writes 1) (syscall_seek m args) := by
  unfold syscall_seek
  apply writes_bind0 (writes_load32 _ _)
  intro w
  apply writes_bind0 (writes_load32 _ _)
  intro position
  apply writes_bind0 (writes_lookup _)
  intro file_descriptor
  apply writes_bind0 (writes_file_of _)
  intro file
  exact writes_bind0 (writes_emit _ (by rfl)) (fun _ => writes_set_eax _)

theorem writes_tell (env : Env) (m : Machine) (args : Nat) :
    Keeps (Writes 1) (syscall_tell env m args) := by
  unfold syscall_tell
  apply writes_bind0 (writes_load32 _ _)
  intro w
  apply writes_bind0 (writes_lookup _)
  intro file_descriptor
  split
  · exact keeps_fail_bind _
  · apply writes_bind0 (writes_pure _)
    intro _
    apply writes_bind0 (writes_file_of _)
    intro file
    apply writes_bind0 (writes_ask _)
    intro r
    exact writes_bind0 (writes_emit _ (by rfl)) (fun _ => writes_set_eax _)

theorem writes_close (m : Machine) (args : Nat) :
    Keeps (Writes 1) (syscall_close m args) := by
  unfold syscall_close
  apply writes_bind0 (writes_load32 _ _)
  intro w
  apply writes_bind0 (writes_lookup _)
  intro file_descriptor
  split
  · exact keeps_fail_bind _
  · apply writes_bind0 (writes_pure _)
    intro _
    apply writes_bind0 (writes_file_of _)
    intro file
    apply writes_bind0 (writes_emit _ (by rfl))
    intro _
    apply writes_bind0 (writes_remove_fd _)
    intro _
    exact writes_bind0 (writes_emit _ (by rfl)) (fun _ => writes_set_eax _)

theorem writes_practice (m : Machine) (args : Nat) :
    Keeps (Writes 1) (syscall_practice m args) := by
  unfold syscall_practice
  exact writes_bind0 (writes_load32 _ _) (fun _ => writes_set_eax _)

theorem writes_wait (env : Env) (m : Machine) (args : Nat) :
    Keeps (Writes 1) (syscall_wait env m args) := by
  unfold syscall_wait
  apply writes_bind0 (writes_load32 _ _)
  intro w
  apply writes_bind0 (writes_ask _)
  intro r
  exact writes_bind0 (writes_emit _ (by rfl)) (fun _ => writes_set_eax _)

theorem writes_exit (m : Machine) (args : Nat) : Keeps (Writes 1) (syscall_exit m args) :=
  keeps_exit m args

theorem writes_halt : Keeps (Writes 1) syscall_halt :=
  keeps_halt

/-- Every handler that returns wrote `eax` exactly once. -/
theorem writes_func (c : Consts) (env : Env) (m : Machine) (args : Nat) (s : Sys) :
    Keeps (Writes 1) (s.func c env m args) := by
  cases s
  · exact writes_write c env m args
  · exact writes_create c env m args
  · exact writes_remove c env m args
  · exact writes_open c env m args
  · exact writes_filesize env m args
  · exact writes_read c env m args
  · exact writes_seek m args
  · exact writes_tell env m args
  · exact writes_close m args
  · exact writes_exit m args
  · exact writes_practice m args
  · exact writes_halt
  · exact writes_wait env m args
  · exact writes_exec c env m args

theorem writes_dispatch (c : Consts) (env : Env) (m : Machine) (args : Nat) (n : Int) :
    ∀ tbl : List syscall_descriptor_t, Keeps (Writes 1) (dispatch c env m args n tbl) := by
  intro tbl
  induction tbl with
  | nil => exact keeps_exit_error
  | cons d rest ih =>
    unfold dispatch
    split
    · dsimp only
      split
      · apply writes_bind0 writes_lock_acquire
        intro _
        exact writes_bind 1 0 (writes_func c env m args d.syscall_func)
          (fun _ => writes_lock_release)
      · apply writes_bind0 (writes_pure _)
        intro _
        exact writes_bind 1 0 (writes_func c env m args d.syscall_func)
          (fun _ => writes_pure _)
    · exact ih

theorem writes_handler (c : Consts) (env : Env) (m : Machine) (esp : Nat) :
    Keeps (Writes 1) (syscall_handler c env m esp) := by
  unfold syscall_handler
  apply writes_bind0 (writes_check_ptr _ _ _)
  intro v
  split
  · exact keeps_exit_error_bind _
  · apply writes_bind0 (writes_pure _)
    intro _
    apply writes_bind0 (writes_check_ptr _ _ _)
    intro v2
    split
    · exact keeps_exit_error_bind _
    · apply writes_bind0 (writes_pure _)
      intro _
      apply writes_bind0 (writes_load32 _ _)
      intro w
      exact writes_dispatch c env m esp _ _

/-! ## One write of the return slot per returning dispatch (C14) -/

/-- C14: whenever `syscall_handler` returns to the caller, the events of the
dispatch contain exactly one assignment to `f->eax`. -/
theorem eax_written_once (c : Consts) (env : Env) (m : Machine) (esp : Nat) (k k1 : Kernel)
    (h : syscall_handler c env m esp k = .ok () k1) :
    ∃ es, k1.trace = k.trace ++ es ∧ es.countP Event.is_set_eax = 1 :=
  writes_handler c env m esp k () k1 h

/-- Instance of C14: the dispatch of `open ("f")`, which returns 2. -/
theorem eax_written_once_witness :
    ∃ k1 es, syscall_handler sample_consts sample_env open_mem 0xbffffff0 k_init = .ok () k1 ∧
      k1.trace = k_init.trace ++ es ∧ es.countP Event.is_set_eax = 1 ∧ k1.eax = 2 := by
  obtain ⟨es, h1, h2⟩ := eax_written_once sample_consts sample_env open_mem 0xbffffff0 k_init _ rfl
  exact ⟨_, es, rfl, h1, h2, rfl⟩

/-! ## What a handler does to the descriptor list and the counter -/

theorem to_int_to_u32 (i : Int) (hlo : -2147483648 ≤ i) (hhi : i < 2147483648) :
    to_int (to_u32 i) = i := by
  unfold to_int to_u32
  split <;> omega

theorem frame_table_same : Frame TableSame :=
  ⟨fun _ _ _ h12 h23 => ⟨h23.1.trans h12.1, h23.2.trans h12.2⟩,
   fun _ _ hf hc _ _ => ⟨hf, hc⟩⟩

theorem frame_table_shrinks : Frame TableShrinks :=
  ⟨fun _ _ _ h12 h23 => ⟨h23.1.trans h12.1, h23.2.trans h12.2⟩,
   fun _ _ hf hc _ _ => ⟨by rw [hf], hc⟩⟩

theorem always_bind2 {α β : Type} {R1 R2 R3 : Kernel → Kernel → Prop} {x : K α} {f : α → K β}
    (h13 : ∀ k k1, R1 k k1 → R3 k k1) (hcomp : ∀ k k1 k2, R1 k k1 → R2 k1 k2 → R3 k k2)
    (hx : Always R1 x) (hf : ∀ a, Always R2 (f a)) : Always R3 (x >>= f) := by
  intro k
  have h1 := hx k
  simp only [bind_eq, K.bind]
  cases h : x k with
  | ok a k1 =>
    rw [h] at h1
    exact hcomp _ _ _ h1 (hf a k1)
  | exited k1 => rw [h] at h1; exact h13 _ _ h1
  | halted k1 => rw [h] at h1; exact h13 _ _ h1
  | page_fault a k1 => rw [h] at h1; exact h13 _ _ h1
  | null_deref k1 => rw [h] at h1; exact h13 _ _ h1
  | hang k1 => rw [h] at h1; exact h13 _ _ h1

theorem always_keeps {α : Type} {R : Kernel → Kernel → Prop} {x : K α} (h : Always R x) :
    Keeps R x := by
  intro k a k1 hk
  have h1 := h k
  rw [hk] at h1
  exact h1

theorem always_weaken {α : Type} {R1 R2 : Kernel → Kernel → Prop} {x : K α}
    (h12 : ∀ k k1, R1 k k1 → R2 k k1) (h : Always R1 x) : Always R2 x :=
  fun k => h12 _ _ (h k)

theorem remove_in_sublist (l : List file_descriptor_t) (n : Int) : (remove_in l n).Sublist l := by
  induction l with
  | nil => exact List.Sublist.refl _
  | cons x rest ih =>
    unfold remove_in
    split
    · exact List.sublist_cons_self _ _
    · exact ih.cons₂ _

theorem always_remove_shrinks (fd : Int) : Always TableShrinks (remove_fd fd) :=
  fun _ => ⟨remove_in_sublist _ _, rfl⟩

theorem table_same_step (k k1 : Kernel) (h : TableSame k k1) : TableStep k k1 :=
  Or.inl ⟨by rw [h.1], h.2⟩

theorem table_same_then_step (k k1 k2 : Kernel) (h1 : TableSame k k1) (h2 : TableStep k1 k2) :
    TableStep k k2 := by
  unfold TableStep TableShrinks at *
  rw [h1.1, h1.2] at h2
  exact h2

theorem table_step_then_same (k k1 k2 : Kernel) (h1 : TableStep k k1) (h2 : TableSame k1 k2) :
    TableStep k k2 := by
  unfold TableStep TableShrinks at *
  rw [h2.1, h2.2]
  exact h1

theorem always_install_step (env : Env) (h : Nat) : Always TableStep (install_fd env h) := by
  intro k
  simp only [install_fd, Kernel.logs]
  split
  · exact Or.inr ⟨rfl, Or.inl rfl⟩
  · exact Or.inr ⟨rfl, Or.inr ⟨h, rfl⟩⟩

theorem always_open_step (c : Consts) (env : Env) (m : Machine) (args : Nat) :
    Always TableStep (syscall_open c env m args) := by
  unfold syscall_open
  apply always_bind2 table_same_step table_same_then_step (always_load32 frame_table_same _ _)
  intro file
  apply always_bind2 table_same_step table_same_then_step
    (always_bad_string frame_table_same _ _ _)
  intro bad
  split
  · exact always_weaken table_same_step (always_fail_exit frame_table_same)
  · apply always_bind2 table_same_step table_same_then_step (always_ask frame_table_same _)
    intro opened_file
    apply always_bind2 table_same_step table_same_then_step
      (always_emit frame_table_same _ (by rfl))
    intro _
    split
    · exact always_weaken table_same_step (always_set_eax frame_table_same _)
    · exact always_bind2 (fun _ _ h => h) table_step_then_same (always_install_step env _)
        (fun _ => always_set_eax frame_table_same _)

/-- Every handler other than `open` leaves the counter alone and at most takes
entries out of the descriptor list, however it ends. -/
theorem func_shrinks (c : Consts) (env : Env) (m : Machine) (args : Nat) (s : Sys)
    (hs : s ≠ .open) : Always TableShrinks (s.func c env m args) := by
  cases s
  · exact always_write frame_table_shrinks c env m args
  · exact always_create frame_table_shrinks c env m args
  · exact always_remove frame_table_shrinks c env m args
  · exact absurd rfl hs
  · exact always_filesize frame_table_shrinks env m args
  · exact always_read frame_table_shrinks c env m args
  · exact always_seek frame_table_shrinks m args
  · exact always_tell frame_table_shrinks env m args
  · exact always_close frame_table_shrinks m args (fun _ _ => always_remove_shrinks _)
  · exact always_exit frame_table_shrinks m args
  · exact always_practice frame_table_shrinks m args
  · exact always_halt frame_table_shrinks
  · exact always_wait frame_table_shrinks env m args
  · exact always_exec frame_table_shrinks c env m args

/-- The effect of any handler on the descriptor list and the counter, however
it ends. -/
theorem func_step (c : Consts) (env : Env) (m : Machine) (args : Nat) (s : Sys) :
    Always TableStep (s.func c env m args) := by
  by_cases hs : s = .open
  · subst hs
    exact always_open_step c env m args
  · exact always_weaken (fun _ _ h => Or.inl h) (func_shrinks c env m args s hs)

/-- A handler that returns either left the counter alone, at most took entries
out of the list and, if it is `open`, returned -1; or it is `open`, appended
an entry with the old counter as its fileno, advanced the counter and returned
the old counter. -/
theorem func_ok_step {c : Consts} {env : Env} {m : Machine} {args : Nat} {s : Sys}
    {k k1 : Kernel} (h : s.func c env m args k = .ok () k1) :
    (TableShrinks k k1 ∧ (s = .open → k1.eax = to_u32 (-1))) ∨
    (s = .open ∧ k1.eax = to_u32 k.cur.last_fileno ∧
      k1.cur.last_fileno = to_int (to_u32 (k.cur.last_fileno + 1)) ∧
      ∃ hdl, k1.cur.file_descriptors = k.cur.file_descriptors ++ [⟨k.cur.last_fileno, hdl⟩]) := by
  by_cases hs : s = .open
  · subst hs
    obtain ⟨file, es, _, _, h1 | ⟨hdl, p, _, _, h1⟩⟩ := open_ok_inv h
    · left
      rw [h1]
      exact ⟨⟨List.Sublist.refl _, rfl⟩, fun _ => rfl⟩
    · right
      rw [h1]
      exact ⟨rfl, rfl, rfl, hdl, rfl⟩
  · left
    exact ⟨always_keeps (func_shrinks c env m args s hs) _ _ _ h, fun h1 => absurd h1 hs⟩

/-- Without overflow, a step keeps the filenos distinct and below the counter,
and the counter does not fall. -/
theorem table_ok_step {k k1 : Kernel} (hok : TableOk k)
    (hlo : -2147483648 ≤ k.cur.last_fileno) (hhi : k.cur.last_fileno < 2147483647)
    (h : TableStep k k1) :
    TableOk k1 ∧ k.cur.last_fileno ≤ k1.cur.last_fileno ∧
      k1.cur.last_fileno ≤ k.cur.last_fileno + 1 := by
  have hw : to_int (to_u32 (k.cur.last_fileno + 1)) = k.cur.last_fileno + 1 :=
    to_int_to_u32 _ (by omega) (by omega)
  rcases h with ⟨hsub, hc⟩ | ⟨hc, hf | ⟨hdl, hf⟩⟩
  · refine ⟨⟨(hsub.map _).nodup hok.1, fun d hd => ?_⟩, by omega, by omega⟩
    rw [hc]
    exact hok.2 d (hsub.subset hd)
  · rw [hw] at hc
    refine ⟨⟨by rw [hf]; exact hok.1, fun d hd => ?_⟩, by omega, by omega⟩
    rw [hf] at hd
    have := hok.2 d hd
    omega
  · rw [hw] at hc
    refine ⟨⟨?_, fun d hd => ?_⟩, by omega, by omega⟩
    · rw [hf, List.map_append, List.nodup_append]
      refine ⟨hok.1, List.nodup_singleton _, ?_⟩
      intro a ha hb
      simp only [List.map_cons, List.map_nil, List.mem_singleton] at hb
      obtain ⟨d, hd, hda⟩ := List.mem_map.1 ha
      have := hok.2 d hd
      omega
    · rw [hf] at hd
      rcases List.mem_append.1 hd with hd | hd
      · have := hok.2 d hd
        omega
      · simp only [List.mem_singleton] at hd
        rw [hd, hc]
        simp

/-! ## Sequences of calls and the filenos they return -/

theorem opened_cons_inv {c : Consts} {env : Env} {x : Call} {xs : List Call} {k k2 : Kernel}
    {ns : List Int} (h : opened_filenos c env (x :: xs) k = some (ns, k2)) :
    ∃ k1 ns1, x.sys.func c env x.m x.args k = .ok () k1 ∧
      opened_filenos c env xs k1 = some (ns1, k2) ∧
      ns = if x.sys = .open ∧ to_int k1.eax ≠ -1 then to_int k1.eax :: ns1 else ns1 := by
  unfold opened_filenos at h
  split at h
  · rename_i u k1 hx
    split at h
    · rename_i ns1 k3 hxs
      split at h
      · rename_i hc
        simp only [Option.some.injEq, Prod.mk.injEq] at h
        exact ⟨k1, ns1, hx, by rw [hxs, h.2], by rw [if_pos hc]; exact h.1.symm⟩
      · rename_i hc
        simp only [Option.some.injEq, Prod.mk.injEq] at h
        exact ⟨k1, ns1, hx, by rw [hxs, h.2], by rw [if_neg hc]; exact h.1.symm⟩
    · simp at h
  · simp at h

theorem opened_run {c : Consts} {env : Env} :
    ∀ (calls : List Call) (k k2 : Kernel) (ns : List Int),
      opened_filenos c env calls k = some (ns, k2) → run_calls c env calls k = some k2 := by
  intro calls
  induction calls with
  | nil =>
    intro k k2 ns h
    simp only [opened_filenos, Option.some.injEq, Prod.mk.injEq] at h
    simp [run_calls, h.2]
  | cons x xs ih =>
    intro k k2 ns h
    obtain ⟨k1, ns1, hx, hxs, _⟩ := opened_cons_inv h
    unfold run_calls
    rw [hx]
    exact ih _ _ _ hxs

theorem opened_append {c : Consts} {env : Env} (post : List Call) :
    ∀ (pre : List Call) (k k2 : Kernel) (ns : List Int),
      opened_filenos c env (pre ++ post) k = some (ns, k2) →
      ∃ ns1 k1 ns2, opened_filenos c env pre k = some (ns1, k1) ∧
        opened_filenos c env post k1 = some (ns2, k2) ∧ ns = ns1 ++ ns2 := by
  intro pre
  induction pre with
  | nil =>
    intro k k2 ns h
    exact ⟨[], k, ns, rfl, h, rfl⟩
  | cons x xs ih =>
    intro k k2 ns h
    obtain ⟨k1, ns1, hx, hxs, hns⟩ := opened_cons_inv h
    obtain ⟨na, ka, nb, ha, hb, hab⟩ := ih _ _ _ hxs
    refine ⟨if x.sys = .open ∧ to_int k1.eax ≠ -1 then to_int k1.eax :: na else na, ka, nb,
      ?_, hb, ?_⟩
    · unfold opened_filenos
      rw [hx]
      simp only [ha]
      split <;> rfl
    · rw [hns, hab]
      split <;> rfl

/-- A returning call made without overflow: the table stays in order and the
counter moves up by at most one; a fileno returned by `open` is the counter
before the call, which then moved; under a counter that is not negative every
other call leaves the counter alone. -/
theorem call_ok_step {c : Consts} {env : Env} {x : Call} {k k1 : Kernel}
    (hok : TableOk k) (hlo : -2147483648 ≤ k.cur.last_fileno)
    (hhi : k.cur.last_fileno < 2147483647)
    (hx : x.sys.func c env x.m x.args k = .ok () k1) :
    TableOk k1 ∧ k.cur.last_fileno ≤ k1.cur.last_fileno ∧
      k1.cur.last_fileno ≤ k.cur.last_fileno + 1 ∧
      (x.sys = .open ∧ to_int k1.eax ≠ -1 →
        to_int k1.eax = k.cur.last_fileno ∧ k1.cur.last_fileno = k.cur.last_fileno + 1) ∧
      (0 ≤ k.cur.last_fileno → ¬ (x.sys = .open ∧ to_int k1.eax ≠ -1) →
        k1.cur.last_fileno = k.cur.last_fileno) := by
  have hst : TableStep k k1 := by
    have h := func_step c env x.m x.args x.sys k
    rw [hx] at h
    exact h
  obtain ⟨h1, h2, h3⟩ := table_ok_step hok hlo hhi hst
  refine ⟨h1, h2, h3, ?_, ?_⟩
  · rintro ⟨ho, hne⟩
    rcases func_ok_step hx with ⟨_, he⟩ | ⟨_, he, hc, _⟩
    · exact absurd (by rw [he ho]; rfl) hne
    · rw [he, hc, to_int_to_u32 _ hlo (by omega), to_int_to_u32 _ (by omega) (by omega)]
      exact ⟨rfl, rfl⟩
  · intro h0 hn
    rcases func_ok_step hx with ⟨hs, _⟩ | ⟨ho, he, hc, _⟩
    · exact hs.2
    · rw [he, to_int_to_u32 _ hlo (by omega)] at hn
      exact absurd ⟨ho, by omega⟩ hn

theorem opened_bounds {c : Consts} {env : Env} :
    ∀ (calls : List Call) (k k2 : Kernel) (ns : List Int),
      TableOk k → -2147483648 ≤ k.cur.last_fileno →
      k.cur.last_fileno + calls.length < 2147483648 →
      opened_filenos c env calls k = some (ns, k2) →
      ns.Pairwise (· < ·) ∧ (∀ n ∈ ns, k.cur.last_fileno ≤ n) ∧ TableOk k2 ∧
        k.cur.last_fileno ≤ k2.cur.last_fileno ∧
        k2.cur.last_fileno ≤ k.cur.last_fileno + calls.length := by
  intro calls
  induction calls with
  | nil =>
    intro k k2 ns hok _ _ h
    simp only [opened_filenos, Option.some.injEq, Prod.mk.injEq] at h
    rw [← h.1, ← h.2]
    exact ⟨List.Pairwise.nil, by simp, hok, le_refl _, by simp⟩
  | cons x xs ih =>
    intro k k2 ns hok hlo hhi h
    rw [List.length_cons] at hhi
    obtain ⟨k1, ns1, hx, hxs, hns⟩ := opened_cons_inv h
    obtain ⟨hok1, hc1, hc2, hopen, _⟩ := call_ok_step hok hlo (by omega) hx
    obtain ⟨hp, hge, hok2, hc3, hc4⟩ := ih k1 k2 ns1 hok1 (by omega) (by omega) hxs
    rw [List.length_cons]
    by_cases hcond : x.sys = .open ∧ to_int k1.eax ≠ -1
    · rw [if_pos hcond] at hns
      obtain ⟨hret, hnext⟩ := hopen hcond
      rw [hns]
      refine ⟨List.Pairwise.cons ?_ hp, ?_, hok2, by omega, by omega⟩
      · intro n hn
        have := hge n hn
        omega
      · intro n hn
        rcases List.mem_cons.1 hn with hn | hn
        · omega
        · have := hge n hn
          omega
    · rw [if_neg hcond] at hns
      rw [hns]
      refine ⟨hp, ?_, hok2, by omega, by omega⟩
      intro n hn
      have := hge n hn
      omega

/-- The first fileno a sequence of calls returns from `open` is the counter at
the start of the sequence. -/
theorem opened_head {c : Consts} {env : Env} :
    ∀ (calls : List Call) (k k2 : Kernel) (n : Int) (ns : List Int),
      0 ≤ k.cur.last_fileno → k.cur.last_fileno < 2147483648 →
      opened_filenos c env calls k = some (n :: ns, k2) → n = k.cur.last_fileno := by
  intro calls
  induction calls with
  | nil =>
    intro k k2 n ns _ _ h
    simp [opened_filenos] at h
  | cons x xs ih =>
    intro k k2 n ns hlo hhi h
    obtain ⟨k1, ns1, hx, hxs, hns⟩ := opened_cons_inv h
    rcases func_ok_step hx with ⟨hs, he⟩ | ⟨ho, he, _, _⟩
    · have hcond : ¬ (x.sys = .open ∧ to_int k1.eax ≠ -1) := by
        rintro ⟨ho, hne⟩
        exact hne (by rw [he ho]; rfl)
      rw [if_neg hcond] at hns
      rw [← hns] at hxs
      rw [← hs.2]
      exact ih k1 k2 n ns (by rw [hs.2]; exact hlo) (by rw [hs.2]; exact hhi) hxs
    · have hret : to_int k1.eax = k.cur.last_fileno := by
        rw [he]
        exact to_int_to_u32 _ (by omega) hhi
      have hcond : x.sys = .open ∧ to_int k1.eax ≠ -1 := ⟨ho, by omega⟩
      rw [if_pos hcond, hret] at hns
      simp only [List.cons.injEq] at hns
      exact hns.1

theorem close_ok_mem {m : Machine} {args : Nat} {k k1 : Kernel} {n : Int}
    (hn : (peek32 m (padd args 4)).map to_int = some n)
    (h : syscall_close m args k = .ok () k1) :
    ∃ d ∈ k.cur.file_descriptors, d.fileno = n := by
  cases hp : peek32 m (padd args 4) with
  | none => simp [hp] at hn
  | some w =>
    simp only [hp, Option.map_some', Option.some.injEq] at hn
    cases hf : find_file_descriptor (to_int w) k with
    | none =>
      rw [close_unknown m args k w hp hf] at h
      exact absurd h (fail_exit_not_ok _ _ _)
    | some d =>
      have h1 := find_in_some hf
      exact ⟨d, h1.2, by rw [h1.1, hn]⟩

/-! ## Filenos 0 and 1 stay out of the table (C13) -/

/-- Counterexample to C13 as stated: with an empty table and the counter at
`INT_MAX`, both at least 2, a successful `open` returns and leaves the counter
at `INT_MIN`, which is below 2. -/
theorem open_at_int_max_counter_below_two :
    (∀ d ∈ k_max.cur.file_descriptors, 2 ≤ d.fileno) ∧ 2 ≤ k_max.cur.last_fileno ∧
    ∃ k1, Sys.func sample_consts sample_env open_mem 0xbffffff0 .open k_max = .ok () k1 ∧
      k1.cur.last_fileno = -2147483648 ∧ ¬ 2 ≤ k1.cur.last_fileno := by
  refine ⟨by decide, by decide, _, rfl, ?_, ?_⟩ <;> decide

/-- C13, amended: if every table entry has fileno at least 2 and the counter is
at least 2 and below `INT_MAX`, then after any handler, however it ends, every
table entry still has fileno at least 2 and the counter is still at least 2;
and when the counter is 2, the first fileno that a sequence of returning calls
gets from `open` is 2. -/
theorem reserved_filenos_kept (c : Consts) (env : Env) (m : Machine) (args : Nat) (s : Sys)
    (k : Kernel) (hfd : ∀ d ∈ k.cur.file_descriptors, 2 ≤ d.fileno)
    (hc : 2 ≤ k.cur.last_fileno) (hmax : k.cur.last_fileno < 2147483647) :
    (∀ d ∈ (s.func c env m args k).state.cur.file_descriptors, 2 ≤ d.fileno) ∧
    2 ≤ (s.func c env m args k).state.cur.last_fileno ∧
    (k.cur.last_fileno = 2 → ∀ calls n ns k2,
      opened_filenos c env calls k = some (n :: ns, k2) → n = 2) := by
  have hw : to_int (to_u32 (k.cur.last_fileno + 1)) = k.cur.last_fileno + 1 :=
    to_int_to_u32 _ (by omega) (by omega)
  refine ⟨?_, ?_, ?_⟩
  · intro d hd
    rcases func_step c env m args s k with ⟨hsub, _⟩ | ⟨_, hf | ⟨hdl, hf⟩⟩
    · exact hfd d (hsub.subset hd)
    · rw [hf] at hd
      exact hfd d hd
    · rw [hf] at hd
      rcases List.mem_append.1 hd with hd | hd
      · exact hfd d hd
      · simp only [List.mem_singleton] at hd
        rw [hd]
        exact hc
  · rcases func_step c env m args s k with ⟨_, hcnt⟩ | ⟨hcnt, _⟩
    · rw [hcnt]
      exact hc
    · rw [hcnt, hw]
      omega
  · intro h2 calls n ns k2 h
    rw [← h2]
    exact opened_head calls k k2 n ns (by omega) (by omega) h

/-- Instance of the amended C13: `open ("f")` in the initial state, whose
counter is 2, returns 2 and leaves the entry with fileno 2 and the counter 3. -/
theorem reserved_filenos_kept_witness :
    (∀ d ∈ k_init.cur.file_descriptors, 2 ≤ d.fileno) ∧ 2 ≤ k_init.cur.last_fileno ∧
    k_init.cur.last_fileno < 2147483647 ∧
    (∀ d ∈ (Sys.func sample_consts sample_env open_mem 0xbffffff0 .open
        k_init).state.cur.file_descriptors, 2 ≤ d.fileno) ∧
    2 ≤ (Sys.func sample_consts sample_env open_mem 0xbffffff0 .open
        k_init).state.cur.last_fileno ∧
    (Sys.func sample_consts sample_env open_mem 0xbffffff0 .open
        k_init).state.cur.file_descriptors = [⟨2, 0xc0100000⟩] ∧
    ∃ k2, opened_filenos sample_consts sample_env sample_calls k_init = some (2 :: [3], k2) :=
  have h := reserved_filenos_kept sample_consts sample_env open_mem 0xbffffff0 .open k_init
    (by decide) (by decide) (by decide)
  ⟨by decide, by decide, by decide, h.1, h.2.1, by rfl, _, rfl⟩

/-! ## Filenos are handed out in increasing order (C12) -/

/-- C12: in a sequence of returning calls during which the counter does not
overflow, started in a state whose table has pairwise distinct filenos below
the counter, the filenos returned by `open` are strictly increasing in call
order, hence pairwise distinct; the state after every prefix of the sequence
has pairwise distinct filenos below the counter; and the fileno of a returning
`close` is not among the filenos that `open` returns later in the sequence. -/
theorem opened_filenos_increasing (c : Consts) (env : Env) (calls : List Call) (k k2 : Kernel)
    (ns : List Int) (hok : TableOk k) (hlo : -2147483648 ≤ k.cur.last_fileno)
    (hhi : k.cur.last_fileno + calls.length < 2147483648)
    (h : opened_filenos c env calls k = some (ns, k2)) :
    ns.Pairwise (· < ·) ∧ ns.Nodup ∧
    (∀ pre post, calls = pre ++ post →
      ∃ k1, run_calls c env pre k = some k1 ∧ TableOk k1) ∧
    (∀ pre x post n, calls = pre ++ x :: post → x.is_close n →
      ∃ k0 k1 ns2, run_calls c env pre k = some k0 ∧
        x.sys.func c env x.m x.args k0 = .ok () k1 ∧
        opened_filenos c env post k1 = some (ns2, k2) ∧ n ∉ ns2) := by
  have hp := (opened_bounds calls k k2 ns hok hlo hhi h).1
  refine ⟨hp, hp.imp (fun hab => ne_of_lt hab), ?_, ?_⟩
  · intro pre post hsplit
    subst hsplit
    rw [List.length_append] at hhi
    obtain ⟨ns1, k1, ns2, ha, _, _⟩ := opened_append post pre k k2 ns h
    exact ⟨k1, opened_run _ _ _ _ ha, (opened_bounds pre k k1 ns1 hok hlo (by omega) ha).2.2.1⟩
  · intro pre x post n hsplit hcl
    subst hsplit
    rw [List.length_append, List.length_cons] at hhi
    obtain ⟨ns1, k0, nsb, ha, hb, _⟩ := opened_append (x :: post) pre k k2 ns h
    obtain ⟨k1, ns2, hx, hxs, _⟩ := opened_cons_inv hb
    obtain ⟨_, _, hok0, hc0, hc0'⟩ := opened_bounds pre k k0 ns1 hok hlo (by omega) ha
    obtain ⟨hok1, hc1, hc1', _, _⟩ := call_ok_step hok0 (by omega) (by omega) hx
    obtain ⟨_, hge, _, _, _⟩ := opened_bounds post k1 k2 ns2 hok1 (by omega) (by omega) hxs
    have hclose : syscall_close x.m x.args k0 = .ok () k1 := by
      rw [hcl.1] at hx
      exact hx
    obtain ⟨d, hd, hdn⟩ := close_ok_mem hcl.2 hclose
    have hlt := hok0.2 d hd
    refine ⟨k0, k1, ns2, opened_run _ _ _ _ ha, hx, hxs, ?_⟩
    intro hmem
    have := hge n hmem
    omega

/-- Instance of C12: from the initial state the calls `open`, `close (2)`,
`open` return the filenos 2 and 3: the retired 2 is not handed out again. -/
theorem opened_filenos_increasing_witness :
    TableOk k_init ∧ ∃ k2,
      opened_filenos sample_consts sample_env sample_calls k_init = some ([2, 3], k2) ∧
      [(2 : Int), 3].Pairwise (· < ·) ∧
      (∃ k1, run_calls sample_consts sample_env sample_calls k_init = some k1 ∧ TableOk k1) ∧
      ∃ k0 k1 ns2,
        run_calls sample_consts sample_env [⟨.open, open_mem, 0xbffffff0⟩] k_init = some k0 ∧
        syscall_close close_mem 0xbffffff0 k0 = .ok () k1 ∧
        opened_filenos sample_consts sample_env [⟨.open, open_mem, 0xbffffff0⟩] k1 =
          some (ns2, k2) ∧ 2 ∉ ns2 := by
  have hok : TableOk k_init := ⟨List.nodup_nil, fun _ hd => absurd hd (List.not_mem_nil _)⟩
  obtain ⟨k2, hk2⟩ : ∃ k2,
      opened_filenos sample_consts sample_env sample_calls k_init = some ([2, 3], k2) :=
    ⟨_, rfl⟩
  have h := opened_filenos_increasing sample_consts sample_env sample_calls k_init k2 [2, 3]
    hok (by decide) (by decide) hk2
  exact ⟨hok, k2, hk2, h.1, h.2.2.1 sample_calls [] (by simp),
    h.2.2.2 [⟨.open, open_mem, 0xbffffff0⟩] ⟨.close, close_mem, 0xbffffff0⟩
      [⟨.open, open_mem, 0xbffffff0⟩] 2 rfl ⟨rfl, by decide⟩⟩

end Pintos
